import Mathlib

/-!
# Tree generation on the RP2040: a verification development

Shallow embedding of `Trees_w3_fft.c` (and the shared routines of
`Trees_w3_2.c`, `L_system.c`, `fern_w2.c`).

Conventions of the embedding:

* a C array of `fix15` is a `List Int`; `a[i]` is `a.getD i 0`, `a[i] = v` is `a.set i v`;
* an `unsigned short` is a `Nat` reduced `% 65536` after every assignment;
* a C string is the `List Char` of its characters before the terminator;
* behaviour the C standard leaves undefined is an explicit `Fault`.
-/

namespace Trees

/-! ## Definitions -/

/-! ### Constants of `Trees_w3_fft.c` -/

/-- Number of samples per FFT. -/
def NUM_SAMPLES : Nat := 1024

/-- Number of samples per FFT, minus 1. -/
def NUM_SAMPLES_M_1 : Nat := 1023

/-- Length of short (16 bits) minus log2 number of samples. -/
def SHIFT_AMOUNT : Nat := 6

/-- Log2 number of samples. -/
def LOG2_NUM_SAMPLES : Nat := 10

/-! ### `FFTfix`: bit reversal stage -/

/-- The four mask-and-shift assignments to the `unsigned short mr` in the loop body of the
bit reversal stage (lines 123 to 129); each assignment truncates to 16 bits. -/
def reverse16 (m : Nat) : Nat :=
  let mr := (((m >>> 1) &&& 0x5555) ||| ((m &&& 0x5555) <<< 1)) % 65536
  let mr := (((mr >>> 2) &&& 0x3333) ||| ((mr &&& 0x3333) <<< 2)) % 65536
  let mr := (((mr >>> 4) &&& 0x0F0F) ||| ((mr &&& 0x0F0F) <<< 4)) % 65536
  let mr := (((mr >>> 8) &&& 0x00FF) ||| ((mr &&& 0x00FF) <<< 8)) % 65536
  mr

/-- The value of `mr` after `mr >>= SHIFT_AMOUNT` (line 131), the shift amount being a
parameter so that other buffer sizes can be instantiated. -/
def reversedIndex (shiftAmount m : Nat) : Nat :=
  (reverse16 m >>> shiftAmount) % 65536

/-- The three-assignment swap `t = a[m]; a[m] = a[mr]; a[mr] = t`. -/
def swapAt (a : List Int) (m mr : Nat) : List Int :=
  let t := a.getD m 0
  let a := a.set m (a.getD mr 0)
  a.set mr t

/-- One iteration of the bit reversal loop on the pair `(fr, fi)` (lines 122 to 140). -/
def bitReversalBody (shiftAmount : Nat) (st : List Int × List Int) (m : Nat) :
    List Int × List Int :=
  let mr := reversedIndex shiftAmount m
  if mr ≤ m then st
  else (swapAt st.1 m mr, swapAt st.2 m mr)

/-- The loop `for (m=1; m<NUM_SAMPLES_M_1; m++)` of the bit reversal stage, with the two
macros it depends on as parameters. The counter `m` is an `unsigned short`, so the loop is
the one written here as long as `numSamplesM1` is at most 65535. -/
def bitReversalWith (numSamplesM1 shiftAmount : Nat) (fr fi : List Int) :
    List Int × List Int :=
  (List.range' 1 (numSamplesM1 - 1)).foldl (bitReversalBody shiftAmount) (fr, fi)

/-- The bit reversal stage of `FFTfix` as compiled: `NUM_SAMPLES_M_1 = 1023`,
`SHIFT_AMOUNT = 6`. -/
def bitReversal (fr fi : List Int) : List Int × List Int :=
  bitReversalWith NUM_SAMPLES_M_1 SHIFT_AMOUNT fr fi

/-- Specification side: the number whose low `k` bits are those of `m` in reverse order
(bit `j` of `m` becomes bit `k - 1 - j`), every higher bit being zero. -/
def reverseLowBits : Nat → Nat → Nat
  | 0, _ => 0
  | k + 1, m => (m % 2) * 2 ^ k + reverseLowBits k (m / 2)

/-! ### L-system: data (lines 237 to 280) -/

/-- Undefined behaviour of the C program, made explicit. Nothing in the source detects or
reports these situations; the embedding stops at them because the C semantics gives the
continuation no meaning. -/
inductive Fault where
  /-- A write past the end of a 10000-byte block (`strcpy`, `strcat` or `s[len + 1]`). -/
  | bufferOverflow
  /-- The call `popstate()` while `state` points to the static base node `Sta`: the node is
  handed to `free` although it was never allocated. -/
  | popBaseState
  deriving DecidableEq, Repr

deriving instance DecidableEq for Except

/-- A node of the rule list: `pred` and `succ`; the `next` pointer is the tail of the
`List Rule` that holds the node. -/
structure Rule where
  pred : Char
  succ : List Char
  deriving DecidableEq, Repr

/-- The `struct Lsystem` (without the unused `name`). The field `axm` is the C field
`axiom`. Angles are whole degrees: every angle the program installs is an integer of small
magnitude, which `float` stores, adds and compares exactly. -/
structure Lsystem where
  axm : List Char
  rules : List Rule
  linelen : Int
  initangle : Int
  leftangle : Int
  rightangle : Int
  deriving Repr

/-- A snapshot node `struct State` allocated by `pushstate`; the `prev` pointer is the tail
of the list that holds the node. -/
structure State where
  x : Int
  y : Int
  angle : Int
  deriving DecidableEq, Repr

/-- One call `drawLine(x0, y0, x1, y1, color)`, the coordinates already cast to `short`. -/
structure DrawLine where
  x0 : Int
  y0 : Int
  x1 : Int
  y1 : Int
  color : Nat
  deriving DecidableEq, Repr

/-- The global turtle variables `x_cur`, `y_cur`, `angle_cur` and `state`, together with the
calls of `drawLine` issued so far (oldest first). `state` lists the heap nodes from the top
of the stack down to, and excluding, the static base node `Sta`. -/
structure Turtle where
  x_cur : Int
  y_cur : Int
  angle_cur : Int
  state : List State
  drawn : List DrawLine
  deriving DecidableEq, Repr

/-- The floating-point part of `forward`, left uninterpreted:
`addCos x len a` stands for the `int` assigned from `x + len * cos(a * (PI / 180.0))` and
`addSin y len a` for the one assigned from `y + len * sin(a * (PI / 180.0))`. -/
structure Trig where
  addCos : Int → Int → Int → Int
  addSin : Int → Int → Int → Int

/-- Size in bytes of the blocks `malloc(10000)` that hold `s` and `curgen`. -/
def GEN_BYTES : Nat := 10000

/-! ### L-system: stack, rewriting and turtle moves (lines 282 to 359) -/

/-- The function `pushstate`. -/
def pushstate (t : Turtle) : Turtle :=
  { t with state := { x := t.x_cur, y := t.y_cur, angle := t.angle_cur } :: t.state }

/-- The function `popstate`. -/
def popstate (t : Turtle) : Except Fault Turtle :=
  match t.state with
  | [] => .error .popBaseState
  | s :: prev => .ok { t with x_cur := s.x, y_cur := s.y, angle_cur := s.angle, state := prev }

/-- The function `production`: walk the rule list from its head. -/
def production : List Rule → Char → Option (List Char)
  | [], _ => none
  | r :: next, c => if r.pred = c then some r.succ else production next c

/-- The loop of `nextgen` over the remaining symbols `p` of `curgen`, `s` being the string
built so far. Each append must leave room for the terminator inside the block. -/
def nextgenLoop (rules : List Rule) : List Char → List Char → Except Fault (List Char)
  | [], s => .ok s
  | c :: p, s =>
    match production rules c with
    | some q =>
      if s.length + q.length + 1 ≤ GEN_BYTES then nextgenLoop rules p (s ++ q)
      else .error .bufferOverflow
    | none =>
      if s.length + 1 + 1 ≤ GEN_BYTES then nextgenLoop rules p (s ++ [c])
      else .error .bufferOverflow

/-- The function `nextgen`: the new value of `curgen`. The final `strcpy(curgen, s)` fits
whenever `s` itself fitted its block, both blocks having the same size. -/
def nextgen (rules : List Rule) (curgen : List Char) : Except Fault (List Char) :=
  nextgenLoop rules curgen []

/-- The loop `for (i = 0; i < iteration; i++) nextgen();` (lines 514 to 517). -/
def nextgenTimes (rules : List Rule) : Nat → List Char → Except Fault (List Char)
  | 0, curgen => .ok curgen
  | n + 1, curgen =>
    match nextgen rules curgen with
    | .error e => .error e
    | .ok s => nextgenTimes rules n s

/-- Lines 512 to 517: `curgen = malloc(10000); strcpy(curgen, ls->axiom);` followed by
`iteration` calls of `nextgen`. -/
def generate (ls : Lsystem) (iteration : Nat) : Except Fault (List Char) :=
  if ls.axm.length + 1 ≤ GEN_BYTES then nextgenTimes ls.rules iteration ls.axm
  else .error .bufferOverflow

/-- The cast `(short)` of an `int`. -/
def toShort (n : Int) : Int := (n + 32768) % 65536 - 32768

/-- The function `forward`. -/
def forward (tr : Trig) (ls : Lsystem) (color : Nat) (t : Turtle) : Turtle :=
  let x1 := tr.addCos t.x_cur ls.linelen t.angle_cur
  let y1 := tr.addSin t.y_cur ls.linelen t.angle_cur
  { t with
    drawn := t.drawn ++
      [{ x0 := toShort t.x_cur, y0 := toShort t.y_cur, x1 := toShort x1, y1 := toShort y1,
         color := color }]
    x_cur := x1
    y_cur := y1 }

/-- The arithmetic of `rotate` on `angle_cur`, on whole degrees. In the source `angle_cur`
is a `float` (a `double` in `L_system.c`); `rotateBinary32` below is the same arithmetic on
`float` values, and the two agree on whole-degree angles of magnitude below `2 ^ 24`,
where no operation of `rotate` rounds. -/
def rotateAngle (angle_cur angle_delta : Int) : Int :=
  let a := angle_cur + angle_delta
  let a := if a ≥ 360 then a - 360 else a
  let a := if a ≤ 0 then a + 360 else a
  a

/-- The function `rotate`. -/
def rotate (angle_delta : Int) (t : Turtle) : Turtle :=
  { t with angle_cur := rotateAngle t.angle_cur angle_delta }

/-! ### Turtle: `rotate` on `float` values (lines 352 to 359) -/

/-- The number of binary digits of `n` (0 for 0). -/
def bitLengthAux : Nat → Nat → Nat
  | 0, _ => 0
  | fuel + 1, n => if n = 0 then 0 else bitLengthAux fuel (n / 2) + 1

/-- The number of binary digits of `n`; `n` itself is fuel enough. -/
def bitLength (n : Nat) : Nat := bitLengthAux n n

/-- One degree in the units of the `float` model of the heading: a value `x` stands for
the angle `x / 2 ^ 40` degrees. Every `float` of magnitude between `2 ^ (-16)` and
`2 ^ 128`, and every `float` below that with a multiple of `2 ^ (-40)` as its value, is
such an angle. -/
def angleUnit : Int := 2 ^ 40

/-- Rounding to the nearest `float` (IEEE 754 binary32: 24 significant bits, ties to the
even significand), on angles in units of `2 ^ (-40)` degree of magnitude below `2 ^ 128`
degrees. The arithmetic of `rotate` is `float` plus `float` (line 354) and `float` plus or
minus the `double` constant `360.0`, computed in `double` and converted back to `float`
(lines 356 and 358). Both operands of the latter are `float` values, and `double` carries
53 significant bits, more than `2 * 24 + 2`, so rounding the `double` result to `float`
gives the same value as rounding the exact result once: every operation of `rotate` is
the exact result rounded to `float`. -/
def roundBinary32 (x : Int) : Int :=
  let a := x.natAbs
  let drop := bitLength a - 24
  let q := a / 2 ^ drop
  let r := a % 2 ^ drop
  let q := if 2 * r > 2 ^ drop ∨ (2 * r = 2 ^ drop ∧ q % 2 = 1) then q + 1 else q
  x.sign * ((q * 2 ^ drop : Nat) : Int)

/-- The arithmetic of `rotate` on the `float` variable `angle_cur` (lines 354 to 358), on
angles in units of `2 ^ (-40)` degree. -/
def rotateBinary32 (angle_cur angle_delta : Int) : Int :=
  let a := roundBinary32 (angle_cur + angle_delta)
  let a := if a ≥ 360 * angleUnit then roundBinary32 (a - 360 * angleUnit) else a
  let a := if a ≤ 0 then roundBinary32 (a + 360 * angleUnit) else a
  a

/-! ### L-system: interpretation (lines 518 to 539) -/

/-- The `switch (*s)` of the interpretation loop; there is no `default` label. -/
def interpretSymbol (tr : Trig) (ls : Lsystem) (color : Nat) (c : Char) (t : Turtle) :
    Except Fault Turtle :=
  if c = 'X' then .ok t
  else if c = 'F' then .ok (forward tr ls color t)
  else if c = '-' then .ok (rotate ls.leftangle t)
  else if c = '+' then .ok (rotate ls.rightangle t)
  else if c = '[' then .ok (pushstate t)
  else if c = ']' then popstate t
  else .ok t

/-- The loop `for (char* s = curgen; *s != 0; s++)` around the `switch`. -/
def interpret (tr : Trig) (ls : Lsystem) (color : Nat) : List Char → Turtle → Except Fault Turtle
  | [], t => .ok t
  | c :: s, t =>
    match interpretSymbol tr ls color c t with
    | .error e => .error e
    | .ok t1 => interpret tr ls color s t1

/-- The turtle at the start of an epoch (lines 502 to 509): position `(320, 480)`, heading
`initangle`, `state` pointing to the base node. -/
def initialTurtle (ls : Lsystem) : Turtle :=
  { x_cur := 320, y_cur := 480, angle_cur := ls.initangle, state := [], drawn := [] }

/-- The rule installed at lines 485 to 488: `F -> F[+F]F[-F]F`. -/
def treeRules : List Rule := [{ pred := 'F', succ := "F[+F]F[-F]F".toList }]

/-- The L-system installed before the first epoch (lines 485 to 496). -/
def firstLsystem : Lsystem :=
  { axm := "F".toList, rules := treeRules, linelen := 3, initangle := -90,
    leftangle := -30, rightangle := 30 }

/-! ### L-system: specification side -/

/-- The image of one symbol under a rule list: the successor that `production` returns,
or the symbol itself when `production` returns `NULL`. -/
def symbolImage (rules : List Rule) (c : Char) : List Char :=
  match production rules c with
  | some q => q
  | none => [c]

/-- Bracket depth after reading `s` from depth `d`; `none` when some `]` has no open `[`
before it. -/
def bracketDepth : Nat → List Char → Option Nat
  | d, [] => some d
  | d, c :: s =>
    if c = '[' then bracketDepth (d + 1) s
    else if c = ']' then
      match d with
      | 0 => none
      | d + 1 => bracketDepth d s
    else bracketDepth d s

/-- A string is bracket-balanced when every `]` closes an earlier `[` and none stays open. -/
def Balanced (s : List Char) : Prop := bracketDepth 0 s = some 0

instance (s : List Char) : Decidable (Balanced s) := by
  unfold Balanced
  infer_instance

/-- The symbols that the `switch` of the interpretation loop acts on. -/
def isTurtleCommand (c : Char) : Bool :=
  c = 'F' || c = '+' || c = '-' || c = '[' || c = ']'

/-- A run of the embedding has defined behaviour when it ends in `.ok`. The C functions
embedded here return `void`: within defined behaviour they have no way to signal an error,
and a `Fault` is not a report but the absence of any defined outcome. -/
def Defined {α : Type} (r : Except Fault α) : Prop := ∃ a, r = .ok a

/-! ### L-system: the presets (lines 543 to 580) -/

/-- What the three branches on `rule_num` install: axiom, rule list and iteration count.
Line length, angles and colour are drawn independently of the branch. -/
structure Preset where
  axm : List Char
  rules : List Rule
  iteration : Nat
  deriving Repr

/-- The branch taken for `rule_num = rand() % 3` (lines 543 to 580). In the first two
branches `ptr_r1->next = ptr_r2`, in the last one `ptr_r1->next = NULL`. -/
def presetOf (rule_num : Int) : Preset :=
  if rule_num = 0 then
    { iteration := 6, axm := "X".toList,
      rules := [{ pred := 'X', succ := "F[+X]F[-X]+X".toList },
                { pred := 'F', succ := "FF".toList }] }
  else if rule_num = 1 then
    { iteration := 6, axm := "X".toList,
      rules := [{ pred := 'X', succ := "F[+X][-X]FX".toList },
                { pred := 'F', succ := "FF".toList }] }
  else
    { iteration := 4, axm := "F".toList,
      rules := [{ pred := 'F', succ := "F[+F]F[-F]F".toList }] }

/-- The value of `iteration` before the first epoch (line 498). -/
def firstIteration : Nat := 4

/-! ### Fixed point macros (lines 43 to 53) -/

/-- The value of an integer in a signed 32-bit `int`: a narrowing cast, or the wrap-around
of `int` arithmetic on the two's-complement target. -/
def toInt32 (n : Int) : Int := (n + 2147483648) % 4294967296 - 2147483648

/-- The value of an integer in a `signed long long`. -/
def toInt64 (n : Int) : Int :=
  (n + 9223372036854775808) % 18446744073709551616 - 9223372036854775808

/-- The values of a signed 32-bit `int`, the type behind `fix15`. -/
def IsInt32 (n : Int) : Prop := -2147483648 ≤ n ∧ n < 2147483648

instance (n : Int) : Decidable (IsInt32 n) := by
  unfold IsInt32
  infer_instance

/-- The macro `multfix15(a,b)`: both operands cast to `signed long long`, the product
shifted right by 15 (an arithmetic shift on the target) and cast to `fix15`. -/
def multfix15 (a b : Int) : Int :=
  toInt32 (toInt64 (toInt64 a * toInt64 b) >>> (15 : Nat))

/-- The macro `int2fix15(a)`, that is `(fix15)(a << 15)`; the target shifts a negative
`int` like the multiplication by `2 ^ 15` reduced to 32 bits. -/
def int2fix15 (a : Int) : Int := toInt32 (a * 32768)

/-- The macro `fix2int15(a)`, that is `(int)(a >> 15)` with an arithmetic shift. -/
def fix2int15 (a : Int) : Int := toInt32 (a >>> (15 : Nat))

/-- Modelled from the spec: the function `div_s64s64` of the Pico SDK (`pico/divider.h`),
which no file under `src` defines. It is the integer division of two `signed long long`,
and like the operator `/` of C it drops the fractional part of the quotient (rounds toward
zero). The divisor 0 is outside the model. -/
def div_s64s64 (a b : Int) : Int := toInt64 (Int.tdiv a b)

/-- The macro `divfix(a,b)`: the numerator cast to `signed long long` and shifted left by
15, divided by the denominator with `div_s64s64`, the quotient cast to `fix15`. -/
def divfix (a b : Int) : Int :=
  toInt32 (div_s64s64 (toInt64 (toInt64 a * 32768)) (toInt64 b))

/-! ### Barnsley fern: maps and thresholds (lines 192 to 232) -/

/-- Maximum number of iterations. -/
def max_count : Nat := 1000

/-- The coefficient globals of the four state transition equations. -/
structure FernCoeffs where
  f1y_coeff_1 : Int
  f2x_coeff_1 : Int
  f2x_coeff_2 : Int
  f2y_coeff_1 : Int
  f2y_coeff_2 : Int
  f2y_coeff_3 : Int
  f3x_coeff_1 : Int
  f3x_coeff_2 : Int
  f3y_coeff_1 : Int
  f3y_coeff_2 : Int
  f3y_coeff_3 : Int
  f4x_coeff_1 : Int
  f4x_coeff_2 : Int
  f4y_coeff_1 : Int
  f4y_coeff_2 : Int
  f4y_coeff_3 : Int
  deriving DecidableEq, Repr

/-- The initial values of the coefficient globals: `float2fix15(c)` is `c * 32768.0`
converted to `int`, which drops the fractional part (0.16 gives 5242.88, hence 5242;
-0.08 gives -2621.44, hence -2621; and so on). -/
def initialCoeffs : FernCoeffs :=
  { f1y_coeff_1 := 5242
    f2x_coeff_1 := 26869, f2x_coeff_2 := 2621
    f2y_coeff_1 := -2621, f2y_coeff_2 := 27852, f2y_coeff_3 := 52428
    f3x_coeff_1 := 6553, f3x_coeff_2 := 8519
    f3y_coeff_1 := 7536, f3y_coeff_2 := 7208, f3y_coeff_3 := 52428
    f4x_coeff_1 := -4915, f4x_coeff_2 := 9175
    f4y_coeff_1 := 8519, f4y_coeff_2 := 7864, f4y_coeff_3 := 14417 }

/-- The macro `F1x(a,b)`. -/
def F1x (_c : FernCoeffs) (_a _b : Int) : Int := 0

/-- The macro `F1y(a,b)`. -/
def F1y (c : FernCoeffs) (a _b : Int) : Int := multfix15 a c.f1y_coeff_1

/-- The macro `F2x(a,b)`. -/
def F2x (c : FernCoeffs) (a b : Int) : Int :=
  toInt32 (multfix15 c.f2x_coeff_1 a + multfix15 c.f2x_coeff_2 b)

/-- The macro `F2y(a,b)`. -/
def F2y (c : FernCoeffs) (a b : Int) : Int :=
  toInt32 (toInt32 (multfix15 c.f2y_coeff_1 a + multfix15 c.f2y_coeff_2 b) + c.f2y_coeff_3)

/-- The macro `F3x(a,b)`. -/
def F3x (c : FernCoeffs) (a b : Int) : Int :=
  toInt32 (multfix15 c.f3x_coeff_1 a - multfix15 c.f3x_coeff_2 b)

/-- The macro `F3y(a,b)`. -/
def F3y (c : FernCoeffs) (a b : Int) : Int :=
  toInt32 (toInt32 (multfix15 c.f3y_coeff_1 a + multfix15 c.f3y_coeff_2 b) + c.f3y_coeff_3)

/-- The macro `F4x(a,b)`. -/
def F4x (c : FernCoeffs) (a b : Int) : Int :=
  toInt32 (multfix15 c.f4x_coeff_1 a + multfix15 c.f4x_coeff_2 b)

/-- The macro `F4y(a,b)`. -/
def F4y (c : FernCoeffs) (a b : Int) : Int :=
  toInt32 (toInt32 (multfix15 c.f4y_coeff_1 a + multfix15 c.f4y_coeff_2 b) + c.f4y_coeff_3)

/-- Probability threshold of the first map. -/
def F1_THRESH : Int := 21474835

/-- Probability threshold of the second map. -/
def F2_THRESH : Int := 1846835936

/-- Probability threshold of the third map. -/
def F3_THRESH : Int := 1997159792

/-- Modelled from the spec: the constant `RAND_MAX` of the C library, the largest value
`rand()` returns, which no file under `src` defines; it is `2 ^ 31 - 1`. -/
def RAND_MAX : Int := 2147483647

/-- The four branches of the `if` chain on `test` (lines 653 to 668). -/
inductive Branch where
  | F1
  | F2
  | F3
  | F4
  deriving DecidableEq, Repr

/-- The branch that the `if` chain takes for the draw `test`. -/
def selectBranch (test : Int) : Branch :=
  if test < F1_THRESH then .F1
  else if test < F2_THRESH then .F2
  else if test < F3_THRESH then .F3
  else .F4

/-- The assignments to `x_new` and `y_new` inside a branch. -/
def applyBranch (c : FernCoeffs) (b : Branch) (p : Int × Int) : Int × Int :=
  match b with
  | .F1 => (F1x c p.1 p.2, F1y c p.1 p.2)
  | .F2 => (F2x c p.1 p.2, F2y c p.1 p.2)
  | .F3 => (F3x c p.1 p.2, F3y c p.1 p.2)
  | .F4 => (F4x c p.1 p.2, F4y c p.1 p.2)

/-! ### Barnsley fern: the chaos game of `protothread_fern` (lines 604 to 681) -/

/-- The variables of `protothread_fern` that the chaos game reads or writes: the
coefficient globals, `vga_scale`, the running point and the four leaf arrays. -/
structure Fern where
  coeffs : FernCoeffs
  vga_scale : Int
  x_old : Int
  y_old : Int
  scaled_x_left : List Int
  scaled_y_left : List Int
  scaled_x_right : List Int
  scaled_y_right : List Int
  deriving DecidableEq, Repr

/-- The state when the thread first reaches its `while(1)` (line 637): `x_old = 0`, `y_old = 0`
(lines 612 and 613), `vga_scale = float2fix15(30)`, and the four local arrays with whatever
the stack holds. -/
def initialFern (xl yl xr yr : List Int) : Fern :=
  { coeffs := initialCoeffs, vga_scale := 983040, x_old := 0, y_old := 0,
    scaled_x_left := xl, scaled_y_left := yl, scaled_x_right := xr, scaled_y_right := yr }

/-- The values that the calls of `rand()` contribute to one tree: the four coefficients
of the second map after `float2fix15`, the integer scale, and the draw `test i` of
iteration `i` of the chaos game. -/
structure TreeDraws where
  f2x_coeff_1 : Int
  f2x_coeff_2 : Int
  f2y_coeff_1 : Int
  f2y_coeff_3 : Int
  vga_scale_int : Int
  test : Nat → Int

/-- Lines 641 to 646: the second map is randomized and `vga_scale` set. -/
def beginTree (d : TreeDraws) (s : Fern) : Fern :=
  { s with
    coeffs := { s.coeffs with
      f2x_coeff_1 := d.f2x_coeff_1, f2x_coeff_2 := d.f2x_coeff_2,
      f2y_coeff_1 := d.f2y_coeff_1, f2y_coeff_3 := d.f2y_coeff_3 }
    vga_scale := int2fix15 d.vga_scale_int }

/-- The body of the loop `for (int i=0; i<max_count; i++)` (lines 651 to 680) for the
draw `test`. The locals `scaled_x` and `scaled_y` are written and never read. -/
def chaosBody (test : Int) (i : Nat) (s : Fern) : Fern :=
  let new := applyBranch s.coeffs (selectBranch test) (s.x_old, s.y_old)
  let x_new := new.1
  let y_new := new.2
  { s with
    scaled_x_left := s.scaled_x_left.set i (multfix15 s.vga_scale (F3x s.coeffs x_new y_new))
    scaled_y_left := s.scaled_y_left.set i (multfix15 s.vga_scale (F3y s.coeffs x_new y_new))
    scaled_x_right := s.scaled_x_right.set i (multfix15 s.vga_scale (F4x s.coeffs x_new y_new))
    scaled_y_right := s.scaled_y_right.set i (multfix15 s.vga_scale (F4y s.coeffs x_new y_new))
    x_old := x_new
    y_old := y_new }

/-- The first `n` iterations of the chaos game loop. -/
def chaosIterations (test : Nat → Int) (n : Nat) (s : Fern) : Fern :=
  (List.range n).foldl (fun s i => chaosBody (test i) i s) s

/-- The loop `for (int i=0; i<max_count; i++)` of one tree. -/
def chaosLoop (test : Nat → Int) (s : Fern) : Fern :=
  chaosIterations test max_count s

/-- One pass of the loop over the trees, as far as the chaos game goes (lines 640 to 681);
the drawing that follows reads the arrays and changes none of these variables. -/
def growTree (s : Fern) (d : TreeDraws) : Fern :=
  chaosLoop d.test (beginTree d s)

/-- The loop `for (int i = 0; i < num_trees; i++)` over the draws of the successive trees:
one pass, from the state `s` at its start. In `Trees_w3_fft.c` the thread yields between
two passes (`PT_YIELD_UNTIL`, line 721) and `x_old`, `y_old` and the arrays are automatic
variables, which a protothread does not keep across a yield: the state at the start of a
later pass is not determined by the pass before it. -/
def growTrees (ds : List TreeDraws) (s : Fern) : Fern :=
  ds.foldl growTree s

/-- Specification side: the sequence of points of a chaos game that starts at `p`, the
point number `n + 1` being the image of point number `n` under the map drawn by `test n`. -/
def orbit (c : FernCoeffs) (test : Nat → Int) (p : Int × Int) : Nat → Int × Int
  | 0 => p
  | n + 1 => applyBranch c (selectBranch (test n)) (orbit c test p n)

/-! ### `FFTfix`: Danielson-Lanczos part (lines 148 to 184) -/

/-- The variables of the `while (L < NUM_SAMPLES)` loop: the length `L` of the FFTs being
combined, the shift `k` for the sine table look-up, and the two arrays. -/
structure FFTState where
  L : Nat
  k : Int
  fr : List Int
  fi : List Int
  deriving DecidableEq, Repr

/-- The index `j = m << k` of the sine table (line 159); `k` is not negative whenever
the line is reached. -/
def sineIndex (k : Int) (m : Nat) : Nat := m <<< k.toNat

/-- Lines 159 to 163: the halved trigonometric values `(wr, wi)` for the element `m`. -/
def twiddle (Sinewave : List Int) (k : Int) (m : Nat) : Int × Int :=
  let j := sineIndex k m
  let wr := Sinewave.getD (j + NUM_SAMPLES / 4) 0
  let wi := toInt32 (-(Sinewave.getD j 0))
  (wr >>> (1 : Nat), wi >>> (1 : Nat))

/-- Lines 169 to 178 on the values read: from `(fr[i], fi[i])` and `(fr[j], fi[j])` to the
new `(fr[i], fi[i])` and the new `(fr[j], fi[j])`. -/
def butterflyValues (wr wi : Int) (xi xj : Int × Int) : (Int × Int) × (Int × Int) :=
  let tr := toInt32 (multfix15 wr xj.1 - multfix15 wi xj.2)
  let ti := toInt32 (multfix15 wr xj.2 + multfix15 wi xj.1)
  let qr := xi.1 >>> (1 : Nat)
  let qi := xi.2 >>> (1 : Nat)
  ((toInt32 (qr + tr), toInt32 (qi + ti)), (toInt32 (qr - tr), toInt32 (qi - ti)))

/-- The body of the innermost loop (lines 166 to 178) for the index `i`. -/
def butterfly (wr wi : Int) (L : Nat) (st : List Int × List Int) (i : Nat) :
    List Int × List Int :=
  let j := i + L
  let v := butterflyValues wr wi (st.1.getD i 0, st.2.getD i 0) (st.1.getD j 0, st.2.getD j 0)
  let fr := st.1.set j v.2.1
  let fi := st.2.set j v.2.2
  let fr := fr.set i v.1.1
  let fi := fi.set i v.1.2
  (fr, fi)

/-- The loop `for (i=m; i<NUM_SAMPLES; i+=istep)`. -/
def butterflyLoop (wr wi : Int) (L istep m : Nat) (st : List Int × List Int) :
    List Int × List Int :=
  (List.range' m ((NUM_SAMPLES - m + istep - 1) / istep) istep).foldl (butterfly wr wi L) st

/-- The loop `for (m=0; m<L; ++m)`. -/
def elementLoop (Sinewave : List Int) (L : Nat) (k : Int) (st : List Int × List Int) :
    List Int × List Int :=
  (List.range L).foldl
    (fun st m => butterflyLoop (twiddle Sinewave k m).1 (twiddle Sinewave k m).2 L (L <<< 1) m st)
    st

/-- One pass through the body of `while (L < NUM_SAMPLES)` (lines 155 to 182). -/
def danielsonLanczosStage (Sinewave : List Int) (s : FFTState) : FFTState :=
  let r := elementLoop Sinewave s.L s.k (s.fr, s.fi)
  { L := s.L <<< 1, k := s.k - 1, fr := r.1, fi := r.2 }

/-- The loop `while (L < NUM_SAMPLES)`, with a bound `fuel` on the number of passes;
`none` when the bound is reached before the loop ends. -/
def danielsonLanczos (Sinewave : List Int) : Nat → FFTState → Option FFTState
  | 0, s => if s.L < NUM_SAMPLES then none else some s
  | fuel + 1, s =>
    if s.L < NUM_SAMPLES then danielsonLanczos Sinewave fuel (danielsonLanczosStage Sinewave s)
    else some s

/-- The state at line 153, after the bit reversal: `L = 1`, `k = LOG2_NUM_SAMPLES - 1`. -/
def fftStart (fr fi : List Int) : FFTState :=
  { L := 1, k := (LOG2_NUM_SAMPLES : Int) - 1, fr := fr, fi := fi }

/-- The function `FFTfix`: bit reversal, then the Danielson-Lanczos loop. -/
def FFTfix (Sinewave fr fi : List Int) (fuel : Nat) : Option (List Int × List Int) :=
  (danielsonLanczos Sinewave fuel
      (fftStart (bitReversal fr fi).1 (bitReversal fr fi).2)).map
    (fun s => (s.fr, s.fi))

/-! ### The spectral task `protothread_fft` (lines 392 to 445) -/

/-- The global `zero_point_4 = float2fix15(0.4)`: 0.4 * 32768 is 13107.2. -/
def zero_point_4 : Int := 13107

/-- The library function `abs` on `int`; the negation wraps for the minimum value. -/
def absInt (a : Int) : Int := toInt32 (if a < 0 then -a else a)

/-- The macro `max(a,b)`, that is `((a>b)?a:b)`. -/
def maxMacro (a b : Int) : Int := if a > b then a else b

/-- The macro `min(a,b)`, that is `((a<b)?a:b)`. -/
def minMacro (a b : Int) : Int := if a < b then a else b

/-- Lines 398 to 401: the samples are copied and windowed into `fr`, and `fi` is zeroed. -/
def windowSamples (sample_array window : List Int) : List Int × List Int :=
  ((List.range NUM_SAMPLES).map
      (fun i => multfix15 (int2fix15 (sample_array.getD i 0)) (window.getD i 0)),
   List.replicate NUM_SAMPLES 0)

/-- The variables of the magnitude loop: the arrays, `max_fr` and `max_fr_dex`. -/
structure PeakState where
  fr : List Int
  fi : List Int
  max_fr : Int
  max_fr_dex : Nat
  deriving DecidableEq, Repr

/-- The body of the loop `for (int i = 0; i < (NUM_SAMPLES>>1); i++)` (lines 416 to 426). -/
def magnitudeBody (s : PeakState) (i : Nat) : PeakState :=
  let fr := s.fr.set i (absInt (s.fr.getD i 0))
  let fi := s.fi.set i (absInt (s.fi.getD i 0))
  let fr := fr.set i
    (toInt32 (maxMacro (fr.getD i 0) (fi.getD i 0)
      + multfix15 (minMacro (fr.getD i 0) (fi.getD i 0)) zero_point_4))
  if fr.getD i 0 > s.max_fr ∧ i > 4 then
    { fr := fr, fi := fi, max_fr := fr.getD i 0, max_fr_dex := i }
  else
    { s with fr := fr, fi := fi }

/-- Lines 404, 405 and 414 to 427: `max_fr` and `max_fr_dex` are zeroed, then the
magnitudes of the first `NUM_SAMPLES>>1` bins are computed and the largest one tracked. -/
def magnitudeLoop (fr fi : List Int) : PeakState :=
  (List.range (NUM_SAMPLES >>> 1)).foldl magnitudeBody
    { fr := fr, fi := fi, max_fr := 0, max_fr_dex := 0 }

/-- Line 429: `max_freqency = max_fr_dex * (Fs/NUM_SAMPLES)`, with `Fs = 10000.0`; the
product is a multiple of `1/64` that `float` holds exactly. -/
def frequencyOfBin (max_fr_dex : Nat) : ℚ := (max_fr_dex : ℚ) * (10000 / 1024)

/-- Specification side: the estimate "alpha max plus beta min" of the magnitude of
`re + i im`, with `beta` the fixed-point constant `c`. -/
def alphaMaxBetaMin (c re im : Int) : Int :=
  max |re| |im| + multfix15 (min |re| |im|) c

/-- The value that one pass of the magnitude loop leaves in `fr[i]`, as a function of the
values `re` of `fr[i]` and `im` of `fi[i]` that it finds there (lines 416 to 420). -/
def storedMagnitude (re im : Int) : Int :=
  toInt32 (maxMacro (absInt re) (absInt im)
    + multfix15 (minMacro (absInt re) (absInt im)) zero_point_4)

/-! ### Proof-side definitions for the range analysis of the transform -/

/-- Proof side: every entry of the array lies in `[-B, B]`. -/
def WithinBound (B : Int) (l : List Int) : Prop :=
  ∀ i, -B ≤ l.getD i 0 ∧ l.getD i 0 ≤ B

/-- Proof side: the range `[-stageBound B, stageBound B]` holds the outputs of one stage of
the combination loop whose inputs lie in `[-B, B]`. -/
def stageBound (B : Int) : Int := 3 * (B / 2) + 3

/-- Proof side: the invariant of one stage of the combination loop: every entry lies in the
output range, and every entry whose index is still in `R` lies in the input range. -/
def StageInv (B : Int) (R : Nat → Prop) (st : List Int × List Int) : Prop :=
  (WithinBound (stageBound B) st.1 ∧ WithinBound (stageBound B) st.2) ∧
  ∀ idx, R idx →
    (-B ≤ st.1.getD idx 0 ∧ st.1.getD idx 0 ≤ B) ∧ (-B ≤ st.2.getD idx 0 ∧ st.2.getD idx 0 ≤ B)

/-- Proof side: the indexes that the stage of length `L` has not written yet when it is at
element `m` and has done `t` butterflies for it. -/
def Untouched (L m t : Nat) (idx : Nat) : Prop :=
  m < idx % L ∨ (idx % L = m ∧ t ≤ idx / (2 * L))

/-! ### The grammar task `protothread_lsys`: pacing and parameters (lines 475 to 586) -/

/-- The `if` chain of lines 476 to 484 on the value read from the global `max_freqency`.
The values the spectral task stores there are `max_fr_dex * 9.765625` with
`max_fr_dex < 512`, which `float` holds exactly, so the comparisons are those of rationals. -/
def pickSleeptime (max_freqency : ℚ) : Int :=
  if max_freqency ≤ 100 then 6
  else if max_freqency ≤ 300 then 5
  else 4

/-- The locals of `protothread_lsys` that live across passes of its `while(1)`, with the
L-system behind the global pointer `ls`. The thread never yields, so they keep their
values. -/
structure LsysLocals where
  sleeptime : Int
  ls : Lsystem
  color_ls : Int
  iteration : Nat
  deriving Repr

/-- Lines 475 to 498, run once when the thread starts: `sleeptime` from the global
`max_freqency` as it is then, the first L-system, `color_ls = 2`, `iteration = 4`. -/
def lsysBegin (max_freqency : ℚ) : LsysLocals :=
  { sleeptime := pickSleeptime max_freqency, ls := firstLsystem, color_ls := 2,
    iteration := firstIteration }

/-- The values returned by the five calls of `rand()` in the parameter update at the end of
a pass, in program order. -/
structure LsysDraws where
  rule : Int
  len : Int
  left : Int
  right : Int
  color : Int
  deriving Repr

/-- Lines 543 to 586: the parameter update at the end of a pass. The operator `%` of C
truncates, and `-rand()%11` is `(-rand()) % 11`. Nothing here assigns `sleeptime`. -/
def lsysUpdate (d : LsysDraws) (s : LsysLocals) : LsysLocals :=
  let rule_num := Int.tmod d.rule 3
  let color := Int.tmod d.color 7 + 1
  { s with
    iteration := (presetOf rule_num).iteration
    ls :=
      { axm := (presetOf rule_num).axm
        rules := (presetOf rule_num).rules
        linelen :=
          if rule_num = 0 then Int.tmod d.len 2 + 2
          else if rule_num = 1 then Int.tmod d.len 3 + 2
          else Int.tmod d.len 2 + 3
        initangle := -90
        leftangle := Int.tmod (-d.left) 11 - 25
        rightangle := Int.tmod d.right 11 + 25 }
    color_ls := if color = 4 then 3 else color }

/-- What happens around the grammar task, in time order: the spectral task stores a new
value in `max_freqency` (line 429), or the grammar task runs one pass of its `while(1)`
with the given draws. -/
inductive LsysEvent where
  | publish (f : ℚ)
  | epoch (d : LsysDraws)

/-- The global `max_freqency`, the locals of the grammar task, and, for every pass done so
far, the argument of the calls `sleep_ms(sleeptime)` of that pass (line 524). -/
structure LsysWorld where
  max_freqency : ℚ
  locals : LsysLocals
  delays : List Int

/-- One event. A pass of the loop (lines 499 to 593) reads `sleeptime` and does not read
`max_freqency`. -/
def lsysEvent (w : LsysWorld) : LsysEvent → LsysWorld
  | .publish f => { w with max_freqency := f }
  | .epoch d =>
    { w with locals := lsysUpdate d w.locals, delays := w.delays ++ [w.locals.sleeptime] }

/-- The grammar task started while `max_freqency` holds `f0`, followed by the events. -/
def lsysRun (f0 : ℚ) (events : List LsysEvent) : LsysWorld :=
  events.foldl lsysEvent { max_freqency := f0, locals := lsysBegin f0, delays := [] }

/-- Specification side: the delay of every pass picked from the frequency last published
before that pass. -/
def delaysBySpec : ℚ → List LsysEvent → List Int
  | _, [] => []
  | _, .publish f :: es => delaysBySpec f es
  | f, .epoch _ :: es => pickSleeptime f :: delaysBySpec f es

/-! ### The fractal task: horizontal placement of the trees -/

/-- The two constants of the loop over the trees: `num_trees` and the amount added to
`tree_x` after each tree. -/
structure Placement where
  num_trees : Nat
  stride : Int
  deriving DecidableEq, Repr

/-- The constants of `Trees_w3_fft.c` (lines 635 and 718) and of `Trees_w3_2.c` (lines 410
and 491): two trees, `tree_x += 320`. -/
def placementW3 : Placement := { num_trees := 2, stride := 320 }

/-- The constants of `fern_w2.c` (lines 118 and 200): three trees, `tree_x += 160`. -/
def placementW2 : Placement := { num_trees := 3, stride := 160 }

/-- The first argument of the two calls of `drawPixel` (lines 707 and 708): the column of a
leaf point is its offset within the tree plus `tree_x`. -/
def pixelColumn (x_shrinked x_offset tree_x : Int) : Int :=
  toInt32 (toInt32 (x_shrinked >>> (15 : Nat) + x_offset) + tree_x)

/-- The variable `tree_x` and, for the trees drawn so far in this pass, the value of
`tree_x` each one was drawn with. -/
structure PlacementState where
  tree_x : Int
  origins : List Int
  deriving DecidableEq, Repr

/-- One pass of the loop `for(int i = 0; i < num_trees; i++)` as far as `tree_x` goes: the
tree is drawn with the current `tree_x`, then `tree_x += stride`. -/
def placeTree (p : Placement) (s : PlacementState) : PlacementState :=
  { tree_x := toInt32 (s.tree_x + p.stride), origins := s.origins ++ [s.tree_x] }

/-- The loop over the trees of one pass. -/
def placeTrees (p : Placement) (s : PlacementState) : PlacementState :=
  (List.range p.num_trees).foldl (fun s _ => placeTree p s) s

/-- One pass of the outer loop started with the given `tree_x`: the trees, then
`tree_x = 160` (line 726; line 205 of `fern_w2.c`). -/
def placementEpoch (p : Placement) (tree_x : Int) : PlacementState :=
  { tree_x := 160, origins := (placeTrees p { tree_x := tree_x, origins := [] }).origins }

/-- The value of `tree_x` when pass number `n` of the outer loop starts: 160 from the
declaration (line 636) before the first pass. -/
def treeXAtEpoch (p : Placement) : Nat → Int
  | 0 => 160
  | n + 1 => (placementEpoch p (treeXAtEpoch p n)).tree_x

/-! ### The two completion flags of `Trees_w3_fft.c` -/

/-- The two renderer tasks; each runs on its own core. -/
inductive Task where
  | lsys
  | fern
  deriving DecidableEq, Repr

/-- Where `protothread_lsys` stands in a pass of its `while(1)`: before
`finish_ls = false` (line 500), in the interpreter loop with `made` draw calls done, before
`finish_ls = true` (line 587), at `while(!finish_fern);` (line 590), at `sleep_ms(2000)`
(line 591), before `fillRect(0,0,640,480,BLACK)` (line 592). -/
inductive LsysPc where
  | clearFlag
  | drawing (made : Nat)
  | setFlag
  | poll
  | sleep
  | clear
  deriving DecidableEq, Repr

/-- Where `protothread_fern` stands in a pass of its `while(1)`: before
`finish_fern = false` (line 638), in the loop over the trees with `made` draw calls done,
before `finish_fern = true` (line 720), at `PT_YIELD_UNTIL(pt,finish_ls==true)` (line 721),
at `sleep_ms(2000)` (line 723), before `tree_x = 160` (line 726). -/
inductive FernPc where
  | clearFlag
  | drawing (made : Nat)
  | setFlag
  | poll
  | sleep
  | resetX
  deriving DecidableEq, Repr

/-- How many draw calls each task makes in its pass number `e`. -/
structure DrawCounts where
  lsys : Nat → Nat
  fern : Nat → Nat

/-- A canvas clear as it happened: the pass of the grammar task that it ends, the pass of
the fractal task whose `finish_fern = true` wrote the value that the grammar task read at
line 590, and whether the fractal task was between two draw calls of a pass. -/
structure ClearRecord where
  epoch : Nat
  seen : Nat
  fernInFlight : Bool
  deriving DecidableEq, Repr

/-- The two flags (lines 186 and 187), the position of each task, and bookkeeping that the
program does not hold: the number of passes each task has completed, the pass of the
fractal task that last wrote `true` to `finish_fern`, the pass whose value the grammar task
read when it left line 590, and the clears so far. -/
structure Handshake where
  finish_fern : Bool
  finish_ls : Bool
  lsysPc : LsysPc
  fernPc : FernPc
  lsysEpoch : Nat
  fernEpoch : Nat
  fernStamp : Nat
  seen : Nat
  clears : List ClearRecord
  deriving DecidableEq, Repr

/-- Both threads at the top of their loops, both flags `false`. -/
def handshakeStart : Handshake :=
  { finish_fern := false, finish_ls := false, lsysPc := .clearFlag, fernPc := .clearFlag,
    lsysEpoch := 0, fernEpoch := 0, fernStamp := 0, seen := 0, clears := [] }

/-- A task is in flight when it has made the first draw call of its pass and not yet the
last one. -/
def fernInFlight (s : Handshake) : Bool :=
  match s.fernPc with
  | .drawing made => decide (0 < made)
  | _ => false

/-- The grammar task in flight: see `fernInFlight`. -/
def lsysInFlight (s : Handshake) : Bool :=
  match s.lsysPc with
  | .drawing made => decide (0 < made)
  | _ => false

/-- One step of the grammar task. -/
def lsysStep (n : DrawCounts) (s : Handshake) : Handshake :=
  match s.lsysPc with
  | .clearFlag =>
    { s with finish_ls := false,
             lsysPc := if n.lsys s.lsysEpoch = 0 then .setFlag else .drawing 0 }
  | .drawing made =>
    { s with lsysPc := if made + 1 < n.lsys s.lsysEpoch then .drawing (made + 1) else .setFlag }
  | .setFlag => { s with finish_ls := true, lsysPc := .poll }
  | .poll => if s.finish_fern then { s with lsysPc := .sleep, seen := s.fernStamp } else s
  | .sleep => { s with lsysPc := .clear }
  | .clear =>
    { s with lsysPc := .clearFlag, lsysEpoch := s.lsysEpoch + 1,
             clears := s.clears ++
               [{ epoch := s.lsysEpoch, seen := s.seen, fernInFlight := fernInFlight s }] }

/-- One step of the fractal task. -/
def fernStep (n : DrawCounts) (s : Handshake) : Handshake :=
  match s.fernPc with
  | .clearFlag =>
    { s with finish_fern := false,
             fernPc := if n.fern s.fernEpoch = 0 then .setFlag else .drawing 0 }
  | .drawing made =>
    { s with fernPc := if made + 1 < n.fern s.fernEpoch then .drawing (made + 1) else .setFlag }
  | .setFlag => { s with finish_fern := true, fernStamp := s.fernEpoch, fernPc := .poll }
  | .poll => if s.finish_ls then { s with fernPc := .sleep } else s
  | .sleep => { s with fernPc := .resetX }
  | .resetX => { s with fernPc := .clearFlag, fernEpoch := s.fernEpoch + 1 }

/-- One step of the task that the interleaving picks. -/
def handshakeStep (n : DrawCounts) (s : Handshake) : Task → Handshake
  | .lsys => lsysStep n s
  | .fern => fernStep n s

/-- The run of an interleaving, given as the list of the tasks that step, from the start. -/
def handshakeRun (n : DrawCounts) (schedule : List Task) : Handshake :=
  schedule.foldl (handshakeStep n) handshakeStart

/-! ### Proof-side definitions for the structure and the ranges of a stage -/

/-- The pairs `(m, i)` of the two loop counters for which the body of the inner loop
(lines 158 to 164) runs in the stage of length `L`, in program order: the butterfly of
`(m, i)` reads and writes the entries `i` and `i + L`. -/
def butterflyIndexes (L : Nat) : List (Nat × Nat) :=
  (List.range L).flatMap (fun m =>
    (List.range' m ((NUM_SAMPLES - m + (L <<< 1) - 1) / (L <<< 1)) (L <<< 1)).map
      (fun i => (m, i)))

/-- Specification side: the first index of the pair that the index `idx` belongs to in the
stage of length `L`. -/
def pairStart (L idx : Nat) : Nat := if idx % (2 * L) < L then idx else idx - L

/-- Specification side: the entry `idx` of the two arrays after the stage of length `L`,
computed by one butterfly from the arrays `st` as they are before the stage. -/
def stageEntry (Sinewave : List Int) (L : Nat) (k : Int) (st : List Int × List Int)
    (idx : Nat) : Int × Int :=
  let i := pairStart L idx
  let v := butterflyValues (twiddle Sinewave k (i % L)).1 (twiddle Sinewave k (i % L)).2
    (st.1.getD i 0, st.2.getD i 0) (st.1.getD (i + L) 0, st.2.getD (i + L) 0)
  if idx % (2 * L) < L then v.1 else v.2

/-- Proof side: every step of the fold of `f` over the list, started in `s`, is taken in a
state for which `P` holds. -/
def StepsSafe {σ α : Type} (P : σ → α → Prop) (f : σ → α → σ) : σ → List α → Prop
  | _, [] => True
  | s, a :: l => P s a ∧ StepsSafe P f (f s a) l

/-- Specification side: every value that one butterfly computes (lines 159 to 164), in
unbounded integers and in program order: the four products shifted right by 15 that
`multfix15` narrows to `fix15`, then `tr`, `ti`, `qr`, `qi`, then the values stored in
`fr[j]`, `fi[j]`, `fr[i]`, `fi[i]`. -/
def butterflyExact (wr wi : Int) (xi xj : Int × Int) : List Int :=
  let p1 := (wr * xj.1) >>> (15 : Nat)
  let p2 := (wi * xj.2) >>> (15 : Nat)
  let p3 := (wr * xj.2) >>> (15 : Nat)
  let p4 := (wi * xj.1) >>> (15 : Nat)
  let tr := p1 - p2
  let ti := p3 + p4
  let qr := xi.1 >>> (1 : Nat)
  let qi := xi.2 >>> (1 : Nat)
  [p1, p2, p3, p4, tr, ti, qr, qi, qr - tr, qi - ti, qr + tr, qi + ti]

/-- Proof side: no narrowing, subtraction or addition of the butterfly wraps: its operands
are 32-bit values and so is every value it computes in unbounded integers. -/
def ButterflyInRange (wr wi : Int) (xi xj : Int × Int) : Prop :=
  (IsInt32 wr ∧ IsInt32 wi ∧ IsInt32 xi.1 ∧ IsInt32 xi.2 ∧ IsInt32 xj.1 ∧ IsInt32 xj.2) ∧
  ∀ v ∈ butterflyExact wr wi xi xj, IsInt32 v

/-- Proof side: every butterfly of the inner loop for the element `m` is in range. -/
def butterflyLoopSafe (wr wi : Int) (L istep m : Nat) (st : List Int × List Int) : Prop :=
  StepsSafe
    (fun st i => ButterflyInRange wr wi (st.1.getD i 0, st.2.getD i 0)
      (st.1.getD (i + L) 0, st.2.getD (i + L) 0))
    (butterfly wr wi L) st
    (List.range' m ((NUM_SAMPLES - m + istep - 1) / istep) istep)

/-- Proof side: in the stage of length `L` every negation `-Sinewave[j]` stays in range and
every butterfly is in range. -/
def elementLoopSafe (Sinewave : List Int) (L : Nat) (k : Int) (st : List Int × List Int) :
    Prop :=
  StepsSafe
    (fun st m => IsInt32 (-(Sinewave.getD (sineIndex k m) 0)) ∧
      butterflyLoopSafe (twiddle Sinewave k m).1 (twiddle Sinewave k m).2 L (L <<< 1) m st)
    (fun st m =>
      butterflyLoop (twiddle Sinewave k m).1 (twiddle Sinewave k m).2 L (L <<< 1) m st)
    st (List.range L)

/-- Proof side: the stage that the loop runs in the state `s` is in range. -/
def stageSafe (Sinewave : List Int) (s : FFTState) : Prop :=
  elementLoopSafe Sinewave s.L s.k (s.fr, s.fi)

/-- The array that holds `c` at index 0 and 0 at the other `NUM_SAMPLES - 1` indexes. -/
def impulse (c : Int) : List Int := c :: List.replicate (NUM_SAMPLES - 1) 0

/-- Proof side: the invariant of the stage of length `L` run on the arrays `st0`: the two
arrays keep their length, an entry whose index is still in `R` is the one of `st0`, and
every other entry is the one that `stageEntry` computes from `st0`. -/
def StageProgress (Sinewave : List Int) (L : Nat) (k : Int) (st0 : List Int × List Int)
    (R : Nat → Prop) (cur : List Int × List Int) : Prop :=
  (cur.1.length = NUM_SAMPLES ∧ cur.2.length = NUM_SAMPLES) ∧
  ∀ idx,
    (R idx → cur.1.getD idx 0 = st0.1.getD idx 0 ∧ cur.2.getD idx 0 = st0.2.getD idx 0) ∧
    (¬ R idx → idx < NUM_SAMPLES →
      (cur.1.getD idx 0, cur.2.getD idx 0) = stageEntry Sinewave L k st0 idx)

/-! ### The tables that `main` fills (lines 788 to 791) and a test signal -/

/-- The negative of a natural number, to write the negative entries of a table. -/
def minus (n : Nat) : Int := -(n : Int)

/-- The table `Sinewave` after the loop of `main` (lines 788 to 791), by value: the entry
`ii` is `float2fix15(sin(6.283 * ((float) ii) / (float)NUM_SAMPLES))`, that is the `double`
value of the sine times 32768.0, truncated toward zero by the conversion to `fix15`. The
argument of the sine uses 6.283, not twice pi, so the last entry is -207 and the entry 512
is 3. No entry is closer than `10 ^ (-5)` to a place where the truncation jumps, so every
`sin` with an error below `10 ^ (-10)` gives this table. -/
def SinewaveTable : List Int :=
  [0, 201, 402, 603, 804, 1005, 1206, 1406, 1607, 1808, 2009, 2209, 2410, 2610, 2811, 3011, 3211,
   3411, 3611, 3811, 4011, 4210, 4409, 4608, 4807, 5006, 5205, 5403, 5601, 5799, 5997, 6195, 6392,
   6589, 6786, 6982, 7179, 7375, 7571, 7766, 7961, 8156, 8351, 8545, 8739, 8932, 9126, 9319, 9511,
   9703, 9895, 10087, 10278, 10469, 10659, 10849, 11038, 11227, 11416, 11604, 11792, 11980, 12166,
   12353, 12539, 12724, 12909, 13094, 13278, 13462, 13645, 13827, 14009, 14191, 14372, 14552,
   14732, 14911, 15090, 15268, 15446, 15623, 15799, 15975, 16150, 16325, 16499, 16672, 16845,
   17017, 17189, 17360, 17530, 17699, 17868, 18036, 18204, 18371, 18537, 18702, 18867, 19031,
   19194, 19357, 19519, 19680, 19840, 20000, 20159, 20317, 20474, 20631, 20787, 20942, 21096,
   21250, 21402, 21554, 21705, 21855, 22005, 22153, 22301, 22448, 22594, 22739, 22883, 23027,
   23169, 23311, 23452, 23592, 23731, 23869, 24007, 24143, 24278, 24413, 24547, 24679, 24811,
   24942, 25072, 25201, 25329, 25456, 25582, 25707, 25831, 25955, 26077, 26198, 26318, 26438,
   26556, 26673, 26790, 26905, 27019, 27132, 27245, 27356, 27466, 27575, 27683, 27790, 27896,
   28001, 28105, 28208, 28310, 28410, 28510, 28609, 28706, 28802, 28898, 28992, 29085, 29177,
   29268, 29358, 29447, 29534, 29621, 29706, 29791, 29874, 29956, 30037, 30117, 30195, 30273,
   30349, 30424, 30498, 30571, 30643, 30714, 30783, 30852, 30919, 30985, 31050, 31113, 31176,
   31237, 31297, 31356, 31414, 31471, 31526, 31580, 31633, 31685, 31736, 31785, 31833, 31880,
   31926, 31971, 32014, 32057, 32098, 32138, 32176, 32214, 32250, 32285, 32319, 32351, 32383,
   32413, 32442, 32469, 32496, 32521, 32545, 32568, 32589, 32610, 32629, 32647, 32663, 32679,
   32693, 32706, 32717, 32728, 32737, 32745, 32752, 32758, 32762, 32765, 32767, 32767, 32767,
   32765, 32762, 32758, 32752, 32745, 32737, 32728, 32718, 32706, 32693, 32679, 32663, 32647,
   32629, 32610, 32590, 32568, 32545, 32521, 32496, 32470, 32442, 32413, 32383, 32352, 32319,
   32285, 32250, 32214, 32177, 32138, 32098, 32057, 32015, 31972, 31927, 31881, 31834, 31786,
   31736, 31686, 31634, 31581, 31527, 31471, 31415, 31357, 31298, 31238, 31177, 31114, 31051,
   30986, 30920, 30853, 30784, 30715, 30644, 30572, 30500, 30425, 30350, 30274, 30196, 30118,
   30038, 29957, 29875, 29792, 29708, 29622, 29536, 29448, 29359, 29270, 29179, 29087, 28993,
   28899, 28804, 28708, 28610, 28512, 28412, 28311, 28209, 28107, 28003, 27898, 27792, 27685,
   27577, 27468, 27357, 27246, 27134, 27021, 26907, 26791, 26675, 26558, 26440, 26320, 26200,
   26079, 25957, 25833, 25709, 25584, 25458, 25331, 25203, 25074, 24944, 24813, 24681, 24549,
   24415, 24280, 24145, 24009, 23871, 23733, 23594, 23454, 23313, 23172, 23029, 22886, 22741,
   22596, 22450, 22303, 22155, 22007, 21857, 21707, 21556, 21404, 21252, 21098, 20944, 20789,
   20633, 20477, 20319, 20161, 20002, 19843, 19682, 19521, 19359, 19197, 19034, 18870, 18705,
   18539, 18373, 18206, 18039, 17871, 17702, 17532, 17362, 17191, 17020, 16848, 16675, 16502,
   16328, 16153, 15978, 15802, 15626, 15448, 15271, 15093, 14914, 14735, 14555, 14374, 14193,
   14012, 13830, 13647, 13464, 13281, 13097, 12912, 12727, 12542, 12356, 12169, 11982, 11795,
   11607, 11419, 11230, 11041, 10852, 10662, 10472, 10281, 10090, 9898, 9706, 9514, 9322, 9129,
   8935, 8742, 8548, 8354, 8159, 7964, 7769, 7574, 7378, 7182, 6985, 6789, 6592, 6395, 6198, 6000,
   5802, 5604, 5406, 5208, 5009, 4810, 4611, 4412, 4213, 4014, 3814, 3614, 3414, 3214, 3014, 2814,
   2613, 2413, 2212, 2012, 1811, 1610, 1409, 1209, 1008, 807, 606, 405, 204, 3, minus 198,
   minus 399, minus 600, minus 801, minus 1002, minus 1203, minus 1403, minus 1604, minus 1805,
   minus 2006, minus 2206, minus 2407, minus 2607, minus 2808, minus 3008, minus 3208, minus 3408,
   minus 3608, minus 3808, minus 4008, minus 4207, minus 4406, minus 4605, minus 4804, minus 5003,
   minus 5202, minus 5400, minus 5598, minus 5796, minus 5994, minus 6192, minus 6389, minus 6586,
   minus 6783, minus 6980, minus 7176, minus 7372, minus 7568, minus 7763, minus 7958, minus 8153,
   minus 8348, minus 8542, minus 8736, minus 8930, minus 9123, minus 9316, minus 9508, minus 9701,
   minus 9892, minus 10084, minus 10275, minus 10466, minus 10656, minus 10846, minus 11036,
   minus 11225, minus 11413, minus 11602, minus 11789, minus 11977, minus 12164, minus 12350,
   minus 12536, minus 12722, minus 12907, minus 13091, minus 13275, minus 13459, minus 13642,
   minus 13824, minus 14006, minus 14188, minus 14369, minus 14549, minus 14729, minus 14909,
   minus 15087, minus 15266, minus 15443, minus 15620, minus 15797, minus 15972, minus 16148,
   minus 16322, minus 16496, minus 16670, minus 16843, minus 17015, minus 17186, minus 17357,
   minus 17527, minus 17697, minus 17866, minus 18034, minus 18201, minus 18368, minus 18534,
   minus 18700, minus 18865, minus 19029, minus 19192, minus 19355, minus 19516, minus 19678,
   minus 19838, minus 19998, minus 20157, minus 20315, minus 20472, minus 20629, minus 20784,
   minus 20939, minus 21094, minus 21247, minus 21400, minus 21552, minus 21703, minus 21853,
   minus 22002, minus 22151, minus 22299, minus 22446, minus 22592, minus 22737, minus 22881,
   minus 23025, minus 23167, minus 23309, minus 23450, minus 23590, minus 23729, minus 23867,
   minus 24005, minus 24141, minus 24276, minus 24411, minus 24545, minus 24677, minus 24809,
   minus 24940, minus 25070, minus 25199, minus 25327, minus 25454, minus 25580, minus 25705,
   minus 25830, minus 25953, minus 26075, minus 26196, minus 26317, minus 26436, minus 26554,
   minus 26672, minus 26788, minus 26903, minus 27017, minus 27131, minus 27243, minus 27354,
   minus 27464, minus 27573, minus 27682, minus 27789, minus 27895, minus 28000, minus 28103,
   minus 28206, minus 28308, minus 28409, minus 28509, minus 28607, minus 28705, minus 28801,
   minus 28896, minus 28991, minus 29084, minus 29176, minus 29267, minus 29357, minus 29445,
   minus 29533, minus 29620, minus 29705, minus 29789, minus 29873, minus 29955, minus 30036,
   minus 30115, minus 30194, minus 30272, minus 30348, minus 30423, minus 30497, minus 30570,
   minus 30642, minus 30713, minus 30782, minus 30851, minus 30918, minus 30984, minus 31049,
   minus 31112, minus 31175, minus 31236, minus 31296, minus 31355, minus 31413, minus 31470,
   minus 31525, minus 31579, minus 31632, minus 31684, minus 31735, minus 31784, minus 31833,
   minus 31880, minus 31926, minus 31970, minus 32014, minus 32056, minus 32097, minus 32137,
   minus 32176, minus 32213, minus 32249, minus 32284, minus 32318, minus 32351, minus 32382,
   minus 32412, minus 32441, minus 32469, minus 32495, minus 32521, minus 32545, minus 32567,
   minus 32589, minus 32609, minus 32628, minus 32646, minus 32663, minus 32678, minus 32693,
   minus 32706, minus 32717, minus 32728, minus 32737, minus 32745, minus 32752, minus 32758,
   minus 32762, minus 32765, minus 32767, minus 32767, minus 32767, minus 32765, minus 32762,
   minus 32758, minus 32752, minus 32745, minus 32737, minus 32728, minus 32718, minus 32706,
   minus 32693, minus 32679, minus 32664, minus 32647, minus 32629, minus 32610, minus 32590,
   minus 32568, minus 32546, minus 32522, minus 32496, minus 32470, minus 32442, minus 32414,
   minus 32383, minus 32352, minus 32320, minus 32286, minus 32251, minus 32215, minus 32177,
   minus 32139, minus 32099, minus 32058, minus 32016, minus 31972, minus 31928, minus 31882,
   minus 31835, minus 31787, minus 31737, minus 31687, minus 31635, minus 31582, minus 31528,
   minus 31472, minus 31416, minus 31358, minus 31299, minus 31239, minus 31178, minus 31115,
   minus 31052, minus 30987, minus 30921, minus 30854, minus 30785, minus 30716, minus 30645,
   minus 30574, minus 30501, minus 30427, minus 30351, minus 30275, minus 30198, minus 30119,
   minus 30039, minus 29958, minus 29876, minus 29793, minus 29709, minus 29624, minus 29537,
   minus 29449, minus 29361, minus 29271, minus 29180, minus 29088, minus 28995, minus 28901,
   minus 28805, minus 28709, minus 28612, minus 28513, minus 28413, minus 28313, minus 28211,
   minus 28108, minus 28004, minus 27899, minus 27793, minus 27686, minus 27578, minus 27469,
   minus 27359, minus 27248, minus 27136, minus 27023, minus 26908, minus 26793, minus 26677,
   minus 26560, minus 26441, minus 26322, minus 26202, minus 26081, minus 25958, minus 25835,
   minus 25711, minus 25586, minus 25460, minus 25333, minus 25205, minus 25076, minus 24946,
   minus 24815, minus 24683, minus 24551, minus 24417, minus 24283, minus 24147, minus 24011,
   minus 23873, minus 23735, minus 23596, minus 23456, minus 23315, minus 23174, minus 23031,
   minus 22888, minus 22743, minus 22598, minus 22452, minus 22305, minus 22158, minus 22009,
   minus 21860, minus 21710, minus 21559, minus 21407, minus 21254, minus 21101, minus 20946,
   minus 20791, minus 20636, minus 20479, minus 20322, minus 20164, minus 20005, minus 19845,
   minus 19685, minus 19524, minus 19362, minus 19199, minus 19036, minus 18872, minus 18707,
   minus 18542, minus 18376, minus 18209, minus 18042, minus 17873, minus 17704, minus 17535,
   minus 17365, minus 17194, minus 17022, minus 16850, minus 16678, minus 16504, minus 16330,
   minus 16156, minus 15980, minus 15805, minus 15628, minus 15451, minus 15274, minus 15095,
   minus 14917, minus 14737, minus 14558, minus 14377, minus 14196, minus 14015, minus 13833,
   minus 13650, minus 13467, minus 13284, minus 13100, minus 12915, minus 12730, minus 12545,
   minus 12359, minus 12172, minus 11985, minus 11798, minus 11610, minus 11422, minus 11233,
   minus 11044, minus 10855, minus 10665, minus 10474, minus 10284, minus 10093, minus 9901,
   minus 9709, minus 9517, minus 9325, minus 9132, minus 8938, minus 8745, minus 8551, minus 8357,
   minus 8162, minus 7967, minus 7772, minus 7577, minus 7381, minus 7185, minus 6988, minus 6792,
   minus 6595, minus 6398, minus 6201, minus 6003, minus 5805, minus 5607, minus 5409, minus 5211,
   minus 5012, minus 4813, minus 4614, minus 4415, minus 4216, minus 4017, minus 3817, minus 3617,
   minus 3417, minus 3217, minus 3017, minus 2817, minus 2617, minus 2416, minus 2215, minus 2015,
   minus 1814, minus 1613, minus 1413, minus 1212, minus 1011, minus 810, minus 609, minus 408,
   minus 207]

/-- The table `window` after the same loop, by value: the entry `ii` is
`float2fix15(0.5 * (1.0 - cos(6.283 * ((float) ii) / ((float)NUM_SAMPLES))))`, the Hann
window, computed and truncated like the sine table. -/
def windowTable : List Int :=
  [0, 0, 1, 2, 4, 7, 11, 15, 19, 24, 30, 37, 44, 52, 60, 69, 78, 89, 99, 111, 123, 135, 149, 162,
   177, 192, 208, 224, 241, 258, 276, 295, 314, 334, 355, 376, 398, 420, 443, 466, 490, 515, 541,
   566, 593, 620, 648, 676, 705, 734, 764, 795, 826, 858, 891, 924, 957, 991, 1026, 1061, 1097,
   1134, 1171, 1208, 1247, 1285, 1325, 1365, 1405, 1446, 1488, 1530, 1572, 1616, 1660, 1704, 1749,
   1794, 1840, 1887, 1934, 1982, 2030, 2079, 2128, 2178, 2228, 2279, 2330, 2382, 2435, 2488, 2541,
   2595, 2650, 2705, 2761, 2817, 2873, 2930, 2988, 3046, 3105, 3164, 3224, 3284, 3344, 3405, 3467,
   3529, 3592, 3655, 3718, 3782, 3847, 3912, 3977, 4043, 4109, 4176, 4244, 4311, 4379, 4448, 4517,
   4587, 4657, 4727, 4798, 4869, 4941, 5013, 5086, 5159, 5232, 5306, 5380, 5455, 5530, 5606, 5682,
   5758, 5835, 5912, 5989, 6067, 6145, 6224, 6303, 6383, 6462, 6543, 6623, 6704, 6785, 6867, 6949,
   7031, 7114, 7197, 7281, 7364, 7448, 7533, 7618, 7703, 7788, 7874, 7960, 8046, 8133, 8220, 8307,
   8395, 8483, 8571, 8660, 8748, 8838, 8927, 9017, 9107, 9197, 9287, 9378, 9469, 9560, 9652, 9744,
   9836, 9928, 10020, 10113, 10206, 10299, 10393, 10486, 10580, 10674, 10769, 10863, 10958, 11053,
   11148, 11244, 11339, 11435, 11531, 11627, 11723, 11820, 11916, 12013, 12110, 12207, 12304,
   12402, 12499, 12597, 12695, 12793, 12891, 12990, 13088, 13186, 13285, 13384, 13483, 13582,
   13681, 13780, 13879, 13979, 14078, 14178, 14277, 14377, 14477, 14577, 14677, 14777, 14877,
   14977, 15077, 15177, 15278, 15378, 15478, 15579, 15679, 15780, 15880, 15981, 16081, 16182,
   16282, 16383, 16483, 16584, 16684, 16785, 16885, 16986, 17086, 17187, 17287, 17387, 17488,
   17588, 17688, 17788, 17889, 17989, 18089, 18189, 18288, 18388, 18488, 18588, 18687, 18787,
   18886, 18985, 19085, 19184, 19283, 19382, 19480, 19579, 19678, 19776, 19874, 19972, 20070,
   20168, 20266, 20364, 20461, 20558, 20655, 20752, 20849, 20946, 21042, 21139, 21235, 21331,
   21426, 21522, 21617, 21713, 21807, 21902, 21997, 22091, 22185, 22279, 22373, 22466, 22560,
   22653, 22745, 22838, 22930, 23022, 23114, 23205, 23297, 23388, 23478, 23569, 23659, 23749,
   23839, 23928, 24017, 24106, 24195, 24283, 24371, 24458, 24546, 24633, 24719, 24806, 24892,
   24978, 25063, 25148, 25233, 25317, 25401, 25485, 25569, 25652, 25734, 25817, 25899, 25980,
   26062, 26143, 26223, 26303, 26383, 26463, 26542, 26620, 26699, 26777, 26854, 26931, 27008,
   27084, 27160, 27236, 27311, 27385, 27460, 27534, 27607, 27680, 27753, 27825, 27897, 27968,
   28039, 28109, 28179, 28249, 28318, 28387, 28455, 28522, 28590, 28657, 28723, 28789, 28854,
   28919, 28984, 29048, 29111, 29174, 29237, 29299, 29361, 29422, 29482, 29543, 29602, 29661,
   29720, 29778, 29836, 29893, 29950, 30006, 30061, 30116, 30171, 30225, 30278, 30331, 30384,
   30436, 30487, 30538, 30589, 30638, 30688, 30736, 30785, 30832, 30879, 30926, 30972, 31018,
   31062, 31107, 31151, 31194, 31237, 31279, 31320, 31361, 31402, 31442, 31481, 31520, 31558,
   31596, 31633, 31669, 31705, 31740, 31775, 31809, 31843, 31876, 31908, 31940, 31971, 32002,
   32032, 32062, 32091, 32119, 32147, 32174, 32200, 32226, 32251, 32276, 32300, 32324, 32347,
   32369, 32391, 32412, 32432, 32452, 32472, 32490, 32509, 32526, 32543, 32559, 32575, 32590,
   32604, 32618, 32631, 32644, 32656, 32668, 32678, 32688, 32698, 32707, 32715, 32723, 32730,
   32737, 32742, 32748, 32752, 32756, 32760, 32763, 32765, 32766, 32767, 32767, 32767, 32766,
   32765, 32763, 32760, 32756, 32752, 32748, 32743, 32737, 32730, 32723, 32716, 32707, 32698,
   32689, 32679, 32668, 32656, 32644, 32632, 32619, 32605, 32590, 32575, 32560, 32543, 32527,
   32509, 32491, 32472, 32453, 32433, 32413, 32391, 32370, 32347, 32325, 32301, 32277, 32252,
   32227, 32201, 32174, 32147, 32120, 32091, 32062, 32033, 32003, 31972, 31941, 31909, 31877,
   31844, 31810, 31776, 31741, 31706, 31670, 31634, 31597, 31559, 31521, 31482, 31443, 31403,
   31363, 31322, 31280, 31238, 31195, 31152, 31108, 31064, 31019, 30973, 30927, 30881, 30834,
   30786, 30738, 30689, 30640, 30590, 30540, 30489, 30437, 30386, 30333, 30280, 30227, 30173,
   30118, 30063, 30007, 29951, 29895, 29837, 29780, 29722, 29663, 29604, 29544, 29484, 29424,
   29362, 29301, 29239, 29176, 29113, 29050, 28986, 28921, 28856, 28791, 28725, 28659, 28592,
   28525, 28457, 28389, 28320, 28251, 28181, 28111, 28041, 27970, 27899, 27827, 27755, 27682,
   27609, 27536, 27462, 27388, 27313, 27238, 27162, 27087, 27010, 26934, 26856, 26779, 26701,
   26623, 26544, 26465, 26386, 26306, 26226, 26145, 26064, 25983, 25901, 25819, 25737, 25654,
   25571, 25488, 25404, 25320, 25235, 25151, 25066, 24980, 24894, 24808, 24722, 24635, 24548,
   24461, 24373, 24285, 24197, 24109, 24020, 23931, 23841, 23752, 23662, 23572, 23481, 23390,
   23299, 23208, 23117, 23025, 22933, 22841, 22748, 22655, 22562, 22469, 22376, 22282, 22188,
   22094, 22000, 21905, 21810, 21715, 21620, 21525, 21429, 21334, 21238, 21142, 21045, 20949,
   20852, 20755, 20658, 20561, 20464, 20367, 20269, 20171, 20073, 19975, 19877, 19779, 19681,
   19582, 19483, 19385, 19286, 19187, 19088, 18988, 18889, 18790, 18690, 18591, 18491, 18391,
   18291, 18192, 18092, 17992, 17892, 17791, 17691, 17591, 17491, 17390, 17290, 17190, 17089,
   16989, 16888, 16788, 16687, 16587, 16486, 16386, 16285, 16185, 16084, 15984, 15883, 15783,
   15682, 15582, 15481, 15381, 15281, 15181, 15080, 14980, 14880, 14780, 14680, 14580, 14480,
   14380, 14281, 14181, 14081, 13982, 13882, 13783, 13684, 13585, 13486, 13387, 13288, 13189,
   13091, 12993, 12894, 12796, 12698, 12600, 12502, 12405, 12307, 12210, 12113, 12016, 11919,
   11823, 11726, 11630, 11534, 11438, 11342, 11246, 11151, 11056, 10961, 10866, 10772, 10677,
   10583, 10489, 10396, 10302, 10209, 10116, 10023, 9931, 9838, 9746, 9655, 9563, 9472, 9381,
   9290, 9199, 9109, 9019, 8930, 8840, 8751, 8662, 8574, 8486, 8398, 8310, 8223, 8136, 8049, 7963,
   7877, 7791, 7705, 7620, 7535, 7451, 7367, 7283, 7200, 7117, 7034, 6952, 6870, 6788, 6707, 6626,
   6545, 6465, 6385, 6306, 6227, 6148, 6070, 5992, 5914, 5837, 5760, 5684, 5608, 5532, 5457, 5383,
   5308, 5234, 5161, 5088, 5015, 4943, 4871, 4800, 4729, 4659, 4589, 4519, 4450, 4382, 4313, 4246,
   4178, 4111, 4045, 3979, 3914, 3849, 3784, 3720, 3657, 3594, 3531, 3469, 3407, 3346, 3286, 3225,
   3166, 3107, 3048, 2990, 2932, 2875, 2818, 2762, 2707, 2652, 2597, 2543, 2489, 2436, 2384, 2332,
   2280, 2230, 2179, 2129, 2080, 2031, 1983, 1935, 1888, 1842, 1796, 1750, 1705, 1661, 1617, 1574,
   1531, 1489, 1447, 1406, 1366, 1326, 1287, 1248, 1210, 1172, 1135, 1098, 1062, 1027, 992, 958,
   925, 892, 859, 827, 796, 765, 735, 706, 677, 649, 621, 594, 567, 541, 516, 491, 467, 444, 421,
   398, 376, 355, 335, 315, 296, 277, 259, 241, 224, 208, 192, 177, 163, 149, 136, 123, 111, 100,
   89, 79, 69, 60, 52, 44, 37, 31, 25, 19, 15, 11, 7, 5, 2, 1, 0]

/-- Modelled from the spec: the synthetic test signal "pure sine at bin `k`". The source
has no test signal. The sample number `n` is the 8-bit mid-scale value 128 plus the sine of
`k` periods per `NUM_SAMPLES` samples with amplitude 100, the sine being read from the
program's own table: `128 + ((Sinewave[(k * n) % NUM_SAMPLES] * 100) >> 15)`. -/
def sineSamples (k : Nat) : List Int :=
  (List.range NUM_SAMPLES).map
    (fun n => 128 + ((SinewaveTable.getD ((k * n) % NUM_SAMPLES) 0 * 100) >>> (15 : Nat)))

/-- One pass of the loop of `protothread_fft` from the samples to the peak (lines 398 to
427): the samples are windowed, `FFTfix` transforms them, and the magnitude loop finds
`max_fr` and `max_fr_dex`. -/
def spectralPeak (Sinewave window sample_array : List Int) (fuel : Nat) : Option PeakState :=
  (FFTfix Sinewave (windowSamples sample_array window).1
      (windowSamples sample_array window).2 fuel).map
    (fun out => magnitudeLoop out.1 out.2)

/-! ### Proof-side definitions: the spectral task on 32-bit patterns

The arrays of `FFTfix` are held as one natural number each, the entry `i` being the 32 bits
from bit `32 * i` on, and the arithmetic of `fix15` is done on the two's complement
patterns. The functions are written with the primitive operations of `Nat`, so that they
evaluate fast; the theorems relate them to the translation of the source. -/

/-- Proof side: the value of a 32-bit two's complement pattern. -/
def signedN (a : Nat) : Int :=
  if a < 2147483648 then (a : Int) else (a : Int) - 4294967296

/-- Proof side: the 32-bit two's complement pattern of an integer. -/
def bits32 (v : Int) : Nat := (v % 4294967296).toNat

/-- Proof side: the list packed into one number, 32 bits per entry. -/
def packList : List Int → Nat
  | [] => 0
  | v :: l => Nat.add (bits32 v) (Nat.mul (nat_lit 4294967296) (packList l))

/-- Proof side: the entry `i` of a packed array. -/
def getN (A i : Nat) : Nat :=
  Nat.mod (Nat.div A (Nat.pow (nat_lit 2) (Nat.mul (nat_lit 32) i))) (nat_lit 4294967296)

/-- Proof side: the entries `0, ..., n - 1` of a packed array, as values. -/
def unpackN (A n : Nat) : List Int := (List.range n).map (fun i => signedN (getN A i))

/-- Proof side: the packed array with the entries `f 0, ..., f (n - 1)`. -/
def packN (f : Nat → Nat) : Nat → Nat
  | 0 => 0
  | n + 1 => Nat.add (packN f n) (Nat.mul (f n) (Nat.pow (nat_lit 2) (Nat.mul (nat_lit 32) n)))

/-- Proof side: the 47-bit pattern of the value of a 32-bit pattern (sign extension). -/
def sxN (a : Nat) : Nat :=
  Nat.add a (Nat.mul (Nat.div a (nat_lit 2147483648)) (nat_lit 140733193388032))

/-- Proof side: `multfix15` on patterns. -/
def mulN (a b : Nat) : Nat :=
  Nat.div (Nat.mod (Nat.mul (sxN a) (sxN b)) (nat_lit 140737488355328)) (nat_lit 32768)

/-- Proof side: the arithmetic shift right by one on patterns. -/
def asrN (a : Nat) : Nat :=
  Nat.add (Nat.div a (nat_lit 2)) (Nat.mul (Nat.div a (nat_lit 2147483648)) (nat_lit 2147483648))

/-- Proof side: addition of `int` on patterns. -/
def addN (a b : Nat) : Nat := Nat.mod (Nat.add a b) (nat_lit 4294967296)

/-- Proof side: subtraction of `int` on patterns. -/
def subN (a b : Nat) : Nat :=
  Nat.mod (Nat.sub (Nat.add a (nat_lit 4294967296)) b) (nat_lit 4294967296)

/-- Proof side: negation of `int` on patterns. -/
def negN (a : Nat) : Nat := Nat.mod (Nat.sub (nat_lit 4294967296) a) (nat_lit 4294967296)

/-- Proof side: the pattern of the sample `n` of `sineSamples k`, from the packed sine
table `Sb`. -/
def sampleN (Sb k n : Nat) : Nat :=
  Nat.add
    (Nat.div
      (Nat.mul (addN (getN Sb (Nat.mod (Nat.mul k n) (nat_lit 1024))) (nat_lit 32768))
        (nat_lit 100))
      (nat_lit 32768))
    (nat_lit 28)

/-- Proof side: the pattern of the entry `idx` of `fr` (of `fi` when `im` is set) after the
stage of length `L`, with `L2 = 2 * L` and the table shift `sh`, from the packed arrays
`Ar`, `Ai` before the stage; compare `stageEntry`. -/
def entryN (Sb L L2 sh Ar Ai idx : Nat) (im : Bool) : Nat :=
  cond (Nat.blt (Nat.mod idx L2) L)
    (cond im
      (addN (asrN (getN Ai idx))
        (addN
          (mulN (asrN (getN Sb (Nat.add (Nat.shiftLeft (Nat.mod idx L) sh) (nat_lit 256))))
            (getN Ai (Nat.add idx L)))
          (mulN (asrN (negN (getN Sb (Nat.shiftLeft (Nat.mod idx L) sh))))
            (getN Ar (Nat.add idx L)))))
      (addN (asrN (getN Ar idx))
        (subN
          (mulN (asrN (getN Sb (Nat.add (Nat.shiftLeft (Nat.mod idx L) sh) (nat_lit 256))))
            (getN Ar (Nat.add idx L)))
          (mulN (asrN (negN (getN Sb (Nat.shiftLeft (Nat.mod idx L) sh))))
            (getN Ai (Nat.add idx L))))))
    (cond im
      (subN (asrN (getN Ai (Nat.sub idx L)))
        (addN
          (mulN (asrN (getN Sb (Nat.add (Nat.shiftLeft (Nat.mod idx L) sh) (nat_lit 256))))
            (getN Ai idx))
          (mulN (asrN (negN (getN Sb (Nat.shiftLeft (Nat.mod idx L) sh))))
            (getN Ar idx))))
      (subN (asrN (getN Ar (Nat.sub idx L)))
        (subN
          (mulN (asrN (getN Sb (Nat.add (Nat.shiftLeft (Nat.mod idx L) sh) (nat_lit 256))))
            (getN Ar idx))
          (mulN (asrN (negN (getN Sb (Nat.shiftLeft (Nat.mod idx L) sh))))
            (getN Ai idx)))))

/-- Proof side: the packed arrays `fr` and `fi` after the windowing, the bit reversal and
`s` stages of the combination loop, for the samples with the patterns `smp n`. -/
def fastN (Sb Wb : Nat) (smp : Nat → Nat) : Nat → Nat × Nat
  | 0 =>
    (packN (fun i =>
        mulN (Nat.mod (Nat.mul (smp (reversedIndex 6 i)) (nat_lit 32768)) (nat_lit 4294967296))
          (getN Wb (reversedIndex 6 i))) 1024,
     packN (fun _ => 0) 1024)
  | s + 1 =>
    (packN (fun idx => entryN Sb (2 ^ s) (2 ^ (s + 1)) (9 - s) (fastN Sb Wb smp s).1
        (fastN Sb Wb smp s).2 idx false) 1024,
     packN (fun idx => entryN Sb (2 ^ s) (2 ^ (s + 1)) (9 - s) (fastN Sb Wb smp s).1
        (fastN Sb Wb smp s).2 idx true) 1024)

/-- Proof side: the magnitude that the magnitude loop stores for the bin `j`. -/
def magN (Sb Wb : Nat) (smp : Nat → Nat) (j : Nat) : Int :=
  storedMagnitude (signedN (getN (fastN Sb Wb smp 10).1 j))
    (signedN (getN (fastN Sb Wb smp 10).2 j))

/-- Proof side: `P` holds for every number below the bound. -/
def allBelow (P : Nat → Bool) : Nat → Bool
  | 0 => true
  | n + 1 => allBelow P n && P n

/-- Proof side: the bin `k` has a magnitude above 0 and above that of every other bin from
5 to 511. -/
def peakCheck (Sb Wb : Nat) (smp : Nat → Nat) (k : Nat) : Bool :=
  decide (0 < magN Sb Wb smp k) &&
  allBelow (fun j => decide (j < 5) || decide (j = k) ||
    decide (magN Sb Wb smp j < magN Sb Wb smp k)) 512

/-- Proof side: the packed array `A` holds the first `NUM_SAMPLES` entries of the list. -/
def Decodes (l : List Int) (A : Nat) : Prop :=
  ∀ i, i < 1024 → l.getD i 0 = signedN (getN A i)

/-! ## Theorems -/

/-! ### Bit reversal -/

theorem reverse16_testBit (m i : Nat) (hi : i < 16) :
    (reverse16 m).testBit i = m.testBit (15 - i) := by
  have h16 : (65536 : Nat) = 2 ^ 16 := by norm_num
  unfold reverse16
  simp only [h16, Nat.testBit_mod_two_pow, Nat.testBit_lor, Nat.testBit_land,
    Nat.testBit_shiftRight, Nat.testBit_shiftLeft]
  interval_cases i <;> simp [Nat.testBit_to_div_mod]

theorem reverse16_lt (m : Nat) : reverse16 m < 2 ^ 16 := by
  unfold reverse16
  exact Nat.mod_lt _ (by norm_num)

theorem reversedIndex_testBit (k m i : Nat) (hk : k ≤ 16) :
    (reversedIndex (16 - k) m).testBit i = (decide (i < k) && m.testBit (k - 1 - i)) := by
  unfold reversedIndex
  have h16 : (65536 : Nat) = 2 ^ 16 := by norm_num
  rw [h16, Nat.testBit_mod_two_pow, Nat.testBit_shiftRight]
  by_cases h : i < k
  · have h1 : 16 - k + i < 16 := by omega
    have h2 : i < 16 := by omega
    rw [reverse16_testBit m _ h1]
    have h3 : 15 - (16 - k + i) = k - 1 - i := by omega
    simp [h, h2, h3]
  · have h1 : 16 ≤ 16 - k + i := by omega
    have h2 : (reverse16 m).testBit (16 - k + i) = false :=
      Nat.testBit_lt_two_pow
        (lt_of_lt_of_le (reverse16_lt m) (Nat.pow_le_pow_right (by norm_num) h1))
    simp [h, h2]

theorem reversedIndex_lt (k m : Nat) (hk : k ≤ 16) : reversedIndex (16 - k) m < 2 ^ k := by
  apply Nat.lt_pow_two_of_testBit
  intro i hi
  rw [reversedIndex_testBit k m i hk]
  have : ¬ i < k := by omega
  simp [this]

theorem reversedIndex_involutive (k m : Nat) (hk : k ≤ 16) (hm : m < 2 ^ k) :
    reversedIndex (16 - k) (reversedIndex (16 - k) m) = m := by
  apply Nat.eq_of_testBit_eq
  intro i
  rw [reversedIndex_testBit k _ i hk]
  by_cases h : i < k
  · rw [reversedIndex_testBit k m _ hk]
    have h1 : k - 1 - i < k := by omega
    have h2 : k - 1 - (k - 1 - i) = i := by omega
    simp [h, h1, h2]
  · have h1 : m.testBit i = false :=
      Nat.testBit_lt_two_pow
        (lt_of_lt_of_le hm (Nat.pow_le_pow_right (by norm_num) (by omega)))
    simp [h, h1]

theorem reverseLowBits_testBit (k m i : Nat) :
    (reverseLowBits k m).testBit i = (decide (i < k) && m.testBit (k - 1 - i)) := by
  induction k generalizing m i with
  | zero => simp [reverseLowBits]
  | succ k ih =>
    have hlt : reverseLowBits k (m / 2) < 2 ^ k := by
      apply Nat.lt_pow_two_of_testBit
      intro j hj
      rw [ih]
      have : ¬ j < k := by omega
      simp [this]
    unfold reverseLowBits
    rw [Nat.mul_comm, Nat.testBit_mul_pow_two_add _ hlt]
    by_cases h1 : i < k
    · have h2 : i < k + 1 := by omega
      have h3 : k + 1 - 1 - i = (k - 1 - i) + 1 := by omega
      rw [if_pos h1, ih, h3, Nat.testBit_succ]
      simp [h1, h2]
    · rw [if_neg h1]
      by_cases h2 : i = k
      · subst h2
        have h4 : (m % 2).testBit 0 = m.testBit 0 := by
          rw [Nat.testBit_zero, Nat.testBit_zero, Nat.mod_mod]
        simp [h4]
      · have h3 : ¬ i < k + 1 := by omega
        have h5 : (2 : Nat) ^ 1 ≤ 2 ^ (i - k) :=
          Nat.pow_le_pow_right (by norm_num) (by omega)
        have h6 : m % 2 < 2 ^ (i - k) := by omega
        have h4 : (m % 2).testBit (i - k) = false := Nat.testBit_lt_two_pow h6
        simp [h3, h4]

theorem reversedIndex_eq_reverseLowBits (k m : Nat) (hk : k ≤ 16) :
    reversedIndex (16 - k) m = reverseLowBits k m := by
  apply Nat.eq_of_testBit_eq
  intro i
  rw [reversedIndex_testBit k m i hk, reverseLowBits_testBit]


theorem swapAt_length (a : List Int) (m mr : Nat) : (swapAt a m mr).length = a.length := by
  simp [swapAt]

theorem swapAt_getD (a : List Int) (m mr i : Nat) (hm : m < a.length) (hmr : mr < a.length) :
    (swapAt a m mr).getD i 0 =
      if i = mr then a.getD m 0 else if i = m then a.getD mr 0 else a.getD i 0 := by
  simp only [swapAt, List.getD_eq_getElem?_getD, List.getElem?_set, List.length_set]
  by_cases h1 : mr = i
  · subst h1
    simp [hmr]
  · have h1' : ¬ i = mr := fun h => h1 h.symm
    by_cases h2 : m = i
    · subst h2
      simp [h1, h1', hm]
    · have h2' : ¬ i = m := fun h => h2 h.symm
      simp [h1, h1', h2, h2']

theorem bitReversal_fold_fst (s : Nat) (l : List Nat) (fr fi : List Int) :
    (l.foldl (bitReversalBody s) (fr, fi)).1 =
      l.foldl (fun a m => if reversedIndex s m ≤ m then a else swapAt a m (reversedIndex s m)) fr := by
  induction l generalizing fr fi with
  | nil => rfl
  | cons m l ih =>
    simp only [List.foldl_cons, bitReversalBody]
    by_cases h : reversedIndex s m ≤ m
    · simp only [h, if_true]
      exact ih fr fi
    · simp only [h, if_false]
      exact ih _ _

theorem bitReversal_fold_snd (s : Nat) (l : List Nat) (fr fi : List Int) :
    (l.foldl (bitReversalBody s) (fr, fi)).2 =
      l.foldl (fun a m => if reversedIndex s m ≤ m then a else swapAt a m (reversedIndex s m)) fi := by
  induction l generalizing fr fi with
  | nil => rfl
  | cons m l ih =>
    simp only [List.foldl_cons, bitReversalBody]
    by_cases h : reversedIndex s m ≤ m
    · simp only [h, if_true]
      exact ih fr fi
    · simp only [h, if_false]
      exact ih _ _

theorem swapLoop_spec (rev : Nat → Nat) (N : Nat)
    (hrev : ∀ m, m < N → rev m < N ∧ rev (rev m) = m) (h0 : rev 0 = 0)
    (a : List Int) (ha : a.length = N) (cnt : Nat) (hc : 1 + cnt ≤ N) :
    ((List.range' 1 cnt).foldl
        (fun a m => if rev m ≤ m then a else swapAt a m (rev m)) a).length = N ∧
    ∀ i, i < N →
      ((List.range' 1 cnt).foldl
        (fun a m => if rev m ≤ m then a else swapAt a m (rev m)) a).getD i 0 =
        if i < 1 + cnt ∨ rev i < 1 + cnt then a.getD (rev i) 0 else a.getD i 0 := by
  induction cnt with
  | zero =>
    refine ⟨by simpa using ha, ?_⟩
    intro i hi
    simp only [List.range'_zero, List.foldl_nil]
    by_cases h : i < 1 + 0 ∨ rev i < 1 + 0
    · have hi0 : i = 0 := by
        rcases h with h | h
        · omega
        · have := (hrev i hi).2
          have h' : rev i = 0 := by omega
          rw [h', h0] at this
          exact this.symm
      subst hi0
      simp [h0]
    · rw [if_neg h]
  | succ cnt ih =>
    have ih' := ih (by omega)
    rw [List.range'_concat, List.foldl_append]
    simp only [List.foldl_cons, List.foldl_nil, Nat.one_mul]
    revert ih'
    generalize (List.range' 1 cnt).foldl
        (fun a m => if rev m ≤ m then a else swapAt a m (rev m)) a = b
    rintro ⟨hlen, hget⟩
    have hm : 1 + cnt < N := by omega
    obtain ⟨hrm, hrr⟩ := hrev (1 + cnt) hm
    by_cases hle : rev (1 + cnt) ≤ 1 + cnt
    · simp only [hle, if_true]
      refine ⟨hlen, ?_⟩
      intro i hi
      rw [hget i hi]
      obtain ⟨hri, hrri⟩ := hrev i hi
      by_cases h1 : i < 1 + cnt ∨ rev i < 1 + cnt
      · have h2 : i < 1 + (cnt + 1) ∨ rev i < 1 + (cnt + 1) := by omega
        simp [h1, h2]
      · by_cases h2 : i < 1 + (cnt + 1) ∨ rev i < 1 + (cnt + 1)
        · have h3 : rev i = i := by
            rcases h2 with h2 | h2
            · have : i = 1 + cnt := by omega
              subst this
              omega
            · have h4 : rev i = 1 + cnt := by omega
              rw [h4] at hrri
              omega
          simp [h1, h2, h3]
        · simp [h1, h2]
    · simp only [hle, if_false]
      refine ⟨by rw [swapAt_length]; exact hlen, ?_⟩
      intro i hi
      rw [swapAt_getD b _ _ i (by omega) (by omega)]
      obtain ⟨hri, hrri⟩ := hrev i hi
      by_cases e1 : i = rev (1 + cnt)
      · have h2 : rev i = 1 + cnt := by rw [e1, hrr]
        have h3 : i < 1 + (cnt + 1) ∨ rev i < 1 + (cnt + 1) := by omega
        rw [if_pos e1, hget _ hm, if_pos h3, h2]
        have h4 : ¬ (1 + cnt < 1 + cnt ∨ rev (1 + cnt) < 1 + cnt) := by omega
        rw [if_neg h4]
      · rw [if_neg e1]
        by_cases e2 : i = 1 + cnt
        · subst e2
          have h3 : 1 + cnt < 1 + (cnt + 1) ∨ rev (1 + cnt) < 1 + (cnt + 1) := by omega
          rw [if_pos rfl, hget _ hrm, hrr]
          have h4 : ¬ (rev (1 + cnt) < 1 + cnt ∨ 1 + cnt < 1 + cnt) := by omega
          rw [if_neg h4, if_pos h3]
        · rw [if_neg e2, hget i hi]
          have h5 : rev i ≠ 1 + cnt := by
            intro h
            apply e1
            rw [← h, hrri]
          have h6 : (i < 1 + cnt ∨ rev i < 1 + cnt) ↔
              (i < 1 + (cnt + 1) ∨ rev i < 1 + (cnt + 1)) := by omega
          simp only [h6]


theorem reverse16_zero : reverse16 0 = 0 := by decide

theorem reversedIndex_zero (s : Nat) : reversedIndex s 0 = 0 := by
  simp [reversedIndex, reverse16_zero]

theorem bitReversalWith_spec (k : Nat) (hk : k ≤ 16) (fr fi : List Int)
    (hr : fr.length = 2 ^ k) (hi : fi.length = 2 ^ k) :
    (bitReversalWith (2 ^ k - 1) (16 - k) fr fi).1.length = 2 ^ k ∧
    (bitReversalWith (2 ^ k - 1) (16 - k) fr fi).2.length = 2 ^ k ∧
    ∀ i, i < 2 ^ k →
      (bitReversalWith (2 ^ k - 1) (16 - k) fr fi).1.getD i 0
          = fr.getD (reversedIndex (16 - k) i) 0 ∧
      (bitReversalWith (2 ^ k - 1) (16 - k) fr fi).2.getD i 0
          = fi.getD (reversedIndex (16 - k) i) 0 := by
  have hpos : 0 < 2 ^ k := Nat.two_pow_pos k
  have hrev : ∀ m, m < 2 ^ k →
      reversedIndex (16 - k) m < 2 ^ k ∧
        reversedIndex (16 - k) (reversedIndex (16 - k) m) = m :=
    fun m hm => ⟨reversedIndex_lt k m hk, reversedIndex_involutive k m hk hm⟩
  have hc : 1 + (2 ^ k - 1 - 1) ≤ 2 ^ k := by omega
  have key : ∀ a : List Int, a.length = 2 ^ k →
      ((List.range' 1 (2 ^ k - 1 - 1)).foldl (fun a m =>
        if reversedIndex (16 - k) m ≤ m then a
        else swapAt a m (reversedIndex (16 - k) m)) a).length = 2 ^ k ∧
      ∀ i, i < 2 ^ k →
        ((List.range' 1 (2 ^ k - 1 - 1)).foldl (fun a m =>
          if reversedIndex (16 - k) m ≤ m then a
          else swapAt a m (reversedIndex (16 - k) m)) a).getD i 0
          = a.getD (reversedIndex (16 - k) i) 0 := by
    intro a ha
    obtain ⟨h1, h2⟩ := swapLoop_spec (reversedIndex (16 - k)) (2 ^ k) hrev
      (reversedIndex_zero _) a ha (2 ^ k - 1 - 1) hc
    refine ⟨h1, ?_⟩
    intro i hi
    rw [h2 i hi]
    obtain ⟨h3, h4⟩ := hrev i hi
    by_cases h : i < 1 + (2 ^ k - 1 - 1) ∨ reversedIndex (16 - k) i < 1 + (2 ^ k - 1 - 1)
    · rw [if_pos h]
    · rw [if_neg h]
      have : reversedIndex (16 - k) i = i := by omega
      rw [this]
  unfold bitReversalWith
  rw [bitReversal_fold_fst, bitReversal_fold_snd]
  obtain ⟨a1, a2⟩ := key fr hr
  obtain ⟨b1, b2⟩ := key fi hi
  exact ⟨a1, b1, fun i hi => ⟨a2 i hi, b2 i hi⟩⟩

theorem list_eq_of_getD (a b : List Int) (N : Nat) (ha : a.length = N) (hb : b.length = N)
    (h : ∀ i, i < N → a.getD i 0 = b.getD i 0) : a = b := by
  apply List.ext_getElem (by rw [ha, hb])
  intro n h1 h2
  have := h n (by omega)
  rwa [List.getD_eq_getElem _ _ h1, List.getD_eq_getElem _ _ h2] at this

/-- C1. The bit reversal stage of `FFTfix` is an involution: for every buffer size `2 ^ k`
that the 16-bit index scheme admits (`NUM_SAMPLES_M_1 = 2 ^ k - 1`,
`SHIFT_AMOUNT = 16 - k`), running the stage twice on real and imaginary arrays of that size
gives back both arrays; in particular so does the stage as compiled for 1024 samples. -/
theorem bitReversal_involution (k : Nat) (hk : k ≤ 16) (fr fi : List Int)
    (hr : fr.length = 2 ^ k) (hi : fi.length = 2 ^ k) :
    bitReversalWith (2 ^ k - 1) (16 - k)
        (bitReversalWith (2 ^ k - 1) (16 - k) fr fi).1
        (bitReversalWith (2 ^ k - 1) (16 - k) fr fi).2 = (fr, fi) ∧
    (k = 10 →
      bitReversal (bitReversal fr fi).1 (bitReversal fr fi).2 = (fr, fi)) := by
  have main : bitReversalWith (2 ^ k - 1) (16 - k)
        (bitReversalWith (2 ^ k - 1) (16 - k) fr fi).1
        (bitReversalWith (2 ^ k - 1) (16 - k) fr fi).2 = (fr, fi) := by
    obtain ⟨l1, l2, g⟩ := bitReversalWith_spec k hk fr fi hr hi
    obtain ⟨m1, m2, g'⟩ := bitReversalWith_spec k hk _ _ l1 l2
    apply Prod.ext
    · apply list_eq_of_getD _ _ (2 ^ k) m1 hr
      intro i hi'
      rw [(g' i hi').1, (g _ (reversedIndex_lt k i hk)).1, reversedIndex_involutive k i hk hi']
    · apply list_eq_of_getD _ _ (2 ^ k) m2 hi
      intro i hi'
      rw [(g' i hi').2, (g _ (reversedIndex_lt k i hk)).2, reversedIndex_involutive k i hk hi']
  refine ⟨main, ?_⟩
  intro hk10
  subst hk10
  exact main

theorem bitReversal_involution_witness :
    (10 ≤ 16 ∧ ((List.range 1024).map Int.ofNat).length = 2 ^ 10 ∧
      (List.replicate 1024 (0 : Int)).length = 2 ^ 10) ∧
    bitReversal
        (bitReversal ((List.range 1024).map Int.ofNat) (List.replicate 1024 0)).1
        (bitReversal ((List.range 1024).map Int.ofNat) (List.replicate 1024 0)).2
      = ((List.range 1024).map Int.ofNat, List.replicate 1024 0) :=
  ⟨⟨by decide, by rw [List.length_map, List.length_range]; norm_num,
    by rw [List.length_replicate]; norm_num⟩,
   (bitReversal_involution 10 (by decide) ((List.range 1024).map Int.ofNat)
      (List.replicate 1024 0) (by rw [List.length_map, List.length_range]; norm_num)
      (by rw [List.length_replicate]; norm_num)).2 rfl⟩


/-- C2. After the bit reversal stage of `FFTfix` on arrays of `N = 1024` elements the real
and the imaginary array hold at every index `i < N` the value they held at the index with
the low 10 bits of `i` reversed; an index that differs from its reversal is touched by the
swap of exactly one loop iteration, an index equal to its reversal (such as `0` and
`N - 1`) by none and keeps its value. -/
theorem bitReversal_permutes (fr fi : List Int)
    (hr : fr.length = NUM_SAMPLES) (hi : fi.length = NUM_SAMPLES) :
    (∀ i, i < NUM_SAMPLES →
      (bitReversal fr fi).1.getD i 0 = fr.getD (reverseLowBits 10 i) 0 ∧
      (bitReversal fr fi).2.getD i 0 = fi.getD (reverseLowBits 10 i) 0) ∧
    (∀ i, i < NUM_SAMPLES → reverseLowBits 10 i ≠ i →
      ∃! m, (1 ≤ m ∧ m < NUM_SAMPLES_M_1) ∧ ¬ reversedIndex SHIFT_AMOUNT m ≤ m ∧
        (i = m ∨ i = reversedIndex SHIFT_AMOUNT m)) ∧
    (∀ i, i < NUM_SAMPLES → reverseLowBits 10 i = i →
      (¬ ∃ m, (1 ≤ m ∧ m < NUM_SAMPLES_M_1) ∧ ¬ reversedIndex SHIFT_AMOUNT m ≤ m ∧
        (i = m ∨ i = reversedIndex SHIFT_AMOUNT m)) ∧
      (bitReversal fr fi).1.getD i 0 = fr.getD i 0 ∧
      (bitReversal fr fi).2.getD i 0 = fi.getD i 0) ∧
    reverseLowBits 10 0 = 0 ∧ reverseLowBits 10 (NUM_SAMPLES - 1) = NUM_SAMPLES - 1 := by
  have heq : ∀ m, reversedIndex SHIFT_AMOUNT m = reverseLowBits 10 m :=
    fun m => reversedIndex_eq_reverseLowBits 10 m (by decide)
  have hlt : ∀ m, reverseLowBits 10 m < 1024 := fun m => by
    rw [← heq]
    exact reversedIndex_lt 10 m (by decide)
  have hinv : ∀ m, m < 1024 → reverseLowBits 10 (reverseLowBits 10 m) = m := fun m hm => by
    rw [← heq, ← heq]
    exact reversedIndex_involutive 10 m (by decide) hm
  have hz : reverseLowBits 10 0 = 0 := by
    rw [← heq]
    exact reversedIndex_zero _
  obtain ⟨-, -, g⟩ := bitReversalWith_spec 10 (by decide) fr fi hr hi
  have g' : ∀ i, i < 1024 →
      (bitReversal fr fi).1.getD i 0 = fr.getD (reverseLowBits 10 i) 0 ∧
      (bitReversal fr fi).2.getD i 0 = fi.getD (reverseLowBits 10 i) 0 := fun i hi' => by
    have := g i hi'
    rw [← heq]
    exact this
  simp only [NUM_SAMPLES, NUM_SAMPLES_M_1]
  refine ⟨g', ?_, ?_, hz, by decide⟩
  · intro i hi' hne
    simp only [heq]
    have hri := hlt i
    have hrr := hinv i hi'
    by_cases hcase : i < reverseLowBits 10 i
    · refine ⟨i, ⟨⟨?_, by omega⟩, by omega, Or.inl rfl⟩, ?_⟩
      · rcases Nat.eq_zero_or_pos i with h | h
        · subst h
          omega
        · exact h
      · rintro m ⟨⟨hm1, hm2⟩, hm3, hm4 | hm4⟩
        · exact hm4.symm
        · have := hinv m (by omega)
          rw [← hm4] at this
          omega
    · refine ⟨reverseLowBits 10 i, ⟨⟨?_, by omega⟩, by omega, Or.inr hrr.symm⟩, ?_⟩
      · rcases Nat.eq_zero_or_pos (reverseLowBits 10 i) with h | h
        · rw [h, hz] at hrr
          omega
        · exact h
      · rintro m ⟨⟨hm1, hm2⟩, hm3, hm4 | hm4⟩
        · subst hm4
          omega
        · have := hinv m (by omega)
          rw [← hm4] at this
          exact this.symm
  · intro i hi' hfix
    refine ⟨?_, ?_⟩
    · simp only [heq]
      rintro ⟨m, ⟨hm1, hm2⟩, hm3, hm4 | hm4⟩
      · subst hm4
        omega
      · have := hinv m (by omega)
        rw [← hm4, hfix] at this
        omega
    · have := g' i hi'
      rw [hfix] at this
      exact this

theorem bitReversal_permutes_witness :
    ((List.range 1024).map Int.ofNat).length = NUM_SAMPLES ∧
    (bitReversal ((List.range 1024).map Int.ofNat) (List.replicate 1024 0)).1.getD 1 0
      = ((List.range 1024).map Int.ofNat).getD (reverseLowBits 10 1) 0 ∧
    reverseLowBits 10 1 = 512 :=
  ⟨by rw [List.length_map, List.length_range]; rfl,
   ((bitReversal_permutes ((List.range 1024).map Int.ofNat) (List.replicate 1024 0)
      (by rw [List.length_map, List.length_range]; rfl)
      (by rw [List.length_replicate]; rfl)).1 1 (by decide)).1,
   by decide⟩


/-! ### L-system: rewriting -/

theorem symbolImage_of_some (rules : List Rule) (c : Char) (q : List Char)
    (h : production rules c = some q) : symbolImage rules c = q := by
  simp [symbolImage, h]

theorem symbolImage_of_none (rules : List Rule) (c : Char)
    (h : production rules c = none) : symbolImage rules c = [c] := by
  simp [symbolImage, h]

theorem nextgenLoop_eq (rules : List Rule) (p s : List Char)
    (hs : s.length + 1 ≤ GEN_BYTES) :
    nextgenLoop rules p s =
      if (s ++ p.flatMap (symbolImage rules)).length + 1 ≤ GEN_BYTES
      then .ok (s ++ p.flatMap (symbolImage rules))
      else .error .bufferOverflow := by
  induction p generalizing s with
  | nil =>
    unfold nextgenLoop
    simp only [List.flatMap_nil, List.append_nil]
    rw [if_pos hs]
  | cons c p ih =>
    unfold nextgenLoop
    rw [List.flatMap_cons]
    cases hq : production rules c with
    | none =>
      rw [symbolImage_of_none rules c hq]
      simp only
      by_cases h : s.length + 1 + 1 ≤ GEN_BYTES
      · rw [if_pos h, ih _ (by simpa using h), List.append_assoc]
      · rw [if_neg h, if_neg]
        simp only [List.length_append, List.length_cons, List.length_nil]
        omega
    | some q =>
      rw [symbolImage_of_some rules c q hq]
      simp only
      by_cases h : s.length + q.length + 1 ≤ GEN_BYTES
      · rw [if_pos h, ih _ (by simpa using h), List.append_assoc]
      · rw [if_neg h, if_neg]
        simp only [List.length_append]
        omega

/-- C3. `nextgen` replaces the current generation by the concatenation, in order, of the
images of its symbols (the successor returned by `production`, or the symbol itself when no
rule matches), for every rule list and every current generation whose result, with its
terminator, fits the 10000-byte block. -/
theorem nextgen_concat_images (rules : List Rule) (curgen : List Char)
    (hfit : (curgen.flatMap (symbolImage rules)).length + 1 ≤ GEN_BYTES) :
    nextgen rules curgen = .ok (curgen.flatMap (symbolImage rules)) := by
  unfold nextgen
  rw [nextgenLoop_eq _ _ _ (by decide), List.nil_append, if_pos hfit]

theorem nextgen_concat_images_witness :
    ("F+X".toList.flatMap (symbolImage treeRules)).length + 1 ≤ GEN_BYTES ∧
    nextgen treeRules "F+X".toList = .ok ("F+X".toList.flatMap (symbolImage treeRules)) ∧
    "F+X".toList.flatMap (symbolImage treeRules) = "F[+F]F[-F]F+X".toList :=
  ⟨by decide, nextgen_concat_images treeRules "F+X".toList (by decide), by decide⟩

/-- C4. `production c` returns the successor of the first rule, in list order, whose
predecessor is `c`, and returns `NULL` exactly when no rule has predecessor `c`. -/
theorem production_first_match (rules : List Rule) (c : Char) :
    (∀ q, production rules c = some q ↔
      ∃ pre r post, rules = pre ++ r :: post ∧ (∀ r1 ∈ pre, r1.pred ≠ c) ∧
        r.pred = c ∧ r.succ = q) ∧
    (production rules c = none ↔ ∀ r ∈ rules, r.pred ≠ c) := by
  induction rules with
  | nil =>
    refine ⟨fun q => ⟨fun h => ?_, ?_⟩, ⟨fun _ r hr => ?_, fun _ => rfl⟩⟩
    · simp [production] at h
    · rintro ⟨pre, r, post, h, -⟩
      simp at h
    · simp at hr
  | cons r0 rules ih =>
    obtain ⟨ih1, ih2⟩ := ih
    by_cases h0 : r0.pred = c
    · have hp : production (r0 :: rules) c = some r0.succ := by
        simp [production, h0]
      refine ⟨fun q => ⟨fun h => ?_, ?_⟩, ⟨fun h => ?_, fun h => ?_⟩⟩
      · rw [hp] at h
        exact ⟨[], r0, rules, rfl, by simp, h0, Option.some.inj h⟩
      · rintro ⟨pre, r, post, h, hpre, hr, hq⟩
        cases pre with
        | nil =>
          simp only [List.nil_append, List.cons.injEq] at h
          rw [hp, h.1, hq]
        | cons p0 pre =>
          simp only [List.cons_append, List.cons.injEq] at h
          exact absurd (h.1 ▸ h0) (hpre p0 (by simp))
      · rw [hp] at h
        exact absurd h (by simp)
      · exact absurd h0 (h r0 (by simp))
    · have hp : production (r0 :: rules) c = production rules c := by
        simp [production, h0]
      rw [hp]
      refine ⟨fun q => ⟨fun h => ?_, ?_⟩, ⟨fun h r hr => ?_, fun h => ?_⟩⟩
      · obtain ⟨pre, r, post, h1, h2, h3, h4⟩ := (ih1 q).1 h
        refine ⟨r0 :: pre, r, post, by rw [h1]; rfl, ?_, h3, h4⟩
        intro r1 hr1
        rcases List.mem_cons.1 hr1 with e | e
        · rw [e]; exact h0
        · exact h2 r1 e
      · rintro ⟨pre, r, post, h, hpre, hr, hq⟩
        cases pre with
        | nil =>
          simp only [List.nil_append, List.cons.injEq] at h
          exact absurd (h.1 ▸ hr) h0
        | cons p0 pre =>
          simp only [List.cons_append, List.cons.injEq] at h
          exact (ih1 q).2 ⟨pre, r, post, h.2, fun r1 hr1 => hpre r1 (by simp [hr1]), hr, hq⟩
      · rcases List.mem_cons.1 hr with e | e
        · rw [e]; exact h0
        · exact ih2.1 h r e
      · exact ih2.2 (fun r hr => h r (by simp [hr]))


theorem nextgen_ok_eq (rules : List Rule) (curgen s : List Char)
    (h : nextgen rules curgen = .ok s) :
    s = curgen.flatMap (symbolImage rules) ∧ s.length + 1 ≤ GEN_BYTES := by
  unfold nextgen at h
  rw [nextgenLoop_eq _ _ _ (by decide), List.nil_append] at h
  by_cases hfit : (curgen.flatMap (symbolImage rules)).length + 1 ≤ GEN_BYTES
  · rw [if_pos hfit] at h
    have := Except.ok.inj h
    subst this
    exact ⟨rfl, hfit⟩
  · rw [if_neg hfit] at h
    cases h

theorem symbolImage_treeRules (c : Char) :
    symbolImage treeRules c = if c = 'F' then "F[+F]F[-F]F".toList else [c] := by
  by_cases h : c = 'F'
  · subst h
    decide
  · have h1 : ¬ 'F' = c := fun e => h e.symm
    simp [symbolImage, treeRules, production, h, h1]

theorem flatMap_treeRules_count (curgen : List Char) :
    (curgen.flatMap (symbolImage treeRules)).count 'F' = 5 * curgen.count 'F' ∧
    (curgen.flatMap (symbolImage treeRules)).length
      = curgen.length + 10 * curgen.count 'F' := by
  induction curgen with
  | nil => simp
  | cons c p ih =>
    obtain ⟨ih1, ih2⟩ := ih
    rw [List.flatMap_cons, List.count_append, List.length_append, ih1, ih2,
      symbolImage_treeRules]
    by_cases h : c = 'F'
    · subst h
      have e1 : List.count 'F' "F[+F]F[-F]F".toList = 5 := by decide
      have e2 : "F[+F]F[-F]F".toList.length = 11 := by decide
      rw [if_pos rfl, e1, e2, List.count_cons_self, List.length_cons]
      omega
    · have h1 : List.count 'F' (c :: p) = List.count 'F' p := by
        rw [List.count_cons]
        simp [h]
      have h2 : List.count 'F' [c] = 0 := by
        rw [List.count_cons]
        simp [h]
      rw [if_neg h, h1, h2, List.length_cons, List.length_cons, List.length_nil]
      omega

theorem nextgenTimes_succ_right (rules : List Rule) (n : Nat) (curgen : List Char) :
    nextgenTimes rules (n + 1) curgen =
      match nextgenTimes rules n curgen with
      | .error e => .error e
      | .ok s => nextgen rules s := by
  induction n generalizing curgen with
  | zero =>
    simp only [nextgenTimes]
    cases nextgen rules curgen <;> rfl
  | succ n ih =>
    rw [nextgenTimes]
    cases h : nextgen rules curgen with
    | error e => simp [nextgenTimes, h]
    | ok s =>
      simp only
      rw [ih s]
      conv_rhs => rw [nextgenTimes, h]


/-- C5, as stated, fails: one generation from `F` has 11 symbols, not 5 (and two
generations have 61, not 17). -/
theorem generation_lengths_not_1_5_17 :
    ¬ ((∃ s, generate firstLsystem 0 = .ok s ∧ s.length = 1) ∧
       (∃ s, generate firstLsystem 1 = .ok s ∧ s.length = 5) ∧
       (∃ s, generate firstLsystem 2 = .ok s ∧ s.length = 17)) := by
  rintro ⟨-, ⟨s, h1, h2⟩, -⟩
  have e : generate firstLsystem 1 = .ok "F[+F]F[-F]F".toList := by decide
  rw [e] at h1
  have := Except.ok.inj h1
  subst this
  revert h2
  decide

/-- C5, amended. Under the rule `F -> F[+F]F[-F]F` every call of `nextgen` that returns
multiplies the number of `F` symbols by 5 and adds 10 symbols per `F` to the length;
starting from `F` the number of `F` is 1, 5, 25 and the length 1, 11, 61 after 0, 1, 2
generations. -/
theorem generation_growth :
    (∀ curgen s, nextgen treeRules curgen = .ok s →
      s.count 'F' = 5 * curgen.count 'F' ∧
      s.length = curgen.length + 10 * curgen.count 'F') ∧
    (∃ s0 s1 s2,
      generate firstLsystem 0 = .ok s0 ∧ generate firstLsystem 1 = .ok s1 ∧
      generate firstLsystem 2 = .ok s2 ∧
      s0.count 'F' = 1 ∧ s1.count 'F' = 5 ∧ s2.count 'F' = 25 ∧
      s0.length = 1 ∧ s1.length = 11 ∧ s2.length = 61) := by
  refine ⟨?_, ?_⟩
  · intro curgen s h
    obtain ⟨h1, -⟩ := nextgen_ok_eq _ _ _ h
    subst h1
    exact flatMap_treeRules_count curgen
  · refine ⟨"F".toList, "F[+F]F[-F]F".toList,
      "F[+F]F[-F]F[+F[+F]F[-F]F]F[+F]F[-F]F[-F[+F]F[-F]F]F[+F]F[-F]F".toList, ?_⟩
    decide

theorem generation_growth_witness :
    nextgen treeRules "FXF".toList = .ok "F[+F]F[-F]FXF[+F]F[-F]F".toList ∧
    "F[+F]F[-F]FXF[+F]F[-F]F".toList.count 'F' = 5 * "FXF".toList.count 'F' ∧
    "F[+F]F[-F]FXF[+F]F[-F]F".toList.length
      = "FXF".toList.length + 10 * "FXF".toList.count 'F' :=
  ⟨by decide, generation_growth.1 "FXF".toList "F[+F]F[-F]FXF[+F]F[-F]F".toList (by decide)⟩

/-- C6. With the single rule `F -> F[+F]F[-F]F`, one call of `nextgen` on `F` yields the
literal `F[+F]F[-F]F` (11 symbols) and a second call yields the 61-symbol string in which
every `F` of that literal is replaced by `F[+F]F[-F]F` and every bracket and sign stays in
place; `generate` with 1 and 2 iterations returns the same two strings. -/
theorem generation_literals :
    nextgen treeRules "F".toList = .ok "F[+F]F[-F]F".toList ∧
    "F[+F]F[-F]F".toList.length = 11 ∧
    nextgen treeRules "F[+F]F[-F]F".toList
      = .ok "F[+F]F[-F]F[+F[+F]F[-F]F]F[+F]F[-F]F[-F[+F]F[-F]F]F[+F]F[-F]F".toList ∧
    "F[+F]F[-F]F[+F[+F]F[-F]F]F[+F]F[-F]F[-F[+F]F[-F]F]F[+F]F[-F]F".toList.length = 61 ∧
    "F[+F]F[-F]F[+F[+F]F[-F]F]F[+F]F[-F]F[-F[+F]F[-F]F]F[+F]F[-F]F".toList
      = "F[+F]F[-F]F".toList.flatMap
          (fun c => if c = 'F' then "F[+F]F[-F]F".toList else [c]) ∧
    generate firstLsystem 1 = .ok "F[+F]F[-F]F".toList ∧
    generate firstLsystem 2
      = .ok "F[+F]F[-F]F[+F[+F]F[-F]F]F[+F]F[-F]F[-F[+F]F[-F]F]F[+F]F[-F]F".toList := by
  decide


/-! ### L-system: interpretation -/

theorem bracketDepth_append (a b : List Char) (d : Nat) :
    bracketDepth d (a ++ b) = (bracketDepth d a).bind (fun d1 => bracketDepth d1 b) := by
  induction a generalizing d with
  | nil => simp [bracketDepth]
  | cons c a ih =>
    simp only [List.cons_append, bracketDepth]
    by_cases h1 : c = '['
    · simp only [h1, if_true]
      exact ih _
    · simp only [h1, if_false]
      by_cases h2 : c = ']'
      · simp only [h2, if_true]
        cases d with
        | zero => simp
        | succ d => exact ih _
      · simp only [h2, if_false]
        exact ih _

theorem bracketDepth_successor (d : Nat) : bracketDepth d "F[+F]F[-F]F".toList = some d := by
  simp [bracketDepth]

theorem bracketDepth_flatMap_treeRules (s : List Char) (d : Nat) :
    bracketDepth d (s.flatMap (symbolImage treeRules)) = bracketDepth d s := by
  induction s generalizing d with
  | nil => simp
  | cons c s ih =>
    rw [List.flatMap_cons, bracketDepth_append, symbolImage_treeRules]
    by_cases h : c = 'F'
    · subst h
      rw [if_pos rfl, bracketDepth_successor]
      simp [bracketDepth, ih]
    · rw [if_neg h]
      have : c :: s = [c] ++ s := rfl
      rw [this, bracketDepth_append]
      congr 1
      funext d1
      exact ih d1

theorem nextgenTimes_treeRules_depth (k : Nat) (curgen s : List Char) (d : Nat)
    (h : nextgenTimes treeRules k curgen = .ok s) :
    bracketDepth d s = bracketDepth d curgen := by
  induction k generalizing curgen with
  | zero =>
    simp only [nextgenTimes] at h
    rw [Except.ok.inj h]
  | succ k ih =>
    rw [nextgenTimes] at h
    cases h1 : nextgen treeRules curgen with
    | error e => rw [h1] at h; cases h
    | ok s1 =>
      rw [h1] at h
      rw [ih s1 h, (nextgen_ok_eq _ _ _ h1).1, bracketDepth_flatMap_treeRules]

theorem interpretSymbol_plain (tr : Trig) (ls : Lsystem) (color : Nat) (c : Char) (t : Turtle)
    (h1 : c ≠ '[') (h2 : c ≠ ']') :
    ∃ t1, interpretSymbol tr ls color c t = .ok t1 ∧ t1.state = t.state := by
  unfold interpretSymbol
  split_ifs <;> exact ⟨_, rfl, rfl⟩

theorem interpret_append (tr : Trig) (ls : Lsystem) (color : Nat) (a b : List Char)
    (t : Turtle) :
    interpret tr ls color (a ++ b) t =
      match interpret tr ls color a t with
      | .error e => .error e
      | .ok t1 => interpret tr ls color b t1 := by
  induction a generalizing t with
  | nil => simp [interpret]
  | cons c a ih =>
    simp only [List.cons_append, interpret]
    cases interpretSymbol tr ls color c t with
    | error e => rfl
    | ok t1 => exact ih t1

theorem interpret_stack (tr : Trig) (ls : Lsystem) (color : Nat) (s : List Char) :
    ∀ (d d1 : Nat) (t : Turtle) (extra rest : List State),
      bracketDepth d s = some d1 → t.state = extra ++ rest → extra.length = d →
      ∃ t1 extra1, interpret tr ls color s t = .ok t1 ∧
        t1.state = extra1 ++ rest ∧ extra1.length = d1 := by
  induction s with
  | nil =>
    intro d d1 t extra rest hd hst hlen
    simp only [bracketDepth, Option.some.injEq] at hd
    exact ⟨t, extra, rfl, hst, by omega⟩
  | cons c s ih =>
    intro d d1 t extra rest hd hst hlen
    simp only [bracketDepth] at hd
    simp only [interpret]
    by_cases h1 : c = '['
    · subst h1
      simp only [if_true] at hd
      have e : interpretSymbol tr ls color '[' t = .ok (pushstate t) := by
        simp [interpretSymbol]
      rw [e]
      exact ih (d + 1) d1 (pushstate t) (⟨t.x_cur, t.y_cur, t.angle_cur⟩ :: extra) rest hd
        (by simp [pushstate, hst]) (by simp [hlen])
    · simp only [h1, if_false] at hd
      by_cases h2 : c = ']'
      · subst h2
        simp only [if_true] at hd
        cases d with
        | zero => simp at hd
        | succ d =>
          simp only at hd
          cases extra with
          | nil => simp at hlen
          | cons e0 extra =>
            have e : interpretSymbol tr ls color ']' t =
                .ok { t with x_cur := e0.x, y_cur := e0.y, angle_cur := e0.angle,
                             state := extra ++ rest } := by
              simp [interpretSymbol, popstate, hst]
            rw [e]
            exact ih d d1 _ extra rest hd rfl (by simpa using hlen)
      · simp only [h2, if_false] at hd
        obtain ⟨t1, e, hs1⟩ := interpretSymbol_plain tr ls color c t h1 h2
        rw [e]
        exact ih d d1 t1 extra rest hd (hs1.trans hst) hlen


theorem nextgen_treeRules_fits (curgen : List Char)
    (h : curgen.length + 10 * curgen.count 'F' + 1 ≤ GEN_BYTES) :
    ∃ s, nextgen treeRules curgen = .ok s ∧ s.count 'F' = 5 * curgen.count 'F' ∧
      s.length = curgen.length + 10 * curgen.count 'F' := by
  obtain ⟨h1, h2⟩ := flatMap_treeRules_count curgen
  refine ⟨curgen.flatMap (symbolImage treeRules), ?_, h1, h2⟩
  unfold nextgen
  rw [nextgenLoop_eq _ _ _ (by decide), List.nil_append, if_pos (by rw [h2]; exact h)]

theorem nextgenTimes_treeRules_ok (k : Nat) (hk : k ≤ 5) :
    ∃ s, nextgenTimes treeRules k "F".toList = .ok s ∧ s.count 'F' = 5 ^ k ∧
      2 * s.length + 3 = 5 ^ (k + 1) := by
  induction k with
  | zero => exact ⟨"F".toList, rfl, by decide, by decide⟩
  | succ k ih =>
    obtain ⟨s, h1, h2, h3⟩ := ih (by omega)
    have hp : 5 ^ k ≤ 5 ^ 4 := Nat.pow_le_pow_right (by norm_num) (by omega)
    have hp1 : 5 ^ (k + 1) = 5 * 5 ^ k := by rw [pow_succ]; ring
    have hp2 : 5 ^ (k + 1 + 1) = 25 * 5 ^ k := by rw [pow_succ, pow_succ]; ring
    have hfit : s.length + 10 * s.count 'F' + 1 ≤ GEN_BYTES := by
      rw [h2]
      simp only [GEN_BYTES]
      norm_num at hp
      omega
    obtain ⟨s1, g1, g2, g3⟩ := nextgen_treeRules_fits s hfit
    refine ⟨s1, ?_, ?_, ?_⟩
    · rw [nextgenTimes_succ_right, h1]
      exact g1
    · rw [g2, h2, hp1]
    · rw [g3, h2, hp2]
      omega

theorem iterate_treeRules_depth (k : Nat) (s : List Char) (d : Nat) :
    bracketDepth d (Nat.iterate (fun u => u.flatMap (symbolImage treeRules)) k s)
      = bracketDepth d s := by
  induction k generalizing s with
  | zero => rfl
  | succ k ih =>
    rw [Function.iterate_succ_apply, ih, bracketDepth_flatMap_treeRules]

/-- The string that `k` rewriting passes produce from the axiom `F` under
`F -> F[+F]F[-F]F` when storage is unbounded is interpreted, for every `k`, without a
fault and ends with no pushed snapshot left on the stack. -/
theorem rewritten_tree_returns_to_base (tr : Trig) (color : Nat) (ls : Lsystem)
    (hax : ls.axm = "F".toList) (hrules : ls.rules = treeRules) (k : Nat) :
    ∃ t1, interpret tr ls color
        (Nat.iterate (fun u => u.flatMap (symbolImage ls.rules)) k ls.axm)
        (initialTurtle ls) = .ok t1 ∧ t1.state = [] := by
  have hd : bracketDepth 0
      (Nat.iterate (fun u => u.flatMap (symbolImage ls.rules)) k ls.axm) = some 0 := by
    rw [hax, hrules, iterate_treeRules_depth]
    decide
  obtain ⟨t1, extra1, e1, e2, e3⟩ :=
    interpret_stack tr ls color _ 0 0 (initialTurtle ls) [] [] hd rfl rfl
  refine ⟨t1, e1, ?_⟩
  rw [e2, List.length_eq_zero.1 e3]
  rfl

/-- C7, amended. For the axiom `F` and the rule `F -> F[+F]F[-F]F`, with any line length,
angles and colour, and for every `k` from 0 to 5 (the generations that fit the 10000-byte
block): `k` calls of `nextgen` return a string, interpreting that string from the turtle of
the start of an epoch ends with no pushed snapshot left on the stack, and the
interpretation of every prefix of the string runs without a fault, so no `]` is executed
on an empty stack. -/
theorem generated_tree_returns_to_base (tr : Trig) (color : Nat) (ls : Lsystem)
    (hax : ls.axm = "F".toList) (hrules : ls.rules = treeRules) (k : Nat) (hk : k ≤ 5) :
    ∃ s, generate ls k = .ok s ∧
      (∃ t1, interpret tr ls color s (initialTurtle ls) = .ok t1 ∧ t1.state = []) ∧
      (∀ p q, s = p ++ q → ∃ t2, interpret tr ls color p (initialTurtle ls) = .ok t2) := by
  have hgen : generate ls k = nextgenTimes treeRules k "F".toList := by
    unfold generate
    rw [hax, hrules, if_pos (by decide)]
  obtain ⟨s, h, -⟩ := nextgenTimes_treeRules_ok k hk
  refine ⟨s, by rw [hgen]; exact h, ?_⟩
  have hd : bracketDepth 0 s = some 0 := by
    rw [nextgenTimes_treeRules_depth k _ s 0 h]
    decide
  obtain ⟨t1, extra1, e1, e2, e3⟩ :=
    interpret_stack tr ls color s 0 0 (initialTurtle ls) [] [] hd rfl rfl
  have e4 : t1.state = [] := by
    rw [e2, List.length_eq_zero.1 e3]
    rfl
  refine ⟨⟨t1, e1, e4⟩, ?_⟩
  intro p q hpq
  subst hpq
  rw [interpret_append] at e1
  cases hp : interpret tr ls color p (initialTurtle ls) with
  | error e => rw [hp] at e1; cases e1
  | ok t2 => exact ⟨t2, rfl⟩

theorem generated_tree_returns_to_base_witness :
    (firstLsystem.axm = "F".toList ∧ firstLsystem.rules = treeRules ∧ 1 ≤ 5) ∧
    ∃ s, generate firstLsystem 1 = .ok s ∧
      (∃ t1, interpret ⟨fun x _ _ => x, fun y len _ => y - len⟩ firstLsystem 2 s
          (initialTurtle firstLsystem) = .ok t1 ∧ t1.state = []) ∧
      (∀ p q, s = p ++ q →
        ∃ t2, interpret ⟨fun x _ _ => x, fun y len _ => y - len⟩ firstLsystem 2 p
          (initialTurtle firstLsystem) = .ok t2) :=
  ⟨⟨rfl, rfl, by decide⟩,
   generated_tree_returns_to_base ⟨fun x _ _ => x, fun y len _ => y - len⟩ 2 firstLsystem
      rfl rfl 1 (by decide)⟩

/-- C8. The turtle stack is last-in first-out: `popstate` undoes `pushstate`, and for every
turtle and every bracket-balanced string `s`, interpreting `[`, then `s`, then `]` succeeds
and leaves position, heading and stack exactly as they were before the `[`. -/
theorem bracket_pair_restores (tr : Trig) (ls : Lsystem) (color : Nat) (t : Turtle)
    (s : List Char) (hs : Balanced s) :
    popstate (pushstate t) = .ok t ∧
    ∃ t1, interpret tr ls color ('[' :: (s ++ [']'])) t = .ok t1 ∧
      t1.x_cur = t.x_cur ∧ t1.y_cur = t.y_cur ∧ t1.angle_cur = t.angle_cur ∧
      t1.state = t.state := by
  refine ⟨rfl, ?_⟩
  have e : interpretSymbol tr ls color '[' t = .ok (pushstate t) := by
    simp [interpretSymbol]
  obtain ⟨t1, extra1, e1, e2, e3⟩ :=
    interpret_stack tr ls color s 0 0 (pushstate t) []
      (⟨t.x_cur, t.y_cur, t.angle_cur⟩ :: t.state) hs rfl rfl
  have e4 : t1.state = ⟨t.x_cur, t.y_cur, t.angle_cur⟩ :: t.state := by
    rw [e2, List.length_eq_zero.1 e3]
    rfl
  refine ⟨{ t1 with x_cur := t.x_cur, y_cur := t.y_cur, angle_cur := t.angle_cur,
                    state := t.state }, ?_, rfl, rfl, rfl, rfl⟩
  simp only [interpret]
  rw [e]
  simp only
  rw [interpret_append, e1]
  simp [interpret, interpretSymbol, popstate, e4]

theorem bracket_pair_restores_witness :
    Balanced "F+[F-F]".toList ∧
    ∃ t1, interpret ⟨fun x len _ => x + len, fun y _ _ => y⟩ firstLsystem 2
        ('[' :: ("F+[F-F]".toList ++ [']'])) (initialTurtle firstLsystem) = .ok t1 ∧
      t1.x_cur = 320 ∧ t1.y_cur = 480 ∧ t1.angle_cur = -90 ∧ t1.state = [] :=
  ⟨by decide,
   (bracket_pair_restores ⟨fun x len _ => x + len, fun y _ _ => y⟩ firstLsystem 2
      (initialTurtle firstLsystem) "F+[F-F]".toList (by decide)).2⟩

/-- C9, as stated, fails: from heading 30 the turn by -30 gives heading 360, which is not
strictly below 360. -/
theorem rotate_reaches_360 :
    ¬ (∀ (t : Turtle) (d : Int), 0 ≤ t.angle_cur → t.angle_cur < 360 → -360 < d → d < 360 →
        0 ≤ (rotate d t).angle_cur ∧ (rotate d t).angle_cur < 360) := by
  intro h
  have := (h ⟨320, 480, 30, [], []⟩ (-30) (by decide) (by decide) (by decide) (by decide)).2
  revert this
  decide

/-- C9, amended. `rotate` wraps the heading into the interval from 0 (excluded) to 360
(included): for every whole-degree heading `h` in `[0, 360)` and every turn `d` with
`|d| < 360` the heading after `rotate(d)` is strictly above 0 and at most 360. -/
theorem rotate_range (t : Turtle) (d : Int) (h0 : 0 ≤ t.angle_cur) (h1 : t.angle_cur < 360)
    (d0 : -360 < d) (d1 : d < 360) :
    0 < (rotate d t).angle_cur ∧ (rotate d t).angle_cur ≤ 360 := by
  simp only [rotate, rotateAngle]
  split_ifs <;> omega

theorem rotate_range_witness :
    0 < (rotate (-30) ⟨320, 480, 30, [], []⟩).angle_cur ∧
    (rotate (-30) ⟨320, 480, 30, [], []⟩).angle_cur ≤ 360 :=
  rotate_range ⟨320, 480, 30, [], []⟩ (-30) (by decide) (by decide) (by decide) (by decide)

theorem interpretSymbol_noop (tr : Trig) (ls : Lsystem) (color : Nat) (c : Char) (t : Turtle)
    (h : isTurtleCommand c = false) : interpretSymbol tr ls color c t = .ok t := by
  simp only [isTurtleCommand, Bool.or_eq_false_iff, decide_eq_false_iff_not] at h
  obtain ⟨⟨⟨⟨h1, h2⟩, h3⟩, h4⟩, h5⟩ := h
  simp [interpretSymbol, h1, h2, h3, h4, h5]

/-- C10. Symbols other than `F`, `+`, `-`, `[` and `]` are no-ops at interpretation time:
interpreting a string and interpreting it with every such symbol deleted give the same
outcome, that is the same calls of `drawLine` and the same final position, heading and
stack (or the same fault). -/
theorem other_symbols_are_noops (tr : Trig) (ls : Lsystem) (color : Nat) (s : List Char)
    (t : Turtle) :
    interpret tr ls color (s.filter isTurtleCommand) t = interpret tr ls color s t := by
  induction s generalizing t with
  | nil => rfl
  | cons c s ih =>
    by_cases h : isTurtleCommand c = true
    · rw [List.filter_cons_of_pos h]
      simp only [interpret]
      cases interpretSymbol tr ls color c t with
      | error e => rfl
      | ok t1 => exact ih t1
    · have h1 : isTurtleCommand c = false := by simpa using h
      rw [List.filter_cons_of_neg h]
      simp only [interpret]
      rw [interpretSymbol_noop tr ls color c t h1]
      exact ih t

/-! ### L-system: behaviour outside the contract -/

theorem interpret_depth (tr : Trig) (ls : Lsystem) (color : Nat) (s : List Char) :
    ∀ t : Turtle,
      (∀ d, bracketDepth t.state.length s = some d →
        ∃ t1, interpret tr ls color s t = .ok t1 ∧ t1.state.length = d) ∧
      (bracketDepth t.state.length s = none →
        interpret tr ls color s t = .error .popBaseState) := by
  induction s with
  | nil =>
    intro t
    refine ⟨fun d hd => ?_, fun hd => ?_⟩
    · simp only [bracketDepth, Option.some.injEq] at hd
      exact ⟨t, rfl, hd⟩
    · simp [bracketDepth] at hd
  | cons c s ih =>
    intro t
    simp only [bracketDepth, interpret]
    by_cases h1 : c = '['
    · subst h1
      have e : interpretSymbol tr ls color '[' t = .ok (pushstate t) := by
        simp [interpretSymbol]
      have hl : (pushstate t).state.length = t.state.length + 1 := by
        simp [pushstate]
      rw [e]
      simp only [if_true]
      rw [← hl]
      exact ih (pushstate t)
    · simp only [h1, if_false]
      by_cases h2 : c = ']'
      · subst h2
        simp only [if_true]
        cases hst : t.state with
        | nil =>
          have e : interpretSymbol tr ls color ']' t = .error .popBaseState := by
            simp [interpretSymbol, popstate, hst]
          rw [e]
          simp
        | cons e0 rest =>
          have e : interpretSymbol tr ls color ']' t =
              .ok { t with x_cur := e0.x, y_cur := e0.y, angle_cur := e0.angle,
                           state := rest } := by
            simp [interpretSymbol, popstate, hst]
          rw [e]
          simp only [List.length_cons]
          exact ih { t with x_cur := e0.x, y_cur := e0.y, angle_cur := e0.angle,
                            state := rest }
      · simp only [h2, if_false]
        obtain ⟨t1, e, hs1⟩ := interpretSymbol_plain tr ls color c t h1 h2
        rw [e, ← hs1]
        exact ih t1

/-- C11, as stated, fails: on the string `F]F`, whose `]` meets the empty stack of the
start of an epoch, the interpretation has no defined outcome at all; the pop is the
undefined behaviour `popBaseState` (the static base node handed to `free`), not an error
that `popstate`, a `void` function without any test, could report. -/
theorem unmatched_pop_is_undefined :
    ¬ Defined (interpret ⟨fun x _ _ => x, fun y len _ => y - len⟩ firstLsystem 2
        "F]F".toList (initialTurtle firstLsystem)) ∧
    interpret ⟨fun x _ _ => x, fun y len _ => y - len⟩ firstLsystem 2
        "F]F".toList (initialTurtle firstLsystem) = .error .popBaseState ∧
    popstate (initialTurtle firstLsystem) = .error .popBaseState := by
  have e : interpret ⟨fun x _ _ => x, fun y len _ => y - len⟩ firstLsystem 2
        "F]F".toList (initialTurtle firstLsystem) = .error .popBaseState :=
    (interpret_depth _ _ _ _ _).2 (by decide)
  refine ⟨?_, e, rfl⟩
  rintro ⟨t1, h⟩
  rw [e] at h
  cases h

/-- C11, amended. `popstate` has no emptiness test and no error result: it is defined
exactly when at least one pushed snapshot is on the stack, and with none it is the
undefined behaviour `popBaseState`. Interpreting a string is defined exactly when none of
its `]` meets an empty stack, and is that same undefined behaviour otherwise; nothing is
reported and no other fault can arise. -/
theorem pop_defined_iff (tr : Trig) (ls : Lsystem) (color : Nat) (s : List Char)
    (t : Turtle) :
    (Defined (popstate t) ↔ t.state ≠ []) ∧
    (t.state = [] → popstate t = .error .popBaseState) ∧
    (Defined (interpret tr ls color s t) ↔ ∃ d, bracketDepth t.state.length s = some d) ∧
    (bracketDepth t.state.length s = none →
      interpret tr ls color s t = .error .popBaseState) ∧
    (∀ f, interpret tr ls color s t = .error f → f = .popBaseState) := by
  obtain ⟨h1, h2⟩ := interpret_depth tr ls color s t
  refine ⟨?_, ?_, ?_, h2, ?_⟩
  · cases hst : t.state with
    | nil =>
      simp only [ne_eq, not_true_eq_false, iff_false]
      rintro ⟨t1, h⟩
      simp [popstate, hst] at h
    | cons e0 rest =>
      simp only [ne_eq, reduceCtorEq, not_false_eq_true, iff_true]
      exact ⟨{ t with x_cur := e0.x, y_cur := e0.y, angle_cur := e0.angle, state := rest },
        by simp [popstate, hst]⟩
  · intro hst
    simp [popstate, hst]
  · constructor
    · rintro ⟨t1, h⟩
      cases hd : bracketDepth t.state.length s with
      | none =>
        rw [h2 hd] at h
        cases h
      | some d => exact ⟨d, rfl⟩
    · rintro ⟨d, hd⟩
      obtain ⟨t1, e, -⟩ := h1 d hd
      exact ⟨t1, e⟩
  · intro f hf
    cases hd : bracketDepth t.state.length s with
    | none =>
      rw [h2 hd] at hf
      exact (Except.error.inj hf).symm
    | some d =>
      obtain ⟨t1, e, -⟩ := h1 d hd
      rw [e] at hf
      cases hf

theorem pop_defined_iff_witness :
    (initialTurtle firstLsystem).state = [] ∧
    popstate (initialTurtle firstLsystem) = .error .popBaseState ∧
    bracketDepth (initialTurtle firstLsystem).state.length "F]".toList = none :=
  ⟨rfl,
   (pop_defined_iff ⟨fun x _ _ => x, fun y _ _ => y⟩ firstLsystem 2 "F]".toList
      (initialTurtle firstLsystem)).2.1 rfl,
   by decide⟩

theorem nextgen_eq_ite (rules : List Rule) (curgen : List Char) :
    nextgen rules curgen =
      if (curgen.flatMap (symbolImage rules)).length + 1 ≤ GEN_BYTES
      then .ok (curgen.flatMap (symbolImage rules))
      else .error .bufferOverflow := by
  unfold nextgen
  rw [nextgenLoop_eq _ _ _ (by decide), List.nil_append]

/-- C12, as stated, fails: six generations of the first preset (axiom `F`, rule
`F -> F[+F]F[-F]F`, the iteration count of the two other presets) need 39062 bytes; the
sixth call of `nextgen` has no defined outcome, it is the undefined behaviour
`bufferOverflow` (a write past the end of the 10000-byte block), and `nextgen`, a `void`
function without any bounds test, neither truncates nor rejects nor reports. -/
theorem oversized_generation_is_undefined :
    ¬ Defined (generate firstLsystem 6) ∧
    generate firstLsystem 6 = .error .bufferOverflow := by
  have e : generate firstLsystem 6 = .error .bufferOverflow := by
    obtain ⟨s, h1, h2, h3⟩ := nextgenTimes_treeRules_ok 5 (le_refl 5)
    have hg : generate firstLsystem 6 = nextgenTimes treeRules 6 "F".toList := by
      unfold generate
      rw [if_pos (by decide)]
      rfl
    rw [hg, nextgenTimes_succ_right, h1]
    simp only
    rw [nextgen_eq_ite, if_neg]
    rw [(flatMap_treeRules_count s).2, h2]
    simp only [GEN_BYTES]
    norm_num
  refine ⟨?_, e⟩
  rintro ⟨s, h⟩
  rw [e] at h
  cases h

/-- C12, amended. `nextgen` has no bounds test and no error result: it is defined exactly
when the new generation with its terminator fits the 10000-byte block, and then it returns
the whole new generation, never a truncated one; when the new generation does not fit, the
call is the undefined behaviour `bufferOverflow`, which nothing detects or reports. -/
theorem nextgen_defined_iff (rules : List Rule) (curgen : List Char) :
    (Defined (nextgen rules curgen) ↔
      (curgen.flatMap (symbolImage rules)).length + 1 ≤ GEN_BYTES) ∧
    (∀ s, nextgen rules curgen = .ok s → s = curgen.flatMap (symbolImage rules)) ∧
    (¬ (curgen.flatMap (symbolImage rules)).length + 1 ≤ GEN_BYTES →
      nextgen rules curgen = .error .bufferOverflow) := by
  refine ⟨⟨?_, ?_⟩, ?_, ?_⟩
  · rintro ⟨s, h⟩
    by_contra hfit
    rw [nextgen_eq_ite, if_neg hfit] at h
    cases h
  · intro hfit
    exact ⟨_, by rw [nextgen_eq_ite, if_pos hfit]⟩
  · intro s h
    exact (nextgen_ok_eq rules curgen s h).1
  · intro hfit
    rw [nextgen_eq_ite, if_neg hfit]

theorem nextgen_defined_iff_witness :
    ¬ ((List.replicate 1000 'F').flatMap (symbolImage treeRules)).length + 1 ≤ GEN_BYTES ∧
    nextgen treeRules (List.replicate 1000 'F') = .error .bufferOverflow :=
  have h : ¬ ((List.replicate 1000 'F').flatMap (symbolImage treeRules)).length + 1
      ≤ GEN_BYTES := by
    rw [(flatMap_treeRules_count _).2, List.length_replicate, List.count_replicate_self]
    decide
  ⟨h, (nextgen_defined_iff treeRules (List.replicate 1000 'F')).2.2 h⟩

/-! ### L-system: growth under the presets -/

theorem production_mem (rules : List Rule) (c : Char) (q : List Char)
    (h : production rules c = some q) : ∃ r ∈ rules, r.succ = q := by
  induction rules with
  | nil => simp [production] at h
  | cons r0 rules ih =>
    simp only [production] at h
    by_cases h0 : r0.pred = c
    · rw [if_pos h0] at h
      exact ⟨r0, by simp, Option.some.inj h⟩
    · rw [if_neg h0] at h
      obtain ⟨r, hr, e⟩ := ih h
      exact ⟨r, by simp [hr], e⟩

theorem symbolImage_length_pos (rules : List Rule) (h : ∀ r ∈ rules, r.succ ≠ [])
    (c : Char) : 1 ≤ (symbolImage rules c).length := by
  cases hq : production rules c with
  | none => rw [symbolImage_of_none rules c hq]; simp
  | some q =>
    rw [symbolImage_of_some rules c q hq]
    obtain ⟨r, hr, e⟩ := production_mem rules c q hq
    have := h r hr
    rw [e] at this
    exact List.length_pos.2 this

theorem flatMap_length_ge (rules : List Rule) (h : ∀ r ∈ rules, r.succ ≠ [])
    (curgen : List Char) :
    curgen.length ≤ (curgen.flatMap (symbolImage rules)).length := by
  induction curgen with
  | nil => simp
  | cons c p ih =>
    rw [List.flatMap_cons, List.length_append, List.length_cons]
    have := symbolImage_length_pos rules h c
    omega

/-- C14. Expansion is non-shrinking: for every rule list in which no rule has an empty
successor and every current generation, the concatenation of the images is at least as
long as the current generation, and so is the string that `nextgen` returns. -/
theorem nextgen_non_shrinking (rules : List Rule) (h : ∀ r ∈ rules, r.succ ≠ [])
    (curgen : List Char) :
    curgen.length ≤ (curgen.flatMap (symbolImage rules)).length ∧
    ∀ s, nextgen rules curgen = .ok s → curgen.length ≤ s.length := by
  refine ⟨flatMap_length_ge rules h curgen, ?_⟩
  intro s hs
  rw [(nextgen_ok_eq rules curgen s hs).1]
  exact flatMap_length_ge rules h curgen

theorem nextgen_non_shrinking_witness :
    (∀ r ∈ treeRules, r.succ ≠ []) ∧
    nextgen treeRules "F+F".toList = .ok "F[+F]F[-F]F+F[+F]F[-F]F".toList ∧
    "F+F".toList.length ≤ "F[+F]F[-F]F+F[+F]F[-F]F".toList.length :=
  ⟨by decide, by decide,
   (nextgen_non_shrinking treeRules (by decide) "F+F".toList).2
      "F[+F]F[-F]F+F[+F]F[-F]F".toList (by decide)⟩

theorem symbolImage_xRules (sX : List Char) (c : Char) :
    symbolImage [{ pred := 'X', succ := sX }, { pred := 'F', succ := "FF".toList }] c =
      if c = 'X' then sX else if c = 'F' then "FF".toList else [c] := by
  by_cases h : c = 'X'
  · subst h
    simp [symbolImage, production]
  · have h1 : ¬ 'X' = c := fun e => h e.symm
    by_cases h2 : c = 'F'
    · subst h2
      simp [symbolImage, production]
    · have h3 : ¬ 'F' = c := fun e => h2 e.symm
      simp [symbolImage, production, h, h1, h2, h3]

theorem flatMap_xRules_count (sX : List Char) (n : Nat) (hx : sX.count 'X' = 3)
    (hf : sX.count 'F' = 2) (hn : sX.length = n + 1) (curgen : List Char) :
    (curgen.flatMap (symbolImage
        [{ pred := 'X', succ := sX }, { pred := 'F', succ := "FF".toList }])).count 'X'
      = 3 * curgen.count 'X' ∧
    (curgen.flatMap (symbolImage
        [{ pred := 'X', succ := sX }, { pred := 'F', succ := "FF".toList }])).count 'F'
      = 2 * curgen.count 'X' + 2 * curgen.count 'F' ∧
    (curgen.flatMap (symbolImage
        [{ pred := 'X', succ := sX }, { pred := 'F', succ := "FF".toList }])).length
      = curgen.length + n * curgen.count 'X' + curgen.count 'F' := by
  induction curgen with
  | nil => simp
  | cons c p ih =>
    obtain ⟨ih1, ih2, ih3⟩ := ih
    rw [List.flatMap_cons, List.count_append, List.count_append, List.length_append,
      ih1, ih2, ih3, symbolImage_xRules]
    by_cases h : c = 'X'
    · subst h
      have e1 : List.count 'F' ('X' :: p) = List.count 'F' p := by
        rw [List.count_cons]; simp
      rw [if_pos rfl, hx, hf, hn, List.count_cons_self, e1, List.length_cons]
      refine ⟨by omega, by omega, ?_⟩
      rw [Nat.mul_add]
      omega
    · have e1 : List.count 'X' (c :: p) = List.count 'X' p := by
        rw [List.count_cons]; simp [h]
      rw [if_neg h, e1]
      by_cases h2 : c = 'F'
      · subst h2
        have a1 : List.count 'X' "FF".toList = 0 := by decide
        have a2 : List.count 'F' "FF".toList = 2 := by decide
        have a3 : "FF".toList.length = 2 := by decide
        rw [if_pos rfl, a1, a2, a3, List.count_cons_self, List.length_cons]
        refine ⟨by omega, by omega, by omega⟩
      · have e2 : List.count 'F' (c :: p) = List.count 'F' p := by
          rw [List.count_cons]; simp [h2]
        have a1 : List.count 'X' [c] = 0 := by
          rw [List.count_cons]; simp [h]
        have a2 : List.count 'F' [c] = 0 := by
          rw [List.count_cons]; simp [h2]
        rw [if_neg h2, e2, a1, a2, List.length_cons, List.length_cons, List.length_nil]
        refine ⟨by omega, by omega, by omega⟩

theorem nextgen_xRules_fits (sX : List Char) (n : Nat) (hx : sX.count 'X' = 3)
    (hf : sX.count 'F' = 2) (hn : sX.length = n + 1) (curgen : List Char) (x f l : Nat)
    (hX : curgen.count 'X' = x) (hF : curgen.count 'F' = f) (hl : curgen.length = l)
    (hfit : l + n * x + f + 1 ≤ GEN_BYTES) :
    ∃ s, nextgen [{ pred := 'X', succ := sX }, { pred := 'F', succ := "FF".toList }] curgen
        = .ok s ∧
      s.count 'X' = 3 * x ∧ s.count 'F' = 2 * x + 2 * f ∧ s.length = l + n * x + f := by
  obtain ⟨h1, h2, h3⟩ := flatMap_xRules_count sX n hx hf hn curgen
  rw [hX, hF, hl] at h3
  rw [hX] at h1
  rw [hX, hF] at h2
  refine ⟨_, ?_, h1, h2, h3⟩
  rw [nextgen_eq_ite, if_pos (by rw [h3]; exact hfit)]

theorem nextgenTimes_xRules_ok (sX : List Char) (n : Nat) (hx : sX.count 'X' = 3)
    (hf : sX.count 'F' = 2) (hn : sX.length = n + 1) (hn11 : n ≤ 11) (k : Nat)
    (hk : k ≤ 6) :
    ∃ s, nextgenTimes [{ pred := 'X', succ := sX }, { pred := 'F', succ := "FF".toList }]
        k "X".toList = .ok s ∧
      s.count 'X' = [1, 3, 9, 27, 81, 243, 729].getD k 0 ∧
      s.count 'F' = [0, 2, 10, 38, 130, 422, 1330].getD k 0 ∧
      s.length = 1 + n * [0, 1, 4, 13, 40, 121, 364].getD k 0
        + [0, 0, 2, 12, 50, 180, 602].getD k 0 := by
  induction k with
  | zero => exact ⟨"X".toList, rfl, by decide, by decide, by simp⟩
  | succ k ih =>
    obtain ⟨s, h1, h2, h3, h4⟩ := ih (by omega)
    have hk5 : k ≤ 5 := by omega
    have hfit : s.length + n * s.count 'X' + s.count 'F' + 1 ≤ GEN_BYTES := by
      rw [h2, h3, h4]
      simp only [GEN_BYTES]
      interval_cases k <;> simp <;> omega
    obtain ⟨s1, g1, g2, g3, g4⟩ :=
      nextgen_xRules_fits sX n hx hf hn s _ _ _ rfl rfl rfl hfit
    refine ⟨s1, ?_, ?_, ?_, ?_⟩
    · rw [nextgenTimes_succ_right, h1]
      exact g1
    · rw [g2, h2]
      interval_cases k <;> simp
    · rw [g3, h2, h3]
      interval_cases k <;> simp
    · rw [g4, h2, h3, h4]
      interval_cases k <;> simp <;> ring


theorem presetOf_generations (rule_num : Int) (k : Nat)
    (hk : k ≤ (presetOf rule_num).iteration) :
    ∃ s, nextgenTimes (presetOf rule_num).rules k (presetOf rule_num).axm = .ok s ∧
      s.length ≤ 4607 := by
  unfold presetOf at hk ⊢
  by_cases h0 : rule_num = 0
  · simp only [h0, if_true] at hk ⊢
    obtain ⟨s, h1, -, -, h4⟩ :=
      nextgenTimes_xRules_ok "F[+X]F[-X]+X".toList 11 (by decide) (by decide) (by decide)
        (le_refl 11) k hk
    refine ⟨s, h1, ?_⟩
    rw [h4]
    interval_cases k <;> simp
  · simp only [h0, if_false] at hk ⊢
    by_cases h1 : rule_num = 1
    · simp only [h1, if_true] at hk ⊢
      obtain ⟨s, h1, -, -, h4⟩ :=
        nextgenTimes_xRules_ok "F[+X][-X]FX".toList 10 (by decide) (by decide) (by decide)
          (by decide) k hk
      refine ⟨s, h1, ?_⟩
      rw [h4]
      interval_cases k <;> simp
    · simp only [h1, if_false] at hk ⊢
      obtain ⟨s, h1, -, h3⟩ := nextgenTimes_treeRules_ok k (by omega)
      refine ⟨s, h1, ?_⟩
      have hp : 5 ^ (k + 1) ≤ 5 ^ 5 := Nat.pow_le_pow_right (by norm_num) (by omega)
      norm_num at hp
      omega

/-- C13. For each of the three compiled-in presets (`rule_num` 0: axiom `X`, rules
`X -> F[+X]F[-X]+X` and `F -> FF`, 6 iterations; `rule_num` 1: axiom `X`, rules
`X -> F[+X][-X]FX` and `F -> FF`, 6 iterations; otherwise: axiom `F`, rule
`F -> F[+F]F[-F]F`, 4 iterations) and for the L-system of the first epoch, every generation
up to the configured iteration count is produced, has at most 4607 symbols and, with its
terminator, fits the 10000-byte blocks; the bound 4607 is reached by the sixth generation
of the first preset. -/
theorem presets_fit_storage (ls : Lsystem) (rule_num : Int) (k : Nat)
    (hax : ls.axm = (presetOf rule_num).axm) (hrules : ls.rules = (presetOf rule_num).rules)
    (hk : k ≤ (presetOf rule_num).iteration) :
    (∃ s, generate ls k = .ok s ∧ s.length ≤ 4607 ∧ s.length + 1 ≤ GEN_BYTES) ∧
    (k ≤ firstIteration →
      ∃ s, generate firstLsystem k = .ok s ∧ s.length ≤ 4607 ∧ s.length + 1 ≤ GEN_BYTES) ∧
    (∃ s, nextgenTimes (presetOf 0).rules (presetOf 0).iteration (presetOf 0).axm = .ok s ∧
      s.length = 4607) := by
  refine ⟨?_, ?_, ?_⟩
  · obtain ⟨s, h1, h2⟩ := presetOf_generations rule_num k hk
    refine ⟨s, ?_, h2, by simp only [GEN_BYTES]; omega⟩
    unfold generate
    rw [hax, hrules, if_pos, h1]
    have : (presetOf rule_num).axm.length = 1 := by
      unfold presetOf
      split_ifs <;> rfl
    rw [this]
    decide
  · intro hk4
    have hk4' : k ≤ 4 := hk4
    obtain ⟨s, h1, -, h3⟩ := nextgenTimes_treeRules_ok k (by omega)
    have hp : 5 ^ (k + 1) ≤ 5 ^ 5 := Nat.pow_le_pow_right (by norm_num) (by omega)
    norm_num at hp
    refine ⟨s, ?_, by omega, by simp only [GEN_BYTES]; omega⟩
    unfold generate
    rw [if_pos (by decide)]
    exact h1
  · obtain ⟨s, h1, -, -, h4⟩ :=
      nextgenTimes_xRules_ok "F[+X]F[-X]+X".toList 11 (by decide) (by decide) (by decide)
        (le_refl 11) 6 (le_refl 6)
    exact ⟨s, h1, by rw [h4]; simp⟩

theorem presets_fit_storage_witness :
    (firstLsystem.axm = (presetOf 2).axm ∧ firstLsystem.rules = (presetOf 2).rules ∧
      4 ≤ (presetOf 2).iteration) ∧
    ∃ s, generate firstLsystem 4 = .ok s ∧ s.length ≤ 4607 ∧ s.length + 1 ≤ GEN_BYTES :=
  ⟨⟨rfl, rfl, by decide⟩,
   (presets_fit_storage firstLsystem 2 4 rfl rfl (by decide)).1⟩

/-! ### Barnsley fern -/

/-- C15. The thresholds are strictly increasing inside `[0, RAND_MAX]` and the `if` chain
selects F1 iff `t < F1_THRESH`, F2 iff `F1_THRESH ≤ t < F2_THRESH`, F3 iff
`F2_THRESH ≤ t < F3_THRESH` and F4 iff `F3_THRESH ≤ t`: the four conditions are exclusive
and exhaustive for every draw, the branch changes exactly at each threshold (checked at
the threshold and one below and above it), and every branch is selected by some draw of
the range `[0, RAND_MAX] = [0, 2 ^ 31 - 1]`. -/
theorem thresholds_partition :
    (0 < F1_THRESH ∧ F1_THRESH < F2_THRESH ∧ F2_THRESH < F3_THRESH ∧ F3_THRESH < RAND_MAX ∧
      RAND_MAX = 2 ^ 31 - 1) ∧
    (∀ t : Int,
      (selectBranch t = .F1 ↔ t < F1_THRESH) ∧
      (selectBranch t = .F2 ↔ F1_THRESH ≤ t ∧ t < F2_THRESH) ∧
      (selectBranch t = .F3 ↔ F2_THRESH ≤ t ∧ t < F3_THRESH) ∧
      (selectBranch t = .F4 ↔ F3_THRESH ≤ t)) ∧
    (selectBranch (F1_THRESH - 1) = .F1 ∧ selectBranch F1_THRESH = .F2 ∧
      selectBranch (F1_THRESH + 1) = .F2 ∧
      selectBranch (F2_THRESH - 1) = .F2 ∧ selectBranch F2_THRESH = .F3 ∧
      selectBranch (F2_THRESH + 1) = .F3 ∧
      selectBranch (F3_THRESH - 1) = .F3 ∧ selectBranch F3_THRESH = .F4 ∧
      selectBranch (F3_THRESH + 1) = .F4) ∧
    (selectBranch 0 = .F1 ∧ selectBranch RAND_MAX = .F4) ∧
    (∀ b : Branch, ∃ t : Int, 0 ≤ t ∧ t ≤ RAND_MAX ∧ selectBranch t = b) := by
  refine ⟨by decide, ?_, by decide, by decide, ?_⟩
  · intro t
    unfold selectBranch
    simp only [F1_THRESH, F2_THRESH, F3_THRESH]
    split_ifs <;> simp <;> omega
  · intro b
    cases b
    · exact ⟨0, by decide, by decide, by decide⟩
    · exact ⟨F1_THRESH, by decide, by decide, by decide⟩
    · exact ⟨F2_THRESH, by decide, by decide, by decide⟩
    · exact ⟨F3_THRESH, by decide, by decide, by decide⟩

theorem getD_set_int (l : List Int) (i j : Nat) (v : Int) :
    (l.set i v).getD j 0 = if i = j ∧ i < l.length then v else l.getD j 0 := by
  simp only [List.getD_eq_getElem?_getD, List.getElem?_set]
  by_cases h : i = j
  · subst h
    by_cases h2 : i < l.length
    · simp [h2]
    · have : l[i]? = none := List.getElem?_eq_none (by omega)
      simp [h2, this]
  · simp [h]

theorem chaosIterations_succ (test : Nat → Int) (n : Nat) (s : Fern) :
    chaosIterations test (n + 1) s = chaosBody (test n) n (chaosIterations test n s) := by
  simp [chaosIterations, List.range_succ, List.foldl_append]

theorem chaosIterations_point (test : Nat → Int) (n : Nat) (s : Fern) :
    (chaosIterations test n s).coeffs = s.coeffs ∧
    (chaosIterations test n s).vga_scale = s.vga_scale ∧
    ((chaosIterations test n s).x_old, (chaosIterations test n s).y_old)
      = orbit s.coeffs test (s.x_old, s.y_old) n := by
  induction n with
  | zero => exact ⟨rfl, rfl, rfl⟩
  | succ n ih =>
    obtain ⟨h1, h2, h3⟩ := ih
    rw [chaosIterations_succ]
    refine ⟨h1, h2, ?_⟩
    simp only [chaosBody, orbit]
    rw [h1, ← h3]

theorem chaosIterations_arrays (test : Nat → Int) (n : Nat) (s : Fern)
    (hxl : s.scaled_x_left.length = max_count) (hyl : s.scaled_y_left.length = max_count)
    (hxr : s.scaled_x_right.length = max_count) (hyr : s.scaled_y_right.length = max_count)
    (hn : n ≤ max_count) :
    ((chaosIterations test n s).scaled_x_left.length = max_count ∧
     (chaosIterations test n s).scaled_y_left.length = max_count ∧
     (chaosIterations test n s).scaled_x_right.length = max_count ∧
     (chaosIterations test n s).scaled_y_right.length = max_count) ∧
    ∀ i, i < n →
      (chaosIterations test n s).scaled_x_left.getD i 0 = multfix15 s.vga_scale
        (F3x s.coeffs (orbit s.coeffs test (s.x_old, s.y_old) (i + 1)).1
          (orbit s.coeffs test (s.x_old, s.y_old) (i + 1)).2) ∧
      (chaosIterations test n s).scaled_y_left.getD i 0 = multfix15 s.vga_scale
        (F3y s.coeffs (orbit s.coeffs test (s.x_old, s.y_old) (i + 1)).1
          (orbit s.coeffs test (s.x_old, s.y_old) (i + 1)).2) ∧
      (chaosIterations test n s).scaled_x_right.getD i 0 = multfix15 s.vga_scale
        (F4x s.coeffs (orbit s.coeffs test (s.x_old, s.y_old) (i + 1)).1
          (orbit s.coeffs test (s.x_old, s.y_old) (i + 1)).2) ∧
      (chaosIterations test n s).scaled_y_right.getD i 0 = multfix15 s.vga_scale
        (F4y s.coeffs (orbit s.coeffs test (s.x_old, s.y_old) (i + 1)).1
          (orbit s.coeffs test (s.x_old, s.y_old) (i + 1)).2) := by
  induction n with
  | zero =>
    refine ⟨⟨hxl, hyl, hxr, hyr⟩, ?_⟩
    intro i hi
    omega
  | succ n ih =>
    obtain ⟨⟨l1, l2, l3, l4⟩, hget⟩ := ih (by omega)
    obtain ⟨p1, p2, p3⟩ := chaosIterations_point test n s
    have hx : (chaosIterations test n s).x_old
        = (orbit s.coeffs test (s.x_old, s.y_old) n).1 := by rw [← p3]
    have hy : (chaosIterations test n s).y_old
        = (orbit s.coeffs test (s.x_old, s.y_old) n).2 := by rw [← p3]
    rw [chaosIterations_succ]
    refine ⟨⟨by simp [chaosBody, l1], by simp [chaosBody, l2], by simp [chaosBody, l3],
      by simp [chaosBody, l4]⟩, ?_⟩
    intro i hi
    simp only [chaosBody, getD_set_int, l1, l2, l3, l4, p1, p2, hx, hy]
    by_cases h : n = i
    · subst h
      have hlt : n < max_count := by omega
      simp only [hlt, and_self, if_true, orbit]
    · have hi' : i < n := by omega
      have hne : ¬ (n = i ∧ n < max_count) := fun e => h e.1
      simp only [hne, if_false]
      exact hget i hi'


theorem orbit_F1_origin (c : FernCoeffs) (test : Nat → Int) (n : Nat)
    (h : ∀ i, i < n → test i < F1_THRESH) : orbit c test (0, 0) n = (0, 0) := by
  induction n with
  | zero => rfl
  | succ n ih =>
    have h1 : selectBranch (test n) = .F1 := by
      unfold selectBranch
      rw [if_pos (h n (by omega))]
    rw [orbit, ih (fun i hi => h i (by omega)), h1]
    simp only [applyBranch, F1x, F1y]
    have : multfix15 0 c.f1y_coeff_1 = 0 := by
      simp [multfix15, toInt64, toInt32]
    rw [this]

/-- C16, as stated, fails: when every draw of the first tree selects F1 except the last
one, which selects F4, the first tree ends at the point `(0, 14417)`, and that point, not
`(0, 0)`, is the old point fed to the first iteration of the second tree. -/
theorem second_tree_seed_not_origin :
    ¬ ((beginTree ⟨26869, 2621, -2621, 52428, 30, fun _ => 0⟩
          (growTree (initialFern (List.replicate 1000 0) (List.replicate 1000 0)
              (List.replicate 1000 0) (List.replicate 1000 0))
            ⟨26869, 2621, -2621, 52428, 30,
              fun i => if i = 999 then 2147483647 else 0⟩)).x_old = 0 ∧
       (beginTree ⟨26869, 2621, -2621, 52428, 30, fun _ => 0⟩
          (growTree (initialFern (List.replicate 1000 0) (List.replicate 1000 0)
              (List.replicate 1000 0) (List.replicate 1000 0))
            ⟨26869, 2621, -2621, 52428, 30,
              fun i => if i = 999 then 2147483647 else 0⟩)).y_old = 0) := by
  rintro ⟨-, hy⟩
  have key := (chaosIterations_point (fun i => if i = 999 then 2147483647 else 0) 1000
    (beginTree ⟨26869, 2621, -2621, 52428, 30, fun i => if i = 999 then 2147483647 else 0⟩
      (initialFern (List.replicate 1000 0) (List.replicate 1000 0)
        (List.replicate 1000 0) (List.replicate 1000 0)))).2.2
  have h999 : orbit (beginTree ⟨26869, 2621, -2621, 52428, 30,
        fun i => if i = 999 then 2147483647 else 0⟩
      (initialFern (List.replicate 1000 0) (List.replicate 1000 0)
        (List.replicate 1000 0) (List.replicate 1000 0))).coeffs
      (fun i => if i = 999 then 2147483647 else 0) (0, 0) 999 = (0, 0) := by
    apply orbit_F1_origin
    intro i hi
    have : i ≠ 999 := by omega
    simp only [this, if_false]
    decide
  have h1000 : orbit (beginTree ⟨26869, 2621, -2621, 52428, 30,
        fun i => if i = 999 then 2147483647 else 0⟩
      (initialFern (List.replicate 1000 0) (List.replicate 1000 0)
        (List.replicate 1000 0) (List.replicate 1000 0))).coeffs
      (fun i => if i = 999 then 2147483647 else 0) (0, 0) 1000 = (0, 14417) := by
    rw [orbit, h999]
    decide
  have e : (growTree (initialFern (List.replicate 1000 0) (List.replicate 1000 0)
              (List.replicate 1000 0) (List.replicate 1000 0))
            ⟨26869, 2621, -2621, 52428, 30,
              fun i => if i = 999 then 2147483647 else 0⟩).y_old = 14417 := by
    have := congrArg Prod.snd key
    simp only at this
    rw [show (beginTree ⟨26869, 2621, -2621, 52428, 30,
        fun i => if i = 999 then 2147483647 else 0⟩
      (initialFern (List.replicate 1000 0) (List.replicate 1000 0)
        (List.replicate 1000 0) (List.replicate 1000 0))).x_old = 0 from rfl,
      show (beginTree ⟨26869, 2621, -2621, 52428, 30,
        fun i => if i = 999 then 2147483647 else 0⟩
      (initialFern (List.replicate 1000 0) (List.replicate 1000 0)
        (List.replicate 1000 0) (List.replicate 1000 0))).y_old = 0 from rfl,
      h1000] at this
    exact this
  simp only [beginTree] at hy
  rw [e] at hy
  exact absurd hy (by decide)


theorem growTrees_append (pre post : List TreeDraws) (s : Fern) :
    growTrees (pre ++ post) s = growTrees post (growTrees pre s) := by
  simp only [growTrees, List.foldl_append]

theorem beginTree_point (d : TreeDraws) (s : Fern) :
    (beginTree d s).x_old = s.x_old ∧ (beginTree d s).y_old = s.y_old :=
  ⟨rfl, rfl⟩

/-- C16, amended. The chaos game of every tree runs `max_count = 1000` iterations from the
point then held in `x_old`, `y_old`. These are set to `(0, 0)` once, before the loop over
the epochs, and the loop over the trees does not reset them: the first tree drawn after
start-up starts from `(0, 0)`, and in one pass of the loop over the trees, of any length
and from any state `s` at its start, every tree `d1` that follows a tree `d` starts from
the last new point of `d`, which is point number 1000 of the game that `d` started.
Nothing is stated about the point that the first tree of a later pass starts from. -/
theorem chaos_game_seed (xl yl xr yr : List Int) (s : Fern) (pre post : List TreeDraws)
    (d d1 : TreeDraws) :
    max_count = 1000 ∧
    ((beginTree d (initialFern xl yl xr yr)).x_old = 0 ∧
      (beginTree d (initialFern xl yl xr yr)).y_old = 0) ∧
    growTrees (d :: post) (initialFern xl yl xr yr)
      = growTrees post (chaosLoop d.test (beginTree d (initialFern xl yl xr yr))) ∧
    growTrees (pre ++ d :: d1 :: post) s
      = growTrees post (chaosLoop d1.test (beginTree d1
          (chaosLoop d.test (beginTree d (growTrees pre s))))) ∧
    ((beginTree d1 (chaosLoop d.test (beginTree d (growTrees pre s)))).x_old,
      (beginTree d1 (chaosLoop d.test (beginTree d (growTrees pre s)))).y_old)
      = orbit (beginTree d (growTrees pre s)).coeffs d.test
          ((growTrees pre s).x_old, (growTrees pre s).y_old) max_count := by
  refine ⟨rfl, ⟨rfl, rfl⟩, ?_, ?_, ?_⟩
  · simp only [growTrees, List.foldl_cons, growTree]
  · rw [growTrees_append]
    simp only [growTrees, List.foldl_cons, growTree]
  · rw [(beginTree_point d1 _).1, (beginTree_point d1 _).2, chaosLoop,
      (chaosIterations_point d.test max_count (beginTree d (growTrees pre s))).2.2,
      (beginTree_point d _).1, (beginTree_point d _).2]

/-- C17. In every iteration `i` of the chaos game, with `new` the image of the old point
of that iteration under the map drawn by `test i`: the entries `i` of the left arrays are
`multfix15(vga_scale, F3x(new))` and `multfix15(vga_scale, F3y(new))`, those of the right
arrays are `multfix15(vga_scale, F4x(new))` and `multfix15(vga_scale, F4y(new))`, they are
still there when the loop ends, and the old point of iteration `i + 1` is `new` itself. -/
theorem leaf_points_of_new_point (test : Nat → Int) (s : Fern)
    (hxl : s.scaled_x_left.length = max_count) (hyl : s.scaled_y_left.length = max_count)
    (hxr : s.scaled_x_right.length = max_count) (hyr : s.scaled_y_right.length = max_count)
    (i : Nat) (hi : i < max_count) :
    (chaosLoop test s).scaled_x_left.getD i 0 = multfix15 s.vga_scale
      (F3x s.coeffs
        (applyBranch s.coeffs (selectBranch (test i))
          ((chaosIterations test i s).x_old, (chaosIterations test i s).y_old)).1
        (applyBranch s.coeffs (selectBranch (test i))
          ((chaosIterations test i s).x_old, (chaosIterations test i s).y_old)).2) ∧
    (chaosLoop test s).scaled_y_left.getD i 0 = multfix15 s.vga_scale
      (F3y s.coeffs
        (applyBranch s.coeffs (selectBranch (test i))
          ((chaosIterations test i s).x_old, (chaosIterations test i s).y_old)).1
        (applyBranch s.coeffs (selectBranch (test i))
          ((chaosIterations test i s).x_old, (chaosIterations test i s).y_old)).2) ∧
    (chaosLoop test s).scaled_x_right.getD i 0 = multfix15 s.vga_scale
      (F4x s.coeffs
        (applyBranch s.coeffs (selectBranch (test i))
          ((chaosIterations test i s).x_old, (chaosIterations test i s).y_old)).1
        (applyBranch s.coeffs (selectBranch (test i))
          ((chaosIterations test i s).x_old, (chaosIterations test i s).y_old)).2) ∧
    (chaosLoop test s).scaled_y_right.getD i 0 = multfix15 s.vga_scale
      (F4y s.coeffs
        (applyBranch s.coeffs (selectBranch (test i))
          ((chaosIterations test i s).x_old, (chaosIterations test i s).y_old)).1
        (applyBranch s.coeffs (selectBranch (test i))
          ((chaosIterations test i s).x_old, (chaosIterations test i s).y_old)).2) ∧
    ((chaosIterations test (i + 1) s).x_old, (chaosIterations test (i + 1) s).y_old)
      = applyBranch s.coeffs (selectBranch (test i))
          ((chaosIterations test i s).x_old, (chaosIterations test i s).y_old) := by
  obtain ⟨-, hget⟩ := chaosIterations_arrays test max_count s hxl hyl hxr hyr (le_refl _)
  obtain ⟨g1, g2, g3, g4⟩ := hget i hi
  have p := (chaosIterations_point test i s).2.2
  have q := (chaosIterations_point test (i + 1) s).2.2
  rw [p, q]
  exact ⟨g1, g2, g3, g4, rfl⟩

theorem leaf_points_of_new_point_witness :
    (initialFern (List.replicate 1000 0) (List.replicate 1000 0) (List.replicate 1000 0)
      (List.replicate 1000 0)).scaled_x_left.length = max_count ∧
    (chaosLoop (fun _ => 2147483647)
      (initialFern (List.replicate 1000 0) (List.replicate 1000 0) (List.replicate 1000 0)
        (List.replicate 1000 0))).scaled_y_right.getD 0 0 = 536280 :=
  ⟨List.length_replicate _ _,
   (leaf_points_of_new_point (fun _ => 2147483647)
      (initialFern (List.replicate 1000 0) (List.replicate 1000 0) (List.replicate 1000 0)
        (List.replicate 1000 0))
      (List.length_replicate _ _) (List.length_replicate _ _) (List.length_replicate _ _)
      (List.length_replicate _ _) 0 (by decide)).2.2.2.1.trans (by decide)⟩

/-! ### Fixed point macros -/

theorem toInt32_of_isInt32 (n : Int) (h : IsInt32 n) : toInt32 n = n := by
  unfold IsInt32 at h
  unfold toInt32
  omega

theorem toInt64_of_bounds (n : Int) (h1 : -9223372036854775808 ≤ n)
    (h2 : n < 9223372036854775808) : toInt64 n = n := by
  unfold toInt64
  omega

theorem toInt64_of_isInt32 (n : Int) (h : IsInt32 n) : toInt64 n = n := by
  unfold IsInt32 at h
  exact toInt64_of_bounds n (by omega) (by omega)

theorem int32_mul_bounds (a b : Int) (ha : IsInt32 a) (hb : IsInt32 b) :
    -4611686018427387904 ≤ a * b ∧ a * b ≤ 4611686018427387904 := by
  unfold IsInt32 at ha hb
  obtain ⟨a1, a2⟩ := ha
  obtain ⟨b1, b2⟩ := hb
  constructor
  · nlinarith [mul_nonneg (by linarith : (0:Int) ≤ 2147483648 - a)
      (by linarith : (0:Int) ≤ 2147483648 - b),
      mul_nonneg (by linarith : (0:Int) ≤ a + 2147483648)
      (by linarith : (0:Int) ≤ b + 2147483648)]
  · nlinarith [mul_nonneg (by linarith : (0:Int) ≤ 2147483648 - a)
      (by linarith : (0:Int) ≤ b + 2147483648),
      mul_nonneg (by linarith : (0:Int) ≤ a + 2147483648)
      (by linarith : (0:Int) ≤ 2147483648 - b)]

theorem floor_div_of_pos (n b : Int) (hb : 0 < b) : ⌊(n : ℚ) / (b : ℚ)⌋ = n / b := by
  obtain ⟨d, rfl⟩ : ∃ d : ℕ, b = d := ⟨b.toNat, (Int.toNat_of_nonneg hb.le).symm⟩
  exact_mod_cast Rat.floor_intCast_div_natCast n d

theorem multfix15_eq (a b : Int) (ha : IsInt32 a) (hb : IsInt32 b) :
    multfix15 a b = toInt32 ((a * b) / 32768) := by
  obtain ⟨h1, h2⟩ := int32_mul_bounds a b ha hb
  unfold multfix15
  rw [toInt64_of_isInt32 a ha, toInt64_of_isInt32 b hb,
    toInt64_of_bounds (a * b) (by omega) (by omega), Int.shiftRight_eq_div_pow]
  norm_num

/-- C18. For all 32-bit signed `a` and `b` the `signed long long` product in `multfix15` is
the exact product `a * b`, and `multfix15(a, b)` is `floor(a * b / 2 ^ 15)`, the product
shifted right arithmetically by 15, narrowed to 32 bits; when that floor is a 32-bit value
the result is exactly the floor. -/
theorem multfix15_floor (a b : Int) (ha : IsInt32 a) (hb : IsInt32 b) :
    toInt64 (toInt64 a * toInt64 b) = a * b ∧
    (a * b) >>> (15 : Nat) = ⌊((a * b : Int) : ℚ) / 2 ^ 15⌋ ∧
    multfix15 a b = toInt32 ⌊((a * b : Int) : ℚ) / 2 ^ 15⌋ ∧
    (IsInt32 ⌊((a * b : Int) : ℚ) / 2 ^ 15⌋ →
      multfix15 a b = ⌊((a * b : Int) : ℚ) / 2 ^ 15⌋) := by
  obtain ⟨h1, h2⟩ := int32_mul_bounds a b ha hb
  have hfl : ⌊((a * b : Int) : ℚ) / 2 ^ 15⌋ = (a * b) / 32768 := by
    have := floor_div_of_pos (a * b) 32768 (by norm_num)
    norm_num at this ⊢
    exact this
  refine ⟨?_, ?_, ?_, ?_⟩
  · rw [toInt64_of_isInt32 a ha, toInt64_of_isInt32 b hb,
      toInt64_of_bounds (a * b) (by omega) (by omega)]
  · rw [hfl, Int.shiftRight_eq_div_pow]
    norm_num
  · rw [hfl]
    exact multfix15_eq a b ha hb
  · intro h
    rw [multfix15_eq a b ha hb, ← hfl, toInt32_of_isInt32 _ h]

theorem multfix15_floor_witness :
    (IsInt32 (-3) ∧ IsInt32 5) ∧ multfix15 (-3) 5 = toInt32 ⌊(((-3) * 5 : Int) : ℚ) / 2 ^ 15⌋ ∧
    multfix15 (-3) 5 = -1 :=
  ⟨⟨by decide, by decide⟩, (multfix15_floor (-3) 5 (by decide) (by decide)).2.2.1, by decide⟩

/-- C19. Integer conversion round-trips: for every integer `n` with
`-2 ^ 16 ≤ n < 2 ^ 16`, `fix2int15(int2fix15(n)) = n`. -/
theorem int_conversion_roundtrip (n : Int) (h1 : -2 ^ 16 ≤ n) (h2 : n < 2 ^ 16) :
    fix2int15 (int2fix15 n) = n := by
  norm_num at h1 h2
  unfold fix2int15 int2fix15
  have e1 : toInt32 (n * 32768) = n * 32768 := by
    unfold toInt32
    omega
  rw [e1, Int.shiftRight_eq_div_pow]
  have e2 : n * 32768 / ((2 ^ 15 : ℕ) : Int) = n := by
    norm_num
  rw [e2]
  unfold toInt32
  omega

theorem int_conversion_roundtrip_witness :
    (-2 ^ 16 ≤ (-65536 : Int) ∧ (-65536 : Int) < 2 ^ 16) ∧
    fix2int15 (int2fix15 (-65536)) = -65536 ∧ int2fix15 (-65536) = -2147483648 :=
  ⟨⟨by norm_num, by norm_num⟩,
   int_conversion_roundtrip (-65536) (by norm_num) (by norm_num), by decide⟩

theorem tdiv_eq_floor_or_ceil (n b : Int) (hb : b ≠ 0) :
    Int.tdiv n b =
      if 0 ≤ (n : ℚ) / (b : ℚ) then ⌊(n : ℚ) / (b : ℚ)⌋ else ⌈(n : ℚ) / (b : ℚ)⌉ := by
  rcases lt_or_gt_of_ne hb with hneg | hpos
  · -- b < 0
    have hb' : (0 : Int) < -b := by omega
    have hbq : (b : ℚ) < 0 := by exact_mod_cast hneg
    rcases le_or_lt 0 n with hn | hn
    · -- n ≥ 0, quotient ≤ 0
      have hq : (n : ℚ) / (b : ℚ) ≤ 0 :=
        div_nonpos_of_nonneg_of_nonpos (by exact_mod_cast hn) hbq.le
      have e : Int.tdiv n b = -(n / (-b)) := by
        have := Int.tdiv_neg n (-b)
        rw [neg_neg] at this
        rw [this, Int.tdiv_eq_ediv hn hb'.le]
      have hc : ⌈(n : ℚ) / (b : ℚ)⌉ = -(n / (-b)) := by
        have h1 : ⌊-((n : ℚ) / (b : ℚ))⌋ = -⌈(n : ℚ) / (b : ℚ)⌉ := Int.floor_neg
        have h2 : -((n : ℚ) / (b : ℚ)) = (n : ℚ) / ((-b : Int) : ℚ) := by
          push_cast
          rw [div_neg]
        rw [h2, floor_div_of_pos n (-b) hb'] at h1
        omega
      by_cases h0 : 0 ≤ (n : ℚ) / (b : ℚ)
      · have hz : (n : ℚ) / (b : ℚ) = 0 := le_antisymm hq h0
        have hn0 : n = 0 := by
          rcases div_eq_zero_iff.1 hz with h | h
          · exact_mod_cast h
          · exact absurd h hbq.ne
        rw [if_pos h0, hz, hn0]
        simp
      · rw [if_neg h0, e, hc]
    · -- n < 0, quotient > 0
      have hq : 0 < (n : ℚ) / (b : ℚ) :=
        div_pos_of_neg_of_neg (by exact_mod_cast hn) hbq
      have e : Int.tdiv n b = (-n) / (-b) := by
        have h1 : Int.tdiv (-n) (-b) = Int.tdiv n b := by
          rw [Int.tdiv_neg, Int.neg_tdiv, neg_neg]
        rw [← h1, Int.tdiv_eq_ediv (by omega : (0 : Int) ≤ -n) hb'.le]
      rw [if_pos hq.le, e, ← floor_div_of_pos (-n) (-b) hb']
      congr 1
      push_cast
      rw [neg_div_neg_eq]
  · -- b > 0
    have hbq : (0 : ℚ) < (b : ℚ) := by exact_mod_cast hpos
    rcases le_or_lt 0 n with hn | hn
    · have hq : 0 ≤ (n : ℚ) / (b : ℚ) := div_nonneg (by exact_mod_cast hn) hbq.le
      rw [if_pos hq, Int.tdiv_eq_ediv hn hpos.le, floor_div_of_pos n b hpos]
    · have hq : (n : ℚ) / (b : ℚ) < 0 :=
        div_neg_of_neg_of_pos (by exact_mod_cast hn) hbq
      have e : Int.tdiv n b = -((-n) / b) := by
        have h2 := Int.neg_tdiv (-n) b
        rw [neg_neg] at h2
        rw [h2, Int.tdiv_eq_ediv (by omega : (0 : Int) ≤ -n) hpos.le]
      have hc : ⌈(n : ℚ) / (b : ℚ)⌉ = -((-n) / b) := by
        have h1 : ⌊-((n : ℚ) / (b : ℚ))⌋ = -⌈(n : ℚ) / (b : ℚ)⌉ := Int.floor_neg
        have h2 : -((n : ℚ) / (b : ℚ)) = ((-n : Int) : ℚ) / (b : ℚ) := by
          push_cast
          rw [neg_div]
        rw [h2, floor_div_of_pos (-n) b hpos] at h1
        omega
      rw [if_neg (not_le.2 hq), e, hc]


theorem tdiv_natAbs_le (n b : Int) : (Int.tdiv n b).natAbs ≤ n.natAbs := by
  rw [Int.natAbs_tdiv]
  exact Nat.div_le_self _ _

theorem divfix_eq (a b : Int) (ha : IsInt32 a) (hb : IsInt32 b) :
    divfix a b = toInt32 (Int.tdiv (a * 32768) b) := by
  unfold IsInt32 at ha hb
  unfold divfix div_s64s64
  have e1 : toInt64 a = a := toInt64_of_bounds a (by omega) (by omega)
  have e2 : toInt64 b = b := toInt64_of_bounds b (by omega) (by omega)
  have e3 : toInt64 (a * 32768) = a * 32768 := toInt64_of_bounds _ (by omega) (by omega)
  have h := tdiv_natAbs_le (a * 32768) b
  have e4 : toInt64 (Int.tdiv (a * 32768) b) = Int.tdiv (a * 32768) b :=
    toInt64_of_bounds _ (by omega) (by omega)
  rw [e1, e2, e3, e4]

/-- C20, as stated, fails: `divfix(-1, 3)` is -10922, whereas the floor of the exact value
`-1 * 2 ^ 15 / 3 = -10922.67` is -10923: the division drops the fractional part, rounding a
negative quotient up, while `multfix15` rounds it down. -/
theorem divfix_is_not_floor :
    ¬ (∀ a b : Int, IsInt32 a → IsInt32 b → b ≠ 0 →
        divfix a b = ⌊((a : ℚ) * 2 ^ 15) / (b : ℚ)⌋) := by
  intro h
  have h1 := h (-1) 3 (by decide) (by decide) (by decide)
  have h2 : ⌊(((-1 : Int) : ℚ) * 2 ^ 15) / ((3 : Int) : ℚ)⌋ = -10923 := by
    rw [Int.floor_eq_iff]
    norm_num
  have h3 : divfix (-1) 3 = -10922 := by decide
  rw [h2, h3] at h1
  exact absurd h1 (by decide)

/-- C20, amended. For all 32-bit `a` and `b`, `multfix15(a, b)` is the floor of the exact
value `a * b / 2 ^ 15` (narrowed to 32 bits), and for `b != 0` `divfix(a, b)` is the exact
value `a * 2 ^ 15 / b` with its fractional part dropped (narrowed to 32 bits): the floor
when the exact quotient is not negative, the ceiling when it is negative. The two helpers
round an inexact result in the same direction only when it is positive. -/
theorem fixed_point_rounding (a b : Int) (ha : IsInt32 a) (hb : IsInt32 b) :
    multfix15 a b = toInt32 ⌊((a : ℚ) * (b : ℚ)) / 2 ^ 15⌋ ∧
    (b ≠ 0 →
      divfix a b = toInt32
        (if 0 ≤ ((a : ℚ) * 2 ^ 15) / (b : ℚ) then ⌊((a : ℚ) * 2 ^ 15) / (b : ℚ)⌋
         else ⌈((a : ℚ) * 2 ^ 15) / (b : ℚ)⌉)) := by
  refine ⟨?_, ?_⟩
  · have hfl : ⌊((a : ℚ) * (b : ℚ)) / 2 ^ 15⌋ = (a * b) / 32768 := by
      have := floor_div_of_pos (a * b) 32768 (by norm_num)
      push_cast at this
      norm_num at this ⊢
      exact this
    rw [hfl]
    exact multfix15_eq a b ha hb
  · intro hb0
    rw [divfix_eq a b ha hb, tdiv_eq_floor_or_ceil (a * 32768) b hb0]
    have e : (((a * 32768 : Int) : ℚ)) = (a : ℚ) * 2 ^ 15 := by
      push_cast
      norm_num
    rw [e]

theorem fixed_point_rounding_witness :
    (IsInt32 (-1) ∧ IsInt32 3 ∧ (3 : Int) ≠ 0) ∧
    divfix (-1) 3 = toInt32
        (if 0 ≤ (((-1 : Int) : ℚ) * 2 ^ 15) / ((3 : Int) : ℚ)
         then ⌊(((-1 : Int) : ℚ) * 2 ^ 15) / ((3 : Int) : ℚ)⌋
         else ⌈(((-1 : Int) : ℚ) * 2 ^ 15) / ((3 : Int) : ℚ)⌉) ∧
    divfix (-1) 3 = -10922 ∧ multfix15 (-1) 10923 = -1 :=
  ⟨⟨by decide, by decide, by decide⟩,
   (fixed_point_rounding (-1) 3 (by decide) (by decide)).2 (by decide),
   by decide, by decide⟩

/-! ### `FFTfix`: indexes -/

/-- C29. For every index `m` below 1024 the value `mr` computed by the four mask-and-shift
steps on the 16-bit value and the right shift by `SHIFT_AMOUNT = 6` is the number obtained
by reversing the low `LOG2_NUM_SAMPLES = 10` bits of `m` (bit `i` of `mr` is bit `9 - i` of
`m`, the bits from 10 on are zero), and therefore lies below 1024. -/
theorem reversed_index_is_bit_reversal (m : Nat) (hm : m < NUM_SAMPLES) :
    reversedIndex SHIFT_AMOUNT m = reverseLowBits LOG2_NUM_SAMPLES m ∧
    reversedIndex SHIFT_AMOUNT m < NUM_SAMPLES ∧
    (∀ i, i < LOG2_NUM_SAMPLES →
      (reversedIndex SHIFT_AMOUNT m).testBit i = m.testBit (LOG2_NUM_SAMPLES - 1 - i)) ∧
    (∀ i, LOG2_NUM_SAMPLES ≤ i → (reversedIndex SHIFT_AMOUNT m).testBit i = false) ∧
    reversedIndex SHIFT_AMOUNT (reversedIndex SHIFT_AMOUNT m) = m := by
  have hb := reversedIndex_testBit 10 m
  refine ⟨reversedIndex_eq_reverseLowBits 10 m (by decide), reversedIndex_lt 10 m (by decide),
    ?_, ?_, reversedIndex_involutive 10 m (by decide) hm⟩
  · intro i hi
    have := hb i (by decide)
    have hi' : i < 10 := hi
    simp only [hi', decide_True, Bool.true_and] at this
    exact this
  · intro i hi
    have := hb i (by decide)
    have hi' : ¬ i < 10 := by
      have : 10 ≤ i := hi
      omega
    simp only [hi', decide_False, Bool.false_and] at this
    exact this

theorem reversed_index_is_bit_reversal_witness :
    1 < NUM_SAMPLES ∧ reversedIndex SHIFT_AMOUNT 1 = reverseLowBits LOG2_NUM_SAMPLES 1 ∧
    reversedIndex SHIFT_AMOUNT 1 = 512 :=
  ⟨by decide, (reversed_index_is_bit_reversal 1 (by decide)).1, by decide⟩

theorem stage_iterate_control (Sinewave : List Int) (st : FFTState) (s : Nat) :
    ((danielsonLanczosStage Sinewave)^[s] st).L = st.L * 2 ^ s ∧
    ((danielsonLanczosStage Sinewave)^[s] st).k = st.k - s := by
  induction s with
  | zero => simp
  | succ s ih =>
    rw [Function.iterate_succ_apply']
    obtain ⟨h1, h2⟩ := ih
    simp only [danielsonLanczosStage]
    rw [h1, h2, Nat.shiftLeft_eq]
    refine ⟨by ring, ?_⟩
    push_cast
    ring

theorem danielsonLanczos_eq_iterate (Sinewave : List Int) (n : Nat) :
    ∀ (fuel : Nat) (st : FFTState), n ≤ fuel →
      (∀ s, s < n → ((danielsonLanczosStage Sinewave)^[s] st).L < NUM_SAMPLES) →
      ¬ ((danielsonLanczosStage Sinewave)^[n] st).L < NUM_SAMPLES →
      danielsonLanczos Sinewave fuel st = some ((danielsonLanczosStage Sinewave)^[n] st) := by
  induction n with
  | zero =>
    intro fuel st _ _ hend
    simp only [Function.iterate_zero, id_eq] at hend ⊢
    cases fuel <;> simp [danielsonLanczos, hend]
  | succ n ih =>
    intro fuel st hf hlt hend
    have h0 : st.L < NUM_SAMPLES := hlt 0 (by omega)
    cases fuel with
    | zero => omega
    | succ fuel =>
      rw [danielsonLanczos, if_pos h0, Function.iterate_succ_apply]
      apply ih fuel _ (by omega)
      · intro s hs
        have := hlt (s + 1) (by omega)
        rwa [Function.iterate_succ_apply] at this
      · rwa [Function.iterate_succ_apply] at hend

theorem danielsonLanczos_ten (Sinewave fr fi : List Int) (fuel : Nat) (hfuel : 10 ≤ fuel) :
    danielsonLanczos Sinewave fuel (fftStart fr fi)
      = some ((danielsonLanczosStage Sinewave)^[10] (fftStart fr fi)) := by
  have hctl := fun s => stage_iterate_control Sinewave (fftStart fr fi) s
  apply danielsonLanczos_eq_iterate Sinewave 10 fuel (fftStart fr fi) hfuel
  · intro s hs
    rw [(hctl s).1]
    simp only [fftStart, NUM_SAMPLES]
    interval_cases s <;> norm_num
  · rw [(hctl 10).1]
    simp only [fftStart, NUM_SAMPLES]
    norm_num

/-- C30. At the stage number `s` of the combination loop (`s = 0, ..., 9`), where the
sub-transform length is `L = 2 ^ s` and the loop condition `L < N` holds, for every
position `m < L` the index used for the sine is `m << k = m * (N / (2 L))` and the index
used for the cosine is that index plus `N / 4`; both are below `N = 1024`, so `twiddle`
reads inside the sine table. These ten stages are the passes of the `while (L < NUM_SAMPLES)`
loop: with fuel for ten passes it returns the state after stage 9. -/
theorem sine_table_indexes (Sinewave fr fi : List Int) (s m : Nat)
    (hs : s < LOG2_NUM_SAMPLES)
    (hm : m < ((danielsonLanczosStage Sinewave)^[s] (fftStart fr fi)).L) :
    ((danielsonLanczosStage Sinewave)^[s] (fftStart fr fi)).L = 2 ^ s ∧
    ((danielsonLanczosStage Sinewave)^[s] (fftStart fr fi)).L < NUM_SAMPLES ∧
    sineIndex ((danielsonLanczosStage Sinewave)^[s] (fftStart fr fi)).k m
      = m * (NUM_SAMPLES / (2 * ((danielsonLanczosStage Sinewave)^[s] (fftStart fr fi)).L)) ∧
    sineIndex ((danielsonLanczosStage Sinewave)^[s] (fftStart fr fi)).k m < NUM_SAMPLES ∧
    sineIndex ((danielsonLanczosStage Sinewave)^[s] (fftStart fr fi)).k m + NUM_SAMPLES / 4
      < NUM_SAMPLES ∧
    twiddle Sinewave ((danielsonLanczosStage Sinewave)^[s] (fftStart fr fi)).k m =
      ((Sinewave.getD (m * (NUM_SAMPLES / (2 * 2 ^ s)) + NUM_SAMPLES / 4) 0) >>> (1 : Nat),
       (toInt32 (-(Sinewave.getD (m * (NUM_SAMPLES / (2 * 2 ^ s))) 0))) >>> (1 : Nat)) ∧
    (∀ fuel, 10 ≤ fuel → danielsonLanczos Sinewave fuel (fftStart fr fi)
      = some ((danielsonLanczosStage Sinewave)^[10] (fftStart fr fi))) := by
  obtain ⟨hL, hk⟩ := stage_iterate_control Sinewave (fftStart fr fi) s
  have hL' : ((danielsonLanczosStage Sinewave)^[s] (fftStart fr fi)).L = 2 ^ s := by
    rw [hL]
    simp [fftStart]
  have hk' : ((danielsonLanczosStage Sinewave)^[s] (fftStart fr fi)).k = 9 - (s : Int) := by
    rw [hk]
    simp [fftStart, LOG2_NUM_SAMPLES]
  rw [hL'] at hm
  have hs' : s < 10 := hs
  have hidx : sineIndex (9 - (s : Int)) m = m * (NUM_SAMPLES / (2 * 2 ^ s)) := by
    unfold sineIndex
    rw [Nat.shiftLeft_eq]
    have e : (9 - (s : Int)).toNat = 9 - s := by omega
    rw [e]
    congr 1
    interval_cases s <;> decide
  have hbound : m * (NUM_SAMPLES / (2 * 2 ^ s)) + NUM_SAMPLES / 4 < NUM_SAMPLES := by
    simp only [NUM_SAMPLES] at *
    interval_cases s <;> simp at hm ⊢ <;> omega
  rw [hL', hk', hidx]
  refine ⟨rfl, ?_, rfl, by omega, hbound, ?_,
    fun fuel hfuel => danielsonLanczos_ten Sinewave fr fi fuel hfuel⟩
  · simp only [NUM_SAMPLES]
    interval_cases s <;> decide
  · simp only [twiddle, hidx]

theorem sine_table_indexes_witness :
    (3 < LOG2_NUM_SAMPLES ∧
      5 < ((danielsonLanczosStage [])^[3] (fftStart [] [])).L) ∧
    sineIndex ((danielsonLanczosStage [])^[3] (fftStart [] [])).k 5 = 320 ∧
    sineIndex ((danielsonLanczosStage [])^[3] (fftStart [] [])).k 5 + NUM_SAMPLES / 4
      < NUM_SAMPLES :=
  have h : 5 < ((danielsonLanczosStage [])^[3] (fftStart [] [])).L := by
    rw [(stage_iterate_control [] (fftStart [] []) 3).1]
    decide
  ⟨⟨by decide, h⟩,
   (sine_table_indexes [] [] [] 3 5 (by decide) h).2.2.1.trans (by
      rw [(stage_iterate_control [] (fftStart [] []) 3).1]
      decide),
   (sine_table_indexes [] [] [] 3 5 (by decide) h).2.2.2.2.1⟩

/-! ### The magnitude and peak loop -/

theorem magnitudeBody_eq (s : PeakState) (i : Nat) (hr : i < s.fr.length)
    (hi : i < s.fi.length) :
    magnitudeBody s i =
      if storedMagnitude (s.fr.getD i 0) (s.fi.getD i 0) > s.max_fr ∧ i > 4 then
        { fr := s.fr.set i (storedMagnitude (s.fr.getD i 0) (s.fi.getD i 0)),
          fi := s.fi.set i (absInt (s.fi.getD i 0)),
          max_fr := storedMagnitude (s.fr.getD i 0) (s.fi.getD i 0),
          max_fr_dex := i }
      else
        { s with
          fr := s.fr.set i (storedMagnitude (s.fr.getD i 0) (s.fi.getD i 0)),
          fi := s.fi.set i (absInt (s.fi.getD i 0)) } := by
  simp only [magnitudeBody, storedMagnitude, getD_set_int, List.length_set, hr, hi, and_self,
    if_true, List.set_set]

/-- The state of the magnitude loop after its first `n` passes. -/
theorem magnitudeLoop_inv (fr fi : List Int) (n : Nat) (hn : n ≤ fr.length)
    (hn' : n ≤ fi.length) :
    ((List.range n).foldl magnitudeBody
        { fr := fr, fi := fi, max_fr := 0, max_fr_dex := 0 }).fr.length = fr.length ∧
    ((List.range n).foldl magnitudeBody
        { fr := fr, fi := fi, max_fr := 0, max_fr_dex := 0 }).fi.length = fi.length ∧
    (∀ i, ((List.range n).foldl magnitudeBody
        { fr := fr, fi := fi, max_fr := 0, max_fr_dex := 0 }).fr.getD i 0
          = if i < n then storedMagnitude (fr.getD i 0) (fi.getD i 0) else fr.getD i 0) ∧
    (∀ i, ((List.range n).foldl magnitudeBody
        { fr := fr, fi := fi, max_fr := 0, max_fr_dex := 0 }).fi.getD i 0
          = if i < n then absInt (fi.getD i 0) else fi.getD i 0) ∧
    ((((List.range n).foldl magnitudeBody
          { fr := fr, fi := fi, max_fr := 0, max_fr_dex := 0 }).max_fr_dex = 0 ∧
      ((List.range n).foldl magnitudeBody
          { fr := fr, fi := fi, max_fr := 0, max_fr_dex := 0 }).max_fr = 0 ∧
      ∀ i, 5 ≤ i → i < n → storedMagnitude (fr.getD i 0) (fi.getD i 0) ≤ 0) ∨
     (5 ≤ ((List.range n).foldl magnitudeBody
          { fr := fr, fi := fi, max_fr := 0, max_fr_dex := 0 }).max_fr_dex ∧
      ((List.range n).foldl magnitudeBody
          { fr := fr, fi := fi, max_fr := 0, max_fr_dex := 0 }).max_fr_dex < n ∧
      0 < ((List.range n).foldl magnitudeBody
          { fr := fr, fi := fi, max_fr := 0, max_fr_dex := 0 }).max_fr ∧
      (∃ d, d = ((List.range n).foldl magnitudeBody
          { fr := fr, fi := fi, max_fr := 0, max_fr_dex := 0 }).max_fr_dex ∧
        ((List.range n).foldl magnitudeBody
          { fr := fr, fi := fi, max_fr := 0, max_fr_dex := 0 }).max_fr
            = storedMagnitude (fr.getD d 0) (fi.getD d 0) ∧
        (∀ i, 5 ≤ i → i < n → storedMagnitude (fr.getD i 0) (fi.getD i 0)
            ≤ storedMagnitude (fr.getD d 0) (fi.getD d 0)) ∧
        (∀ i, 5 ≤ i → i < d → storedMagnitude (fr.getD i 0) (fi.getD i 0)
            < storedMagnitude (fr.getD d 0) (fi.getD d 0))))) := by
  induction n with
  | zero =>
    simp
  | succ n ih =>
    obtain ⟨h1, h2, h3, h4, h5⟩ := ih (by omega) (by omega)
    rw [List.range_succ, List.foldl_append, List.foldl_cons, List.foldl_nil]
    generalize (List.range n).foldl magnitudeBody
        { fr := fr, fi := fi, max_fr := 0, max_fr_dex := 0 } = S at h1 h2 h3 h4 h5 ⊢
    rw [magnitudeBody_eq S n (by omega) (by omega)]
    have e3 : S.fr.getD n 0 = fr.getD n 0 := by rw [h3]; simp
    have e4 : S.fi.getD n 0 = fi.getD n 0 := by rw [h4]; simp
    rw [e3, e4]
    have hfr : ∀ i, (S.fr.set n (storedMagnitude (fr.getD n 0) (fi.getD n 0))).getD i 0
        = if i < n + 1 then storedMagnitude (fr.getD i 0) (fi.getD i 0) else fr.getD i 0 := by
      intro i
      rw [getD_set_int, h3]
      by_cases hin : n = i
      · subst hin
        simp
        omega
      · have : ¬ (n = i ∧ n < S.fr.length) := fun h => hin h.1
        rw [if_neg this]
        by_cases hlt : i < n
        · rw [if_pos hlt, if_pos (by omega)]
        · rw [if_neg hlt, if_neg (by omega)]
    have hfi : ∀ i, (S.fi.set n (absInt (fi.getD n 0))).getD i 0
        = if i < n + 1 then absInt (fi.getD i 0) else fi.getD i 0 := by
      intro i
      rw [getD_set_int, h4]
      by_cases hin : n = i
      · subst hin
        simp
        omega
      · have : ¬ (n = i ∧ n < S.fi.length) := fun h => hin h.1
        rw [if_neg this]
        by_cases hlt : i < n
        · rw [if_pos hlt, if_pos (by omega)]
        · rw [if_neg hlt, if_neg (by omega)]
    split
    · rename_i hc
      obtain ⟨hgt, h4n⟩ := hc
      refine ⟨by simpa using h1, by simpa using h2, hfr, hfi, Or.inr ?_⟩
      refine ⟨by show 5 ≤ n; omega, by show n < n + 1; omega, ?_, n, rfl, rfl, ?_, ?_⟩
      · show 0 < storedMagnitude (fr.getD n 0) (fi.getD n 0)
        rcases h5 with ⟨_, hz, _⟩ | ⟨_, _, hp, _⟩
        · rw [hz] at hgt
          exact hgt
        · exact lt_trans hp hgt
      · intro i hi5 hin
        rcases Nat.lt_succ_iff_lt_or_eq.mp hin with hlt | heq
        · rcases h5 with ⟨_, hz, hall⟩ | ⟨_, _, _, d, _, hd, hall, _⟩
          · have := hall i hi5 hlt
            rw [hz] at hgt
            omega
          · have := hall i hi5 hlt
            rw [hd] at hgt
            omega
        · subst heq
          exact le_refl _
      · intro i hi5 hlt
        rcases h5 with ⟨_, hz, hall⟩ | ⟨_, _, _, d, _, hd, hall, _⟩
        · have := hall i hi5 hlt
          rw [hz] at hgt
          omega
        · have := hall i hi5 hlt
          rw [hd] at hgt
          omega
    · rename_i hc
      refine ⟨by simpa using h1, by simpa using h2, hfr, hfi, ?_⟩
      have hle : 4 < n → storedMagnitude (fr.getD n 0) (fi.getD n 0) ≤ S.max_fr := by
        intro h4n
        by_contra hcon
        exact hc ⟨by omega, h4n⟩
      rcases h5 with ⟨hd0, hz, hall⟩ | ⟨hd5, hdn, hp, d, hdd, hd, hall, hfirst⟩
      · refine Or.inl ⟨hd0, hz, ?_⟩
        intro i hi5 hin
        rcases Nat.lt_succ_iff_lt_or_eq.mp hin with hlt | heq
        · exact hall i hi5 hlt
        · subst heq
          have := hle (by omega)
          omega
      · refine Or.inr ⟨hd5, by show S.max_fr_dex < n + 1; omega, hp, d, hdd, hd, ?_, hfirst⟩
        intro i hi5 hin
        rcases Nat.lt_succ_iff_lt_or_eq.mp hin with hlt | heq
        · exact hall i hi5 hlt
        · subst heq
          have := hle (by omega)
          omega

/-- C21. Peak detection skips the five lowest bins. With `d` the reported index
`max_fr_dex` and the magnitudes the values the loop leaves in `fr[0..511]`: `d` is 0 or
lies in `[5, 511]`, never in `[1, 4]`; if some bin in `[5, 511]` has a magnitude above 0
then `d` lies in `[5, 511]`, the magnitude at `d` is at least that of every bin in
`[5, 511]` and strictly above that of every bin in `[5, d)`, so `d` is the smallest such
index, and `max_fr` is that magnitude; if no bin in `[5, 511]` has a magnitude above 0 then
`d = 0`. -/
theorem peak_skips_low_bins (fr fi : List Int) (hfr : fr.length = NUM_SAMPLES)
    (hfi : fi.length = NUM_SAMPLES) :
    ((magnitudeLoop fr fi).max_fr_dex = 0 ∨
      (5 ≤ (magnitudeLoop fr fi).max_fr_dex ∧ (magnitudeLoop fr fi).max_fr_dex ≤ 511)) ∧
    ¬ (1 ≤ (magnitudeLoop fr fi).max_fr_dex ∧ (magnitudeLoop fr fi).max_fr_dex ≤ 4) ∧
    ((∃ i, 5 ≤ i ∧ i ≤ 511 ∧ 0 < (magnitudeLoop fr fi).fr.getD i 0) →
      5 ≤ (magnitudeLoop fr fi).max_fr_dex ∧ (magnitudeLoop fr fi).max_fr_dex ≤ 511 ∧
      (magnitudeLoop fr fi).max_fr
        = (magnitudeLoop fr fi).fr.getD (magnitudeLoop fr fi).max_fr_dex 0 ∧
      (∀ i, 5 ≤ i → i ≤ 511 → (magnitudeLoop fr fi).fr.getD i 0
        ≤ (magnitudeLoop fr fi).fr.getD (magnitudeLoop fr fi).max_fr_dex 0) ∧
      (∀ i, 5 ≤ i → i < (magnitudeLoop fr fi).max_fr_dex → (magnitudeLoop fr fi).fr.getD i 0
        < (magnitudeLoop fr fi).fr.getD (magnitudeLoop fr fi).max_fr_dex 0)) ∧
    ((∀ i, 5 ≤ i → i ≤ 511 → (magnitudeLoop fr fi).fr.getD i 0 ≤ 0) →
      (magnitudeLoop fr fi).max_fr_dex = 0) ∧
    (∀ i, i ≤ 511 → (magnitudeLoop fr fi).fr.getD i 0
      = storedMagnitude (fr.getD i 0) (fi.getD i 0)) := by
  have h512 : NUM_SAMPLES >>> 1 = 512 := by decide
  obtain ⟨-, -, h3, -, h5⟩ := magnitudeLoop_inv fr fi 512
    (by rw [hfr]; decide) (by rw [hfi]; decide)
  unfold magnitudeLoop
  rw [h512]
  generalize (List.range 512).foldl magnitudeBody
        { fr := fr, fi := fi, max_fr := 0, max_fr_dex := 0 } = S at h3 h5 ⊢
  have hmag : ∀ i, i ≤ 511 → S.fr.getD i 0 = storedMagnitude (fr.getD i 0) (fi.getD i 0) := by
    intro i hi
    rw [h3, if_pos (by omega)]
  rcases h5 with ⟨hd0, hz, hall⟩ | ⟨hd5, hdn, hp, d, hdd, hd, hall, hfirst⟩
  · refine ⟨Or.inl hd0, by omega, ?_, fun _ => hd0, hmag⟩
    rintro ⟨i, hi5, hi511, hpos⟩
    rw [hmag i hi511] at hpos
    have := hall i hi5 (by omega)
    omega
  · subst hdd
    have hdmag := hmag S.max_fr_dex (by omega)
    refine ⟨Or.inr ⟨hd5, by omega⟩, by omega, ?_, ?_, hmag⟩
    · intro _
      refine ⟨hd5, by omega, by rw [hdmag]; exact hd, ?_, ?_⟩
      · intro i hi5 hi511
        rw [hmag i hi511, hdmag]
        exact hall i hi5 (by omega)
      · intro i hi5 hid
        rw [hmag i (by omega), hdmag]
        exact hfirst i hi5 hid
    · intro hno
      have := hno S.max_fr_dex hd5 (by omega)
      rw [hdmag, ← hd] at this
      omega

theorem peak_skips_low_bins_witness :
    ((List.replicate 1024 (7 : Int)).length = NUM_SAMPLES ∧
      (List.replicate 1024 (0 : Int)).length = NUM_SAMPLES) ∧
    ¬ (1 ≤ (magnitudeLoop (List.replicate 1024 7) (List.replicate 1024 0)).max_fr_dex ∧
      (magnitudeLoop (List.replicate 1024 7) (List.replicate 1024 0)).max_fr_dex ≤ 4) :=
  ⟨⟨List.length_replicate _ _, List.length_replicate _ _⟩,
   (peak_skips_low_bins (List.replicate 1024 7) (List.replicate 1024 0)
      (List.length_replicate _ _) (List.length_replicate _ _)).2.1⟩

/-! ### Range analysis of the transform -/

theorem shiftRight_one_bound (x B : Int) (h1 : -B ≤ x) (h2 : x ≤ B) :
    -(B / 2 + 1) ≤ x >>> (1 : Nat) ∧ x >>> (1 : Nat) ≤ B / 2 := by
  rw [Int.shiftRight_eq_div_pow]
  norm_num
  omega

theorem twiddle_bound (Sinewave : List Int) (k : Int) (m : Nat)
    (hS : WithinBound 32768 Sinewave) :
    (-16384 ≤ (twiddle Sinewave k m).1 ∧ (twiddle Sinewave k m).1 ≤ 16384) ∧
    (-16384 ≤ (twiddle Sinewave k m).2 ∧ (twiddle Sinewave k m).2 ≤ 16384) := by
  simp only [twiddle]
  have h1 := hS (sineIndex k m + NUM_SAMPLES / 4)
  have h2 := hS (sineIndex k m)
  generalize Sinewave.getD (sineIndex k m + NUM_SAMPLES / 4) 0 = a at h1
  generalize Sinewave.getD (sineIndex k m) 0 = b at h2
  rw [toInt32_of_isInt32 _ (by unfold IsInt32; omega)]
  rw [Int.shiftRight_eq_div_pow, Int.shiftRight_eq_div_pow]
  norm_num
  omega

theorem multfix15_half_bound (w y B : Int) (hw1 : -16384 ≤ w) (hw2 : w ≤ 16384)
    (hy1 : -B ≤ y) (hy2 : y ≤ B) (hB : B ≤ 1073741824) :
    -(B / 2 + 1) ≤ multfix15 w y ∧ multfix15 w y ≤ B / 2 := by
  have hB0 : 0 ≤ B := by omega
  rw [multfix15_eq w y (by unfold IsInt32; omega) (by unfold IsInt32; omega)]
  have hp1 : -(16384 * B) ≤ w * y := by
    nlinarith [mul_nonneg (by linarith : (0:Int) ≤ 16384 - w) (by linarith : (0:Int) ≤ B + y),
      mul_nonneg (by linarith : (0:Int) ≤ w + 16384) (by linarith : (0:Int) ≤ B - y)]
  have hp2 : w * y ≤ 16384 * B := by
    nlinarith [mul_nonneg (by linarith : (0:Int) ≤ 16384 - w) (by linarith : (0:Int) ≤ B - y),
      mul_nonneg (by linarith : (0:Int) ≤ w + 16384) (by linarith : (0:Int) ≤ B + y)]
  generalize w * y = p at hp1 hp2
  rw [toInt32_of_isInt32 _ (by unfold IsInt32; omega)]
  omega

theorem butterflyValues_bound (wr wi B : Int) (xi xj : Int × Int)
    (hwr : -16384 ≤ wr ∧ wr ≤ 16384) (hwi : -16384 ≤ wi ∧ wi ≤ 16384)
    (hB : B ≤ 1073741824)
    (hi1 : -B ≤ xi.1 ∧ xi.1 ≤ B) (hi2 : -B ≤ xi.2 ∧ xi.2 ≤ B)
    (hj1 : -B ≤ xj.1 ∧ xj.1 ≤ B) (hj2 : -B ≤ xj.2 ∧ xj.2 ≤ B) :
    ((-stageBound B ≤ (butterflyValues wr wi xi xj).1.1 ∧
        (butterflyValues wr wi xi xj).1.1 ≤ stageBound B) ∧
      (-stageBound B ≤ (butterflyValues wr wi xi xj).1.2 ∧
        (butterflyValues wr wi xi xj).1.2 ≤ stageBound B)) ∧
    ((-stageBound B ≤ (butterflyValues wr wi xi xj).2.1 ∧
        (butterflyValues wr wi xi xj).2.1 ≤ stageBound B) ∧
      (-stageBound B ≤ (butterflyValues wr wi xi xj).2.2 ∧
        (butterflyValues wr wi xi xj).2.2 ≤ stageBound B)) := by
  have a1 := multfix15_half_bound wr xj.1 B hwr.1 hwr.2 hj1.1 hj1.2 hB
  have a2 := multfix15_half_bound wi xj.2 B hwi.1 hwi.2 hj2.1 hj2.2 hB
  have a3 := multfix15_half_bound wr xj.2 B hwr.1 hwr.2 hj2.1 hj2.2 hB
  have a4 := multfix15_half_bound wi xj.1 B hwi.1 hwi.2 hj1.1 hj1.2 hB
  have q1 := shiftRight_one_bound xi.1 B hi1.1 hi1.2
  have q2 := shiftRight_one_bound xi.2 B hi2.1 hi2.2
  simp only [butterflyValues, stageBound]
  generalize multfix15 wr xj.1 = m1 at a1 ⊢
  generalize multfix15 wi xj.2 = m2 at a2 ⊢
  generalize multfix15 wr xj.2 = m3 at a3 ⊢
  generalize multfix15 wi xj.1 = m4 at a4 ⊢
  generalize xi.1 >>> (1 : Nat) = qr at q1 ⊢
  generalize xi.2 >>> (1 : Nat) = qi at q2 ⊢
  have hB0 : 0 ≤ B := by omega
  rw [toInt32_of_isInt32 (m1 - m2) (by unfold IsInt32; omega),
    toInt32_of_isInt32 (m3 + m4) (by unfold IsInt32; omega),
    toInt32_of_isInt32 (qr + (m1 - m2)) (by unfold IsInt32; omega),
    toInt32_of_isInt32 (qi + (m3 + m4)) (by unfold IsInt32; omega),
    toInt32_of_isInt32 (qr - (m1 - m2)) (by unfold IsInt32; omega),
    toInt32_of_isInt32 (qi - (m3 + m4)) (by unfold IsInt32; omega)]
  omega

theorem butterfly_length (wr wi : Int) (L : Nat) (st : List Int × List Int) (i : Nat) :
    (butterfly wr wi L st i).1.length = st.1.length ∧
    (butterfly wr wi L st i).2.length = st.2.length := by
  simp [butterfly]

theorem butterfly_inv (wr wi B : Int) (L i : Nat) (R R' : Nat → Prop)
    (st : List Int × List Int)
    (hwr : -16384 ≤ wr ∧ wr ≤ 16384) (hwi : -16384 ≤ wi ∧ wi ≤ 16384)
    (hB : B ≤ 1073741824)
    (hinv : StageInv B R st) (hi : R i) (hj : R (i + L))
    (hR : ∀ idx, R' idx → R idx ∧ idx ≠ i ∧ idx ≠ i + L) :
    StageInv B R' (butterfly wr wi L st i) := by
  obtain ⟨⟨hall1, hall2⟩, hin⟩ := hinv
  have hv := butterflyValues_bound wr wi B (st.1.getD i 0, st.2.getD i 0)
    (st.1.getD (i + L) 0, st.2.getD (i + L) 0) hwr hwi hB (hin i hi).1 (hin i hi).2
    (hin (i + L) hj).1 (hin (i + L) hj).2
  simp only [butterfly] at *
  generalize butterflyValues wr wi (st.1.getD i 0, st.2.getD i 0)
    (st.1.getD (i + L) 0, st.2.getD (i + L) 0) = v at hv ⊢
  obtain ⟨⟨v11, v12⟩, ⟨v21, v22⟩⟩ := hv
  refine ⟨⟨?_, ?_⟩, ?_⟩
  · intro idx
    simp only [getD_set_int]
    split
    · exact v11
    · split
      · exact v21
      · exact hall1 idx
  · intro idx
    simp only [getD_set_int]
    split
    · exact v12
    · split
      · exact v22
      · exact hall2 idx
  · intro idx hidx
    obtain ⟨hr, h1, h2⟩ := hR idx hidx
    simp only [getD_set_int]
    have e1 : ¬ (i = idx ∧ i < (st.1.set (i + L) v.2.1).length) := fun h => h1 h.1.symm
    have e2 : ¬ (i + L = idx ∧ i + L < st.1.length) := fun h => h2 h.1.symm
    have e3 : ¬ (i = idx ∧ i < (st.2.set (i + L) v.2.2).length) := fun h => h1 h.1.symm
    have e4 : ¬ (i + L = idx ∧ i + L < st.2.length) := fun h => h2 h.1.symm
    rw [if_neg e1, if_neg e2, if_neg e3, if_neg e4]
    exact hin idx hr

theorem untouched_first (L m t : Nat) (hm : m < L) : Untouched L m t (m + 2 * L * t) := by
  right
  constructor
  · rw [show m + 2 * L * t = m + L * (2 * t) by ring, Nat.add_mul_mod_self_left,
      Nat.mod_eq_of_lt hm]
  · rw [Nat.add_mul_div_left _ _ (by omega), Nat.div_eq_of_lt (by omega)]
    omega

theorem untouched_second (L m t : Nat) (hm : m < L) :
    Untouched L m t (m + 2 * L * t + L) := by
  right
  constructor
  · rw [show m + 2 * L * t + L = m + L * (2 * t + 1) by ring, Nat.add_mul_mod_self_left,
      Nat.mod_eq_of_lt hm]
  · rw [show m + 2 * L * t + L = (m + L) + 2 * L * t by ring,
      Nat.add_mul_div_left _ _ (by omega), Nat.div_eq_of_lt (by omega)]
    omega

theorem untouched_succ (L m t idx : Nat) (hm : m < L) (h : Untouched L m (t + 1) idx) :
    Untouched L m t idx ∧ idx ≠ m + 2 * L * t ∧ idx ≠ m + 2 * L * t + L := by
  refine ⟨?_, ?_, ?_⟩
  · rcases h with h | ⟨h1, h2⟩
    · exact Or.inl h
    · exact Or.inr ⟨h1, by omega⟩
  · rintro rfl
    have hdiv : (m + 2 * L * t) / (2 * L) = t := by
      rw [Nat.add_mul_div_left _ _ (by omega), Nat.div_eq_of_lt (by omega)]
      omega
    have hmod : (m + 2 * L * t) % L = m := by
      rw [show m + 2 * L * t = m + L * (2 * t) by ring, Nat.add_mul_mod_self_left,
        Nat.mod_eq_of_lt hm]
    rcases h with h | ⟨_, h2⟩
    · omega
    · omega
  · rintro rfl
    have hdiv : (m + 2 * L * t + L) / (2 * L) = t := by
      rw [show m + 2 * L * t + L = (m + L) + 2 * L * t by ring,
        Nat.add_mul_div_left _ _ (by omega), Nat.div_eq_of_lt (by omega)]
      omega
    have hmod : (m + 2 * L * t + L) % L = m := by
      rw [show m + 2 * L * t + L = m + L * (2 * t + 1) by ring, Nat.add_mul_mod_self_left,
        Nat.mod_eq_of_lt hm]
    rcases h with h | ⟨_, h2⟩
    · omega
    · omega

theorem untouched_next (L m t idx : Nat) (h : Untouched L (m + 1) 0 idx) :
    Untouched L m t idx := by
  rcases h with h | ⟨h1, _⟩
  · exact Or.inl (by omega)
  · exact Or.inl (by omega)

theorem butterflies_inv (wr wi B : Int) (L m : Nat) (hm : m < L)
    (hwr : -16384 ≤ wr ∧ wr ≤ 16384) (hwi : -16384 ≤ wi ∧ wi ≤ 16384)
    (hB : B ≤ 1073741824) (st : List Int × List Int)
    (hinv : StageInv B (Untouched L m 0) st) (t : Nat) :
    StageInv B (Untouched L m t)
      ((List.range' m t (2 * L)).foldl (butterfly wr wi L) st) := by
  induction t with
  | zero => simpa using hinv
  | succ t ih =>
    rw [List.range'_concat, List.foldl_append, List.foldl_cons, List.foldl_nil]
    exact butterfly_inv wr wi B L (m + 2 * L * t) _ _ _ hwr hwi hB ih
      (untouched_first L m t hm) (untouched_second L m t hm)
      (fun idx h => untouched_succ L m t idx hm h)

theorem elementLoop_inv (Sinewave : List Int) (B : Int) (L : Nat) (k : Int)
    (hS : WithinBound 32768 Sinewave) (hB : B ≤ 1073741824) (st : List Int × List Int)
    (hinv : StageInv B (Untouched L 0 0) st) (n : Nat) (hn : n ≤ L) :
    StageInv B (Untouched L n 0)
      ((List.range n).foldl
        (fun st m =>
          butterflyLoop (twiddle Sinewave k m).1 (twiddle Sinewave k m).2 L (L <<< 1) m st)
        st) := by
  induction n with
  | zero => simpa using hinv
  | succ n ih =>
    rw [List.range_succ, List.foldl_append, List.foldl_cons, List.foldl_nil]
    have ih := ih (by omega)
    obtain ⟨hw1, hw2⟩ := twiddle_bound Sinewave k n hS
    unfold butterflyLoop
    rw [show L <<< 1 = 2 * L by rw [Nat.shiftLeft_eq]; ring]
    have := butterflies_inv _ _ B L n (by omega) hw1 hw2 hB _ ih
      ((NUM_SAMPLES - n + 2 * L - 1) / (2 * L))
    exact ⟨this.1, fun idx h => this.2 idx (untouched_next L n _ idx h)⟩

theorem foldl_butterfly_length (wr wi : Int) (L : Nat) (l : List Nat)
    (st : List Int × List Int) :
    (l.foldl (butterfly wr wi L) st).1.length = st.1.length ∧
    (l.foldl (butterfly wr wi L) st).2.length = st.2.length := by
  induction l generalizing st with
  | nil => simp
  | cons a l ih =>
    rw [List.foldl_cons]
    obtain ⟨h1, h2⟩ := ih (butterfly wr wi L st a)
    obtain ⟨h3, h4⟩ := butterfly_length wr wi L st a
    exact ⟨h1.trans h3, h2.trans h4⟩

theorem elementLoop_length (Sinewave : List Int) (L : Nat) (k : Int)
    (st : List Int × List Int) :
    (elementLoop Sinewave L k st).1.length = st.1.length ∧
    (elementLoop Sinewave L k st).2.length = st.2.length := by
  unfold elementLoop
  generalize List.range L = l
  induction l generalizing st with
  | nil => simp
  | cons a l ih =>
    rw [List.foldl_cons]
    obtain ⟨h1, h2⟩ := ih (butterflyLoop (twiddle Sinewave k a).1 (twiddle Sinewave k a).2 L
      (L <<< 1) a st)
    obtain ⟨h3, h4⟩ := foldl_butterfly_length (twiddle Sinewave k a).1 (twiddle Sinewave k a).2
      L (List.range' a ((NUM_SAMPLES - a + L <<< 1 - 1) / L <<< 1) (L <<< 1)) st
    exact ⟨h1.trans h3, h2.trans h4⟩

theorem stage_bound (Sinewave : List Int) (B : Int) (s : FFTState)
    (hS : WithinBound 32768 Sinewave) (hB0 : 0 ≤ B) (hB : B ≤ 1073741824)
    (hr : WithinBound B s.fr) (hi : WithinBound B s.fi) :
    WithinBound (stageBound B) (danielsonLanczosStage Sinewave s).fr ∧
    WithinBound (stageBound B) (danielsonLanczosStage Sinewave s).fi ∧
    (danielsonLanczosStage Sinewave s).fr.length = s.fr.length ∧
    (danielsonLanczosStage Sinewave s).fi.length = s.fi.length := by
  have h0 : StageInv B (Untouched s.L 0 0) (s.fr, s.fi) := by
    refine ⟨⟨fun i => ?_, fun i => ?_⟩, fun idx _ => ⟨hr idx, hi idx⟩⟩
    · have := hr i
      show -stageBound B ≤ s.fr.getD i 0 ∧ s.fr.getD i 0 ≤ stageBound B
      unfold stageBound
      omega
    · have := hi i
      show -stageBound B ≤ s.fi.getD i 0 ∧ s.fi.getD i 0 ≤ stageBound B
      unfold stageBound
      omega
  have h := elementLoop_inv Sinewave B s.L s.k hS hB (s.fr, s.fi) h0 s.L (le_refl _)
  have hl := elementLoop_length Sinewave s.L s.k (s.fr, s.fi)
  exact ⟨h.1.1, h.1.2, hl.1, hl.2⟩

theorem stageBound_iterate_range (s : Nat) (hs : s ≤ 10) :
    0 ≤ stageBound^[s] 8355840 ∧ stageBound^[s] 8355840 ≤ 481840116 := by
  interval_cases s <;> simp [stageBound]

theorem stages_bound (Sinewave : List Int) (st : FFTState)
    (hS : WithinBound 32768 Sinewave)
    (hr : WithinBound 8355840 st.fr) (hi : WithinBound 8355840 st.fi) (s : Nat)
    (hs : s ≤ 10) :
    WithinBound (stageBound^[s] 8355840) ((danielsonLanczosStage Sinewave)^[s] st).fr ∧
    WithinBound (stageBound^[s] 8355840) ((danielsonLanczosStage Sinewave)^[s] st).fi ∧
    ((danielsonLanczosStage Sinewave)^[s] st).fr.length = st.fr.length ∧
    ((danielsonLanczosStage Sinewave)^[s] st).fi.length = st.fi.length := by
  induction s with
  | zero => exact ⟨hr, hi, rfl, rfl⟩
  | succ s ih =>
    obtain ⟨h1, h2, h3, h4⟩ := ih (by omega)
    obtain ⟨b1, b2⟩ := stageBound_iterate_range s (by omega)
    rw [Function.iterate_succ_apply', Function.iterate_succ_apply']
    obtain ⟨g1, g2, g3, g4⟩ := stage_bound Sinewave _ _ hS b1 (by omega) h1 h2
    exact ⟨g1, g2, g3.trans h3, g4.trans h4⟩

theorem getD_map_range (f : Nat → Int) (n i : Nat) :
    ((List.range n).map f).getD i 0 = if i < n then f i else 0 := by
  rw [List.getD_eq_getElem?_getD, List.getElem?_map]
  by_cases h : i < n
  · rw [List.getElem?_range h, if_pos h]
    rfl
  · rw [if_neg h, List.getElem?_eq_none (by rw [List.length_range]; omega)]
    rfl

theorem getD_replicate_zero (n i : Nat) : (List.replicate n (0 : Int)).getD i 0 = 0 := by
  rw [List.getD_eq_getElem?_getD, List.getElem?_replicate]
  split <;> rfl

theorem windowSamples_bound (sample_array window : List Int)
    (hW : ∀ i, 0 ≤ window.getD i 0 ∧ window.getD i 0 ≤ 32768)
    (hA : ∀ i, 0 ≤ sample_array.getD i 0 ∧ sample_array.getD i 0 ≤ 255) :
    WithinBound 8355840 (windowSamples sample_array window).1 ∧
    WithinBound 8355840 (windowSamples sample_array window).2 ∧
    (windowSamples sample_array window).1.length = NUM_SAMPLES ∧
    (windowSamples sample_array window).2.length = NUM_SAMPLES := by
  refine ⟨?_, ?_, ?_, ?_⟩
  · intro i
    simp only [windowSamples]
    rw [getD_map_range]
    split
    · have h1 := hW i
      have h2 := hA i
      generalize window.getD i 0 = w at h1
      generalize sample_array.getD i 0 = a at h2
      unfold int2fix15
      rw [toInt32_of_isInt32 _ (by unfold IsInt32; omega),
        multfix15_eq _ _ (by unfold IsInt32; omega) (by unfold IsInt32; omega)]
      have e : a * 32768 * w / 32768 = a * w := by
        rw [mul_assoc, mul_comm 32768 w, ← mul_assoc]
        exact Int.mul_ediv_cancel _ (by norm_num)
      rw [e]
      have p1 : 0 ≤ a * w := mul_nonneg h2.1 h1.1
      have p2 : a * w ≤ 255 * 32768 := mul_le_mul h2.2 h1.2 h1.1 (by norm_num)
      rw [toInt32_of_isInt32 _ (by unfold IsInt32; omega)]
      omega
    · omega
  · intro i
    simp only [windowSamples]
    rw [getD_replicate_zero]
    omega
  · simp only [windowSamples]
    rw [List.length_map, List.length_range]
  · simp only [windowSamples]
    rw [List.length_replicate]

theorem bitReversal_bound (B : Int) (hB : 0 ≤ B) (fr fi : List Int)
    (hr : fr.length = NUM_SAMPLES) (hi : fi.length = NUM_SAMPLES)
    (br : WithinBound B fr) (bi : WithinBound B fi) :
    WithinBound B (bitReversal fr fi).1 ∧ WithinBound B (bitReversal fr fi).2 ∧
    (bitReversal fr fi).1.length = NUM_SAMPLES ∧
    (bitReversal fr fi).2.length = NUM_SAMPLES := by
  obtain ⟨l1, l2, g⟩ := bitReversalWith_spec 10 (by decide) fr fi hr hi
  have l1' : (bitReversal fr fi).1.length = 1024 := l1
  have l2' : (bitReversal fr fi).2.length = 1024 := l2
  have g' : ∀ i, i < 1024 →
      (bitReversal fr fi).1.getD i 0 = fr.getD (reversedIndex 6 i) 0 ∧
      (bitReversal fr fi).2.getD i 0 = fi.getD (reversedIndex 6 i) 0 := g
  refine ⟨?_, ?_, l1', l2'⟩
  · intro i
    by_cases h : i < 1024
    · rw [(g' i h).1]
      exact br _
    · rw [List.getD_eq_default _ _ (by omega)]
      omega
  · intro i
    by_cases h : i < 1024
    · rw [(g' i h).2]
      exact bi _
    · rw [List.getD_eq_default _ _ (by omega)]
      omega

theorem absInt_eq (a : Int) (h1 : -2147483648 < a) (h2 : a < 2147483648) : absInt a = |a| := by
  unfold absInt
  split
  · rw [toInt32_of_isInt32 _ (by unfold IsInt32; omega), abs_of_neg (by assumption)]
  · rw [toInt32_of_isInt32 _ (by unfold IsInt32; omega), abs_of_nonneg (by omega)]

theorem maxMacro_eq (a b : Int) : maxMacro a b = max a b := by
  unfold maxMacro
  split
  · rw [max_eq_left (by omega)]
  · rw [max_eq_right (by omega)]

theorem minMacro_eq (a b : Int) : minMacro a b = min a b := by
  unfold minMacro
  split
  · rw [min_eq_left (by omega)]
  · rw [min_eq_right (by omega)]

theorem alphaMaxBetaMin_comm (c re im : Int) :
    alphaMaxBetaMin c re im = alphaMaxBetaMin c im re := by
  unfold alphaMaxBetaMin
  rw [max_comm, min_comm]

theorem storedMagnitude_spec (re im : Int) (h1 : -2147483648 < re) (h2 : -2147483648 < im)
    (hsum : |re| + |im| < 2147483648) :
    storedMagnitude re im = alphaMaxBetaMin zero_point_4 re im ∧
    max |re| |im| ≤ storedMagnitude re im ∧ storedMagnitude re im ≤ |re| + |im| := by
  have a0 : 0 ≤ |re| := abs_nonneg re
  have b0 : 0 ≤ |im| := abs_nonneg im
  have ha : re ≤ |re| := le_abs_self re
  have hb : im ≤ |im| := le_abs_self im
  unfold storedMagnitude alphaMaxBetaMin zero_point_4
  rw [absInt_eq re h1 (by omega), absInt_eq im h2 (by omega), maxMacro_eq, minMacro_eq]
  generalize |re| = a at *
  generalize |im| = b at *
  have hm : min a b ≤ a ∧ min a b ≤ b ∧ 0 ≤ min a b := ⟨min_le_left a b, min_le_right a b,
    le_min a0 b0⟩
  have hM : (max a b = a ∨ max a b = b) ∧ a ≤ max a b ∧ b ≤ max a b :=
    ⟨max_choice a b, le_max_left a b, le_max_right a b⟩
  have hmM : max a b + min a b = a + b := max_add_min a b
  rw [multfix15_eq _ _ (by unfold IsInt32; omega) (by unfold IsInt32; omega)]
  generalize min a b = x at *
  generalize max a b = y at *
  rw [toInt32_of_isInt32 (x * 13107 / 32768) (by unfold IsInt32; omega),
    toInt32_of_isInt32 _ (by unfold IsInt32; omega)]
  omega

theorem stageBound_ten : stageBound^[10] 8355840 = 481840116 := by
  simp [stageBound]

theorem stages_bound_ten (Sinewave : List Int) (st : FFTState)
    (hS : WithinBound 32768 Sinewave)
    (hr : WithinBound 8355840 st.fr) (hi : WithinBound 8355840 st.fi) :
    WithinBound 481840116 ((danielsonLanczosStage Sinewave)^[10] st).fr ∧
    WithinBound 481840116 ((danielsonLanczosStage Sinewave)^[10] st).fi ∧
    ((danielsonLanczosStage Sinewave)^[10] st).fr.length = st.fr.length ∧
    ((danielsonLanczosStage Sinewave)^[10] st).fi.length = st.fi.length := by
  have h := stages_bound Sinewave st hS hr hi 10 (le_refl _)
  rw [stageBound_ten] at h
  exact h

theorem FFTfix_eq (Sinewave fr fi : List Int) (fuel : Nat) (hfuel : 10 ≤ fuel) :
    FFTfix Sinewave fr fi fuel
      = some (((danielsonLanczosStage Sinewave)^[10]
                (fftStart (bitReversal fr fi).1 (bitReversal fr fi).2)).fr,
              ((danielsonLanczosStage Sinewave)^[10]
                (fftStart (bitReversal fr fi).1 (bitReversal fr fi).2)).fi) := by
  unfold FFTfix
  rw [danielsonLanczos_ten Sinewave _ _ fuel hfuel, Option.map_some']


theorem stages_bound_start (Sinewave fr fi : List Int)
    (hS : WithinBound 32768 Sinewave)
    (hr : WithinBound 8355840 fr) (hi : WithinBound 8355840 fi) :
    WithinBound 481840116 ((danielsonLanczosStage Sinewave)^[10] (fftStart fr fi)).fr ∧
    WithinBound 481840116 ((danielsonLanczosStage Sinewave)^[10] (fftStart fr fi)).fi ∧
    ((danielsonLanczosStage Sinewave)^[10] (fftStart fr fi)).fr.length = fr.length ∧
    ((danielsonLanczosStage Sinewave)^[10] (fftStart fr fi)).fi.length = fi.length :=
  stages_bound_ten Sinewave (fftStart fr fi) hS hr hi

theorem FFTfix_bound_of_state (Sinewave fr fi : List Int) (fuel : Nat) (fin : FFTState)
    (b : List Int × List Int)
    (e : FFTfix Sinewave fr fi fuel = some (fin.fr, fin.fi))
    (hb : b.1.length = NUM_SAMPLES ∧ b.2.length = NUM_SAMPLES)
    (h : WithinBound 481840116 fin.fr ∧ WithinBound 481840116 fin.fi ∧
      fin.fr.length = b.1.length ∧ fin.fi.length = b.2.length) :
    ∃ out, FFTfix Sinewave fr fi fuel = some out ∧
      out.1.length = NUM_SAMPLES ∧ out.2.length = NUM_SAMPLES ∧
      WithinBound 481840116 out.1 ∧ WithinBound 481840116 out.2 :=
  ⟨(fin.fr, fin.fi), e, h.2.2.1.trans hb.1, h.2.2.2.trans hb.2, h.1, h.2.1⟩

theorem FFTfix_bound (Sinewave fr fi : List Int) (fuel : Nat) (hfuel : 10 ≤ fuel)
    (hS : WithinBound 32768 Sinewave)
    (hr : fr.length = NUM_SAMPLES) (hi : fi.length = NUM_SAMPLES)
    (br : WithinBound 8355840 fr) (bi : WithinBound 8355840 fi) :
    ∃ out, FFTfix Sinewave fr fi fuel = some out ∧
      out.1.length = NUM_SAMPLES ∧ out.2.length = NUM_SAMPLES ∧
      WithinBound 481840116 out.1 ∧ WithinBound 481840116 out.2 :=
  FFTfix_bound_of_state Sinewave fr fi fuel
    ((danielsonLanczosStage Sinewave)^[10]
      (fftStart (bitReversal fr fi).1 (bitReversal fr fi).2))
    (bitReversal fr fi)
    (FFTfix_eq Sinewave fr fi fuel hfuel)
    (bitReversal_bound 8355840 (by norm_num) fr fi hr hi br bi).2.2
    (stages_bound_start Sinewave (bitReversal fr fi).1 (bitReversal fr fi).2 hS
      (bitReversal_bound 8355840 (by norm_num) fr fi hr hi br bi).1
      (bitReversal_bound 8355840 (by norm_num) fr fi hr hi br bi).2.1)

/-- C22. For the arrays that `protothread_fft` hands to the magnitude loop, that is the
output of `FFTfix` on the windowed samples (8-bit samples, a window table with entries in
`[0, 2 ^ 15]`, a sine table with entries in `[-2 ^ 15, 2 ^ 15]`): the transform returns, and
for each of the first `N / 2` bins, with `re` and `im` its outputs, neither is the minimum
32-bit value, the magnitude stored in `fr[i]` is
`max(|re|, |im|) + multfix15(min(|re|, |im|), c)` with `c = zero_point_4 = 13107`; that
value is symmetric in `re` and `im`, at least `max(|re|, |im|)` and at most `|re| + |im|`. -/
theorem magnitude_alpha_max_beta_min (Sinewave window sample_array : List Int) (fuel : Nat)
    (hfuel : LOG2_NUM_SAMPLES ≤ fuel)
    (hS : ∀ i, -32768 ≤ Sinewave.getD i 0 ∧ Sinewave.getD i 0 ≤ 32768)
    (hW : ∀ i, 0 ≤ window.getD i 0 ∧ window.getD i 0 ≤ 32768)
    (hA : ∀ i, 0 ≤ sample_array.getD i 0 ∧ sample_array.getD i 0 ≤ 255) :
    zero_point_4 = 13107 ∧
    ∃ out, FFTfix Sinewave (windowSamples sample_array window).1
        (windowSamples sample_array window).2 fuel = some out ∧
      ∀ i, i < NUM_SAMPLES / 2 →
        (out.1.getD i 0 ≠ -2147483648 ∧ out.2.getD i 0 ≠ -2147483648) ∧
        (magnitudeLoop out.1 out.2).fr.getD i 0
          = max |out.1.getD i 0| |out.2.getD i 0|
              + multfix15 (min |out.1.getD i 0| |out.2.getD i 0|) zero_point_4 ∧
        alphaMaxBetaMin zero_point_4 (out.1.getD i 0) (out.2.getD i 0)
          = alphaMaxBetaMin zero_point_4 (out.2.getD i 0) (out.1.getD i 0) ∧
        max |out.1.getD i 0| |out.2.getD i 0| ≤ (magnitudeLoop out.1 out.2).fr.getD i 0 ∧
        (magnitudeLoop out.1 out.2).fr.getD i 0 ≤ |out.1.getD i 0| + |out.2.getD i 0| := by
  refine ⟨rfl, ?_⟩
  obtain ⟨w1, w2, w3, w4⟩ := windowSamples_bound sample_array window hW hA
  obtain ⟨out, hout, l1, l2, b1, b2⟩ :=
    FFTfix_bound Sinewave _ _ fuel hfuel hS w3 w4 w1 w2
  refine ⟨out, hout, ?_⟩
  intro i hi
  have hi' : i < 512 := hi
  have h512 : NUM_SAMPLES >>> 1 = 512 := by decide
  obtain ⟨-, -, h3, -, -⟩ := magnitudeLoop_inv out.1 out.2 512
    (by rw [l1]; decide) (by rw [l2]; decide)
  have hmag : (magnitudeLoop out.1 out.2).fr.getD i 0
      = storedMagnitude (out.1.getD i 0) (out.2.getD i 0) := by
    unfold magnitudeLoop
    rw [h512, h3 i, if_pos hi']
  have hr := b1 i
  have him := b2 i
  have habs1 : |out.1.getD i 0| ≤ 481840116 := abs_le.mpr hr
  have habs2 : |out.2.getD i 0| ≤ 481840116 := abs_le.mpr him
  obtain ⟨e, lo, hi2⟩ := storedMagnitude_spec (out.1.getD i 0) (out.2.getD i 0)
    (by omega) (by omega) (by omega)
  rw [hmag]
  exact ⟨⟨by omega, by omega⟩, e, alphaMaxBetaMin_comm _ _ _, lo, hi2⟩

theorem magnitude_alpha_max_beta_min_witness :
    (LOG2_NUM_SAMPLES ≤ 10 ∧
      (∀ i, -32768 ≤ (List.replicate 1024 (32768 : Int)).getD i 0 ∧
        (List.replicate 1024 (32768 : Int)).getD i 0 ≤ 32768) ∧
      (∀ i, 0 ≤ (List.replicate 1024 (32768 : Int)).getD i 0 ∧
        (List.replicate 1024 (32768 : Int)).getD i 0 ≤ 32768) ∧
      (∀ i, 0 ≤ (List.replicate 1024 (255 : Int)).getD i 0 ∧
        (List.replicate 1024 (255 : Int)).getD i 0 ≤ 255)) ∧
    ∃ out, FFTfix (List.replicate 1024 32768)
        (windowSamples (List.replicate 1024 255) (List.replicate 1024 32768)).1
        (windowSamples (List.replicate 1024 255) (List.replicate 1024 32768)).2 10
          = some out ∧
      ∀ i, i < NUM_SAMPLES / 2 →
        (out.1.getD i 0 ≠ -2147483648 ∧ out.2.getD i 0 ≠ -2147483648) ∧
        (magnitudeLoop out.1 out.2).fr.getD i 0
          = max |out.1.getD i 0| |out.2.getD i 0|
              + multfix15 (min |out.1.getD i 0| |out.2.getD i 0|) zero_point_4 ∧
        alphaMaxBetaMin zero_point_4 (out.1.getD i 0) (out.2.getD i 0)
          = alphaMaxBetaMin zero_point_4 (out.2.getD i 0) (out.1.getD i 0) ∧
        max |out.1.getD i 0| |out.2.getD i 0| ≤ (magnitudeLoop out.1 out.2).fr.getD i 0 ∧
        (magnitudeLoop out.1 out.2).fr.getD i 0 ≤ |out.1.getD i 0| + |out.2.getD i 0| :=
  have h1 : ∀ i, -32768 ≤ (List.replicate 1024 (32768 : Int)).getD i 0 ∧
      (List.replicate 1024 (32768 : Int)).getD i 0 ≤ 32768 := fun i => by
    rw [List.getD_eq_getElem?_getD, List.getElem?_replicate]
    split <;> simp
  have h2 : ∀ i, 0 ≤ (List.replicate 1024 (32768 : Int)).getD i 0 ∧
      (List.replicate 1024 (32768 : Int)).getD i 0 ≤ 32768 := fun i => by
    rw [List.getD_eq_getElem?_getD, List.getElem?_replicate]
    split <;> simp
  have h3 : ∀ i, 0 ≤ (List.replicate 1024 (255 : Int)).getD i 0 ∧
      (List.replicate 1024 (255 : Int)).getD i 0 ≤ 255 := fun i => by
    rw [List.getD_eq_getElem?_getD, List.getElem?_replicate]
    split <;> simp
  ⟨⟨by decide, h1, h2, h3⟩,
   (magnitude_alpha_max_beta_min (List.replicate 1024 32768) (List.replicate 1024 32768)
      (List.replicate 1024 255) 10 (by decide) h1 h2 h3).2⟩

/-! ### The two completion flags -/

theorem lsysStep_finish_fern (n : DrawCounts) (s : Handshake) :
    (lsysStep n s).finish_fern = s.finish_fern := by
  unfold lsysStep
  split <;> try rfl
  split <;> rfl

theorem fernStep_finish_ls (n : DrawCounts) (s : Handshake) :
    (fernStep n s).finish_ls = s.finish_ls := by
  unfold fernStep
  split <;> try rfl
  split <;> rfl

theorem lsys_steps_finish_fern (n : DrawCounts) (k : Nat) (s : Handshake) :
    ((List.replicate k Task.lsys).foldl (handshakeStep n) s).finish_fern = s.finish_fern := by
  induction k generalizing s with
  | zero => rfl
  | succ k ih =>
    rw [List.replicate_succ, List.foldl_cons, ih]
    exact lsysStep_finish_fern n s

theorem fern_steps_finish_ls (n : DrawCounts) (k : Nat) (s : Handshake) :
    ((List.replicate k Task.fern).foldl (handshakeStep n) s).finish_ls = s.finish_ls := by
  induction k generalizing s with
  | zero => rfl
  | succ k ih =>
    rw [List.replicate_succ, List.foldl_cons, ih]
    exact fernStep_finish_ls n s

/-- C24. In the two-flag protocol of `Trees_w3_fft.c` each completion flag is written by
one task only: every step of the grammar task, and so every run of its steps, leaves
`finish_fern` as it was, and every step of the fractal task leaves `finish_ls` as it was.
The owner does write its flag: the grammar task sets `finish_ls` to `false` at line 500 and
to `true` at line 587, the fractal task sets `finish_fern` at lines 638 and 720; the other
task's flag is only tested, at lines 590 and 721. -/
theorem each_flag_has_one_writer (n : DrawCounts) (s : Handshake) :
    ((lsysStep n s).finish_fern = s.finish_fern ∧
      (fernStep n s).finish_ls = s.finish_ls) ∧
    (∀ k, ((List.replicate k Task.lsys).foldl (handshakeStep n) s).finish_fern
        = s.finish_fern) ∧
    (∀ k, ((List.replicate k Task.fern).foldl (handshakeStep n) s).finish_ls
        = s.finish_ls) ∧
    ((lsysStep n { s with lsysPc := .clearFlag }).finish_ls = false ∧
      (lsysStep n { s with lsysPc := .setFlag }).finish_ls = true ∧
      (fernStep n { s with fernPc := .clearFlag }).finish_fern = false ∧
      (fernStep n { s with fernPc := .setFlag }).finish_fern = true) ∧
    ((lsysStep n { s with lsysPc := .poll }).lsysPc
        = if s.finish_fern then .sleep else .poll) ∧
    ((fernStep n { s with fernPc := .poll }).fernPc
        = if s.finish_ls then .sleep else .poll) := by
  refine ⟨⟨lsysStep_finish_fern n s, fernStep_finish_ls n s⟩,
    fun k => lsys_steps_finish_fern n k s, fun k => fern_steps_finish_ls n k s,
    ⟨rfl, rfl, rfl, rfl⟩, ?_, ?_⟩
  · simp only [lsysStep]
    split <;> rfl
  · simp only [fernStep]
    split <;> rfl

/-- C25. A run of `Trees_w3_fft.c` in which the canvas is cleared on a value of
`finish_fern` left over from an earlier pass. Every pass makes one draw call. Both tasks
complete pass 0 and the grammar task clears the canvas; the grammar task then runs its whole
pass 1 while the fractal task, still at line 721 of pass 0, takes no step: it has not reset
`finish_fern`, the loop at line 590 reads the `true` of pass 0 and the canvas is cleared a
second time although the fractal task has completed no pass 1. -/
theorem clear_on_stale_finish_fern :
    (handshakeRun { lsys := fun _ => 1, fern := fun _ => 1 }
        ([.lsys, .lsys, .lsys, .fern, .fern, .fern, .lsys, .lsys, .lsys] ++
          [.lsys, .lsys, .lsys, .lsys, .lsys, .lsys])).clears
      = [{ epoch := 0, seen := 0, fernInFlight := false },
         { epoch := 1, seen := 0, fernInFlight := false }] ∧
    (handshakeRun { lsys := fun _ => 1, fern := fun _ => 1 }
        ([.lsys, .lsys, .lsys, .fern, .fern, .fern, .lsys, .lsys, .lsys] ++
          [.lsys, .lsys, .lsys, .lsys, .lsys, .lsys])).fernEpoch = 0 ∧
    (handshakeRun { lsys := fun _ => 1, fern := fun _ => 1 }
        ([.lsys, .lsys, .lsys, .fern, .fern, .fern, .lsys, .lsys, .lsys] ++
          [.lsys, .lsys, .lsys, .lsys, .lsys, .lsys])).fernPc = .poll := by
  decide

/-- C26. A run of `Trees_w3_fft.c` in which the canvas is cleared while the fractal task is
between two draw calls. The grammar task makes one draw call per pass, the fractal task
two. Both complete pass 0 and the grammar task leaves line 590; the fractal task leaves
line 721, sleeps, resets `tree_x`, starts pass 1 and makes its first draw call; then the
grammar task finishes its `sleep_ms(2000)` and runs `fillRect`. -/
theorem clear_during_fern_drawing :
    (handshakeRun { lsys := fun _ => 1, fern := fun _ => 2 }
        ([.lsys, .lsys, .lsys, .fern, .fern, .fern, .fern, .lsys] ++
          [.fern, .fern, .fern, .fern, .fern, .lsys, .lsys])).clears
      = [{ epoch := 0, seen := 0, fernInFlight := true }] ∧
    (handshakeRun { lsys := fun _ => 1, fern := fun _ => 2 }
        ([.lsys, .lsys, .lsys, .fern, .fern, .fern, .fern, .lsys] ++
          [.fern, .fern, .fern, .fern, .fern, .lsys, .lsys])).fernPc = .drawing 1 ∧
    (handshakeRun { lsys := fun _ => 1, fern := fun _ => 2 }
        ([.lsys, .lsys, .lsys, .fern, .fern, .fern, .fern, .lsys] ++
          [.fern, .fern, .fern, .fern, .fern, .lsys, .lsys])).fernEpoch = 1 := by
  decide

/-! ### Pacing of the grammar task -/

theorem lsysEvent_sleeptime (w : LsysWorld) (e : LsysEvent) :
    (lsysEvent w e).locals.sleeptime = w.locals.sleeptime := by
  cases e <;> rfl

theorem lsysEvents_sleeptime (events : List LsysEvent) (w : LsysWorld) :
    (events.foldl lsysEvent w).locals.sleeptime = w.locals.sleeptime := by
  induction events generalizing w with
  | nil => rfl
  | cons e es ih => rw [List.foldl_cons, ih, lsysEvent_sleeptime]

theorem lsysEvents_delays (events : List LsysEvent) (w : LsysWorld) :
    ∀ d ∈ (events.foldl lsysEvent w).delays, d ∈ w.delays ∨ d = w.locals.sleeptime := by
  induction events generalizing w with
  | nil => exact fun d hd => Or.inl hd
  | cons e es ih =>
    intro d hd
    rw [List.foldl_cons] at hd
    rcases ih (lsysEvent w e) d hd with h | h
    · cases e with
      | publish f => exact Or.inl h
      | epoch dr =>
        simp only [lsysEvent, List.mem_append, List.mem_singleton] at h
        exact h
    · rw [lsysEvent_sleeptime] at h
      exact Or.inr h

/-- C27. The pacing delay of the grammar task is picked once, when the thread starts, from
the value `f0` that `max_freqency` holds then (lines 475 to 484 stand before the
`while(1)`): every pass of every run uses `pickSleeptime f0`, whatever is published later.
In the run that starts at 0 Hz, makes one pass, sees bin 51 (498 Hz) published and makes a
second pass, both passes sleep 6 ms; picking the delay from the frequency last published
before each pass gives 6 ms and then 4 ms. -/
theorem pacing_delay_is_picked_once (d : LsysDraws) :
    (∀ f0 events, ∀ t ∈ (lsysRun f0 events).delays, t = pickSleeptime f0) ∧
    (lsysRun 0 [.epoch d, .publish (frequencyOfBin 51), .epoch d]).delays = [6, 6] ∧
    delaysBySpec 0 [.epoch d, .publish (frequencyOfBin 51), .epoch d] = [6, 4] := by
  refine ⟨?_, ?_, ?_⟩
  · intro f0 events t ht
    rcases lsysEvents_delays events _ t ht with h | h
    · simp at h
    · exact h
  · simp [lsysRun, lsysEvent, lsysBegin, lsysUpdate, pickSleeptime]
  · simp only [delaysBySpec, frequencyOfBin, pickSleeptime]
    norm_num

/-! ### Placement of the fractal trees -/

theorem treeXAtEpoch_eq (p : Placement) (n : Nat) : treeXAtEpoch p n = 160 := by
  cases n <;> rfl

/-- C28. Horizontal placement of the fractal trees. In `Trees_w3_fft.c` and `Trees_w3_2.c`
(2 trees, stride 320) and in `fern_w2.c` (3 trees, stride 160): `tree_x` is 160 at the
start of every pass of the outer loop, tree number `i` of the pass is drawn with
`tree_x = 160 + stride * i` (160, 480; 160, 320, 480), every such origin is below the canvas
width 640, a leaf point with offset 0 is drawn in the column of its origin, and `tree_x` is
160 again after the last tree of the pass. -/
theorem tree_placement (n : Nat) :
    (treeXAtEpoch placementW3 n = 160 ∧
      (placementEpoch placementW3 (treeXAtEpoch placementW3 n)).origins
        = (List.range placementW3.num_trees).map (fun i => 160 + placementW3.stride * i) ∧
      (placementEpoch placementW3 (treeXAtEpoch placementW3 n)).origins = [160, 480] ∧
      (placementEpoch placementW3 (treeXAtEpoch placementW3 n)).tree_x = 160) ∧
    (treeXAtEpoch placementW2 n = 160 ∧
      (placementEpoch placementW2 (treeXAtEpoch placementW2 n)).origins
        = (List.range placementW2.num_trees).map (fun i => 160 + placementW2.stride * i) ∧
      (placementEpoch placementW2 (treeXAtEpoch placementW2 n)).origins = [160, 320, 480] ∧
      (placementEpoch placementW2 (treeXAtEpoch placementW2 n)).tree_x = 160) ∧
    (∀ p, p = placementW3 ∨ p = placementW2 →
      ∀ x ∈ (placementEpoch p (treeXAtEpoch p n)).origins,
        0 ≤ x ∧ x < 640 ∧ pixelColumn 0 0 x = x) := by
  refine ⟨?_, ?_, ?_⟩
  · rw [treeXAtEpoch_eq]
    decide
  · rw [treeXAtEpoch_eq]
    decide
  · intro p hp x hx
    rw [treeXAtEpoch_eq] at hx
    rcases hp with rfl | rfl
    · have h : (placementEpoch placementW3 160).origins = [160, 480] := by decide
      rw [h] at hx
      simp only [List.mem_cons, List.mem_singleton, List.not_mem_nil, or_false] at hx
      rcases hx with rfl | rfl <;> decide
    · have h : (placementEpoch placementW2 160).origins = [160, 320, 480] := by decide
      rw [h] at hx
      simp only [List.mem_cons, List.mem_singleton, List.not_mem_nil, or_false] at hx
      rcases hx with rfl | rfl | rfl <;> decide

/-! ### Turtle: the wrap of the heading -/

theorem bitLengthAux_le (fuel n k : Nat) (h : n < 2 ^ k) : bitLengthAux fuel n ≤ k := by
  induction fuel generalizing n k with
  | zero => simp [bitLengthAux]
  | succ fuel ih =>
    simp only [bitLengthAux]
    split_ifs with h0
    · omega
    · cases k with
      | zero => simp at h; omega
      | succ k =>
        have : n / 2 < 2 ^ k := by
          rw [pow_succ] at h
          omega
        have := ih (n / 2) k this
        omega

theorem roundBinary32_whole (n : Int) (hn : |n| < 2 ^ 24) :
    roundBinary32 (n * angleUnit) = n * angleUnit := by
  have hU : angleUnit = ((2 ^ 40 : Nat) : Int) := by
    simp [angleUnit]
  have ha : (n * angleUnit).natAbs = n.natAbs * 2 ^ 40 := by
    rw [Int.natAbs_mul, hU, Int.natAbs_ofNat]
  have hlt : n.natAbs < 2 ^ 24 := by
    have : (n.natAbs : Int) = |n| := Int.natCast_natAbs n
    have h2 : (n.natAbs : Int) < 2 ^ 24 := by rw [this]; exact hn
    exact_mod_cast h2
  have hb : bitLength (n.natAbs * 2 ^ 40) ≤ 64 := by
    apply bitLengthAux_le
    calc n.natAbs * 2 ^ 40 < 2 ^ 24 * 2 ^ 40 := by
          apply Nat.mul_lt_mul_of_pos_right hlt (by positivity)
      _ = 2 ^ 64 := by norm_num
  have hdvd : 2 ^ (bitLength (n.natAbs * 2 ^ 40) - 24) ∣ n.natAbs * 2 ^ 40 :=
    Dvd.dvd.mul_left (Nat.pow_dvd_pow 2 (by omega)) _
  have hr : n.natAbs * 2 ^ 40 % 2 ^ (bitLength (n.natAbs * 2 ^ 40) - 24) = 0 :=
    Nat.mod_eq_zero_of_dvd hdvd
  have hpos : 0 < 2 ^ (bitLength (n.natAbs * 2 ^ 40) - 24) := by positivity
  unfold roundBinary32
  simp only [ha, hr]
  rw [if_neg (by omega), Nat.div_mul_cancel hdvd, ← ha, Int.sign_mul_natAbs]


theorem rotateBinary32_whole (h d : Int) (hlo : -360 < h + d) (hhi : h + d < 720) :
    rotateBinary32 (h * angleUnit) (d * angleUnit) = rotateAngle h d * angleUnit := by
  have e1 : h * angleUnit + d * angleUnit = (h + d) * angleUnit := by ring
  have e2 : (h + d) * angleUnit - 360 * angleUnit = (h + d - 360) * angleUnit := by ring
  have e3 : ∀ a : Int, a * angleUnit + 360 * angleUnit = (a + 360) * angleUnit := by
    intro a; ring
  have r1 := roundBinary32_whole (h + d) (by rw [abs_lt]; constructor <;> omega)
  have r2 := roundBinary32_whole (h + d - 360) (by rw [abs_lt]; constructor <;> omega)
  have r3 := roundBinary32_whole (h + d + 360) (by rw [abs_lt]; constructor <;> omega)
  have r4 := roundBinary32_whole (h + d - 360 + 360) (by rw [abs_lt]; constructor <;> omega)
  have c1 : ∀ a : Int, (a * angleUnit ≥ 360 * angleUnit ↔ a ≥ 360) := by
    intro a; simp only [angleUnit]; constructor <;> intro <;> omega
  have c2 : ∀ a : Int, (a * angleUnit ≤ 0 ↔ a ≤ 0) := by
    intro a; simp only [angleUnit]; constructor <;> intro <;> omega
  unfold rotateBinary32 rotateAngle
  simp only [e1, r1, c1]
  by_cases g1 : h + d ≥ 360
  · simp only [g1, if_true, e2, r2, c2]
    by_cases g2 : h + d - 360 ≤ 0
    · simp only [g2, if_true, e3, r4]
    · simp only [g2, if_false]
  · simp only [g1, if_false, c2]
    by_cases g2 : h + d ≤ 0
    · simp only [g2, if_true, e3, r3]
    · simp only [g2, if_false]

/-- C35, as stated, fails on the `float` arithmetic of `rotate`. The heading
`h = -(360 - 2 ^ (-15))` and the turn `d = -2 ^ (-16)` are both values of type `float`
and `-360 < h + d < 720`, but `h + d` rounds to `-360.0`, to which the second test adds
`360.0`: the heading ends at 0, outside `(0, 360]`. And from the `float` nearest to 0.1
the turn by the `float` nearest to -0.3 ends at 359.79998779296875, which is none of
`h + d`, `h + d - 360` and `h + d + 360`. Angles are in units of `2 ^ (-40)` degree. -/
theorem rotate_float_reaches_zero :
    (roundBinary32 (-(360 * angleUnit - 2 ^ 25)) = -(360 * angleUnit - 2 ^ 25) ∧
      roundBinary32 (-(2 ^ 24)) = -(2 ^ 24) ∧
      -360 * angleUnit < -(360 * angleUnit - 2 ^ 25) + -(2 ^ 24) ∧
      -(360 * angleUnit - 2 ^ 25) + -(2 ^ 24) < 720 * angleUnit ∧
      rotateBinary32 (-(360 * angleUnit - 2 ^ 25)) (-(2 ^ 24)) = 0 ∧
      ¬ (0 < rotateBinary32 (-(360 * angleUnit - 2 ^ 25)) (-(2 ^ 24)) ∧
          rotateBinary32 (-(360 * angleUnit - 2 ^ 25)) (-(2 ^ 24)) ≤ 360 * angleUnit)) ∧
    (roundBinary32 (13421773 * 2 ^ 13) = 13421773 * 2 ^ 13 ∧
      roundBinary32 (-(10066330 * 2 ^ 15)) = -(10066330 * 2 ^ 15) ∧
      -360 * angleUnit < 13421773 * 2 ^ 13 + -(10066330 * 2 ^ 15) ∧
      13421773 * 2 ^ 13 + -(10066330 * 2 ^ 15) < 720 * angleUnit ∧
      rotateBinary32 (13421773 * 2 ^ 13) (-(10066330 * 2 ^ 15)) = 395604270252032 ∧
      ¬ (rotateBinary32 (13421773 * 2 ^ 13) (-(10066330 * 2 ^ 15))
            = 13421773 * 2 ^ 13 + -(10066330 * 2 ^ 15) ∨
          rotateBinary32 (13421773 * 2 ^ 13) (-(10066330 * 2 ^ 15))
            = 13421773 * 2 ^ 13 + -(10066330 * 2 ^ 15) - 360 * angleUnit ∨
          rotateBinary32 (13421773 * 2 ^ 13) (-(10066330 * 2 ^ 15))
            = 13421773 * 2 ^ 13 + -(10066330 * 2 ^ 15) + 360 * angleUnit)) := by
  decide

/-- C35, amended. For every whole-degree heading `h` and turn angle `d`, both of magnitude
below `2 ^ 24` (so both are values of type `float`; every angle the program installs is
such), with `-360 < h + d < 720`: the `float` arithmetic of `rotate(d)` is exact, the
heading after it is greater than 0 and at most 360 and is `h + d`, `h + d - 360` or
`h + d + 360`; a sum of exactly 0 or exactly 360 yields 360, never 0. Position, stack and
drawn lines are unchanged. -/
theorem rotate_wraps_once (t : Turtle) (d : Int) (hh : |t.angle_cur| < 2 ^ 24)
    (hd : |d| < 2 ^ 24) (hlo : -360 < t.angle_cur + d) (hhi : t.angle_cur + d < 720) :
    (roundBinary32 (t.angle_cur * angleUnit) = t.angle_cur * angleUnit ∧
      roundBinary32 (d * angleUnit) = d * angleUnit ∧
      rotateBinary32 (t.angle_cur * angleUnit) (d * angleUnit)
        = (rotate d t).angle_cur * angleUnit) ∧
    (0 < (rotate d t).angle_cur ∧ (rotate d t).angle_cur ≤ 360) ∧
    ((rotate d t).angle_cur = t.angle_cur + d ∨
      (rotate d t).angle_cur = t.angle_cur + d - 360 ∨
      (rotate d t).angle_cur = t.angle_cur + d + 360) ∧
    (t.angle_cur + d = 0 → (rotate d t).angle_cur = 360) ∧
    (t.angle_cur + d = 360 → (rotate d t).angle_cur = 360) ∧
    (rotate d t).angle_cur ≠ 0 ∧
    ((rotate d t).x_cur = t.x_cur ∧ (rotate d t).y_cur = t.y_cur ∧
      (rotate d t).state = t.state ∧ (rotate d t).drawn = t.drawn) := by
  refine ⟨⟨roundBinary32_whole _ hh, roundBinary32_whole _ hd,
    rotateBinary32_whole _ _ hlo hhi⟩, ?_, ?_, ?_, ?_, ?_, ⟨rfl, rfl, rfl, rfl⟩⟩ <;>
    simp only [rotate, rotateAngle] <;> split_ifs <;> omega

theorem rotate_wraps_once_witness :
    (|(⟨320, 480, 330, [], []⟩ : Turtle).angle_cur| < 2 ^ 24 ∧ |(30 : Int)| < 2 ^ 24 ∧
      -360 < (⟨320, 480, 330, [], []⟩ : Turtle).angle_cur + 30 ∧
      (⟨320, 480, 330, [], []⟩ : Turtle).angle_cur + 30 < 720) ∧
    rotateBinary32 (330 * angleUnit) (30 * angleUnit) = 360 * angleUnit ∧
    (rotate 30 ⟨320, 480, 330, [], []⟩).angle_cur = 360 :=
  ⟨⟨by decide, by decide, by decide, by decide⟩, by decide,
   (rotate_wraps_once ⟨320, 480, 330, [], []⟩ 30 (by decide) (by decide) (by decide)
     (by decide)).2.2.2.2.1 (by decide)⟩

/-! ### Barnsley fern: the first map -/

theorem beginTree_f1y (d : TreeDraws) (s : Fern) :
    (beginTree d s).coeffs.f1y_coeff_1 = s.coeffs.f1y_coeff_1 := rfl

theorem chaosBody_f1y (test : Int) (i : Nat) (s : Fern) :
    (chaosBody test i s).coeffs.f1y_coeff_1 = s.coeffs.f1y_coeff_1 := rfl

/-- C36. The first affine map sends every point `(x, y)` to `(0, multfix15(x, c))` with
`c = f1y_coeff_1`, which is `float2fix15(0.16) = 5242` at start-up and which neither the
per-tree randomisation nor the chaos game changes: the `x` output is always 0, and the `y`
output is computed from the old `x` coordinate and is the same for every old `y`. An
iteration of the chaos game whose draw is below `F1_THRESH` installs that point. -/
theorem first_map_ignores_y (c : FernCoeffs) (x y : Int) :
    applyBranch c .F1 (x, y) = (0, multfix15 x c.f1y_coeff_1) ∧
    (F1x c x y = 0 ∧ F1y c x y = multfix15 x c.f1y_coeff_1) ∧
    (∀ y2, applyBranch c .F1 (x, y2) = applyBranch c .F1 (x, y)) ∧
    initialCoeffs.f1y_coeff_1 = 5242 ∧
    (∀ (d : TreeDraws) (s : Fern),
      (beginTree d s).coeffs.f1y_coeff_1 = s.coeffs.f1y_coeff_1) ∧
    (∀ (test : Int) (i : Nat) (s : Fern),
      (chaosBody test i s).coeffs.f1y_coeff_1 = s.coeffs.f1y_coeff_1 ∧
      (test < F1_THRESH →
        (chaosBody test i s).x_old = 0 ∧
        (chaosBody test i s).y_old = multfix15 s.x_old s.coeffs.f1y_coeff_1)) := by
  refine ⟨rfl, ⟨rfl, rfl⟩, fun _ => rfl, rfl, fun _ _ => rfl, fun test i s => ⟨rfl, ?_⟩⟩
  intro h
  have h1 : selectBranch test = .F1 := by
    unfold selectBranch
    rw [if_pos h]
  simp only [chaosBody, h1, applyBranch, F1x, F1y, and_self]

/-! ### L-system: size of the generations of the tree rule -/

theorem interpretSymbol_drawn (tr : Trig) (ls : Lsystem) (color : Nat) (c : Char)
    (t t1 : Turtle) (h : interpretSymbol tr ls color c t = .ok t1) :
    t1.drawn.length = t.drawn.length + (if c = 'F' then 1 else 0) := by
  unfold interpretSymbol at h
  by_cases hX : c = 'X'
  · subst hX
    rw [if_pos rfl] at h
    cases h
    simp
  rw [if_neg hX] at h
  by_cases hF : c = 'F'
  · subst hF
    rw [if_pos rfl] at h
    cases h
    simp [forward]
  rw [if_neg hF] at h
  rw [if_neg hF]
  by_cases h1 : c = '-'
  · rw [if_pos h1] at h
    cases h
    rfl
  rw [if_neg h1] at h
  by_cases h2 : c = '+'
  · rw [if_pos h2] at h
    cases h
    rfl
  rw [if_neg h2] at h
  by_cases h3 : c = '['
  · rw [if_pos h3] at h
    cases h
    rfl
  rw [if_neg h3] at h
  by_cases h4 : c = ']'
  · rw [if_pos h4] at h
    unfold popstate at h
    cases hs : t.state with
    | nil => rw [hs] at h; cases h
    | cons a prev =>
      rw [hs] at h
      cases h
      rfl
  rw [if_neg h4] at h
  cases h
  rfl

theorem interpret_drawn (tr : Trig) (ls : Lsystem) (color : Nat) (s : List Char) :
    ∀ (t t1 : Turtle), interpret tr ls color s t = .ok t1 →
      t1.drawn.length = t.drawn.length + s.count 'F' := by
  induction s with
  | nil =>
    intro t t1 h
    simp only [interpret] at h
    cases h
    simp
  | cons c s ih =>
    intro t t1 h
    simp only [interpret] at h
    cases hc : interpretSymbol tr ls color c t with
    | error e => rw [hc] at h; cases h
    | ok t2 =>
      rw [hc] at h
      rw [ih t2 t1 h, interpretSymbol_drawn tr ls color c t t2 hc, List.count_cons]
      by_cases hF : c = 'F'
      · subst hF
        simp
        omega
      · have : ¬ (c == 'F') = true := by simpa using hF
        simp [hF, this]

theorem nextgenTimes_treeRules_six :
    nextgenTimes treeRules 6 "F".toList = .error .bufferOverflow := by
  obtain ⟨s, h1, h2, h3⟩ := nextgenTimes_treeRules_ok 5 (le_refl 5)
  rw [nextgenTimes_succ_right, h1]
  simp only
  rw [nextgen_eq_ite, if_neg]
  rw [(flatMap_treeRules_count s).2, h2]
  simp only [GEN_BYTES]
  norm_num

/-- C7, as stated, fails for `k = 6`: six applications of `nextgen` to the axiom `F` under
`F -> F[+F]F[-F]F` overrun the 10000-byte block (the outcome is the undefined behaviour
`bufferOverflow`), so there is no string to interpret and no interpretation that ends with
the turtle stack at depth 0. -/
theorem sixth_generation_is_not_interpreted :
    generate firstLsystem 6 = .error .bufferOverflow ∧
    ¬ ∃ s, generate firstLsystem 6 = .ok s ∧
        ∃ t1, interpret ⟨fun x _ _ => x, fun y len _ => y - len⟩ firstLsystem 2 s
            (initialTurtle firstLsystem) = .ok t1 ∧ t1.state = [] := by
  have hg : generate firstLsystem 6 = nextgenTimes treeRules 6 "F".toList := by
    unfold generate
    rw [if_pos (by decide)]
    rfl
  rw [hg, nextgenTimes_treeRules_six]
  refine ⟨rfl, ?_⟩
  rintro ⟨s, h, -⟩
  cases h

/-- C34, as stated, fails for `k = 6`: the sixth application of `nextgen` to the axiom `F`
under `F -> F[+F]F[-F]F` would have to build 39061 symbols in the 10000-byte block, so the
six applications produce no string at all (the outcome is the undefined behaviour
`bufferOverflow`) and there is no string with `5 ^ 6` occurrences of `F`. -/
theorem sixth_generation_has_no_string :
    generate firstLsystem 6 = .error .bufferOverflow ∧
    ¬ ∃ s, generate firstLsystem 6 = .ok s ∧ s.count 'F' = 5 ^ 6 ∧
      s.length = (5 ^ (6 + 1) - 3) / 2 := by
  have hg : generate firstLsystem 6 = nextgenTimes treeRules 6 "F".toList := by
    unfold generate
    rw [if_pos (by decide)]
    rfl
  rw [hg, nextgenTimes_treeRules_six]
  refine ⟨rfl, ?_⟩
  rintro ⟨s, h, -⟩
  cases h

/-- C34, amended. For every `k` from 0 to 5 (the generations that fit the 10000-byte block;
the program asks for 4), `k` applications of `nextgen` to the axiom `F` under the rule
`F -> F[+F]F[-F]F` return a string with exactly `5 ^ k` occurrences of `F` and total length
`(5 ^ (k + 1) - 3) / 2` (1, 11, 61, 311, 1561, 7811), and interpreting it from the turtle
of the start of an epoch makes `5 ^ k` calls of `drawLine`. -/
theorem tree_generation_size (tr : Trig) (color : Nat) (ls : Lsystem)
    (hax : ls.axm = "F".toList) (hrules : ls.rules = treeRules) (k : Nat) (hk : k ≤ 5) :
    ∃ s, generate ls k = .ok s ∧ nextgenTimes treeRules k "F".toList = .ok s ∧
      s.count 'F' = 5 ^ k ∧ s.length = (5 ^ (k + 1) - 3) / 2 ∧
      s.length = [1, 11, 61, 311, 1561, 7811].getD k 0 ∧
      ∃ t1, interpret tr ls color s (initialTurtle ls) = .ok t1 ∧
        t1.drawn.length = 5 ^ k := by
  obtain ⟨s, h1, h2, h3⟩ := nextgenTimes_treeRules_ok k hk
  have hgen : generate ls k = nextgenTimes treeRules k "F".toList := by
    unfold generate
    rw [hax, hrules, if_pos (by decide)]
  have hd : bracketDepth 0 s = some 0 := by
    rw [nextgenTimes_treeRules_depth k _ s 0 h1]
    decide
  obtain ⟨t1, extra1, ht, -, -⟩ :=
    interpret_stack tr ls color s 0 0 (initialTurtle ls) [] [] hd rfl rfl
  have hlen : s.length = (5 ^ (k + 1) - 3) / 2 := by omega
  refine ⟨s, by rw [hgen, h1], h1, h2, hlen, ?_, t1, ht, ?_⟩
  · rw [hlen]
    interval_cases k <;> rfl
  · rw [interpret_drawn tr ls color s _ t1 ht, h2]
    simp [initialTurtle]

theorem tree_generation_size_witness :
    (firstLsystem.axm = "F".toList ∧ firstLsystem.rules = treeRules ∧ 4 ≤ 5) ∧
    ∃ s, generate firstLsystem 4 = .ok s ∧ s.count 'F' = 5 ^ 4 ∧ s.length = 1561 :=
  ⟨⟨rfl, rfl, by decide⟩,
   (tree_generation_size ⟨fun x _ _ => x, fun y _ _ => y⟩ 2 firstLsystem rfl rfl 4
      (by decide)).elim
     (fun s h => ⟨s, h.1, h.2.2.1, h.2.2.2.2.1⟩)⟩

/-! ### Structure of a stage -/

theorem stage_count (L m : Nat) (hL : ∃ s, s < 10 ∧ L = 2 ^ s) (hm : m < L) :
    (NUM_SAMPLES - m + 2 * L - 1) / (2 * L) = NUM_SAMPLES / (2 * L) := by
  obtain ⟨s, hs, rfl⟩ := hL
  simp only [NUM_SAMPLES]
  interval_cases s <;> simp only [Nat.reducePow, Nat.reduceMul] at hm ⊢ <;> omega

theorem stage_pair_in_range (L m t : Nat) (hL : ∃ s, s < 10 ∧ L = 2 ^ s) (hm : m < L)
    (ht : t < NUM_SAMPLES / (2 * L)) : m + 2 * L * t + L < NUM_SAMPLES := by
  obtain ⟨s, hs, rfl⟩ := hL
  simp only [NUM_SAMPLES] at *
  interval_cases s <;> simp only [Nat.reducePow, Nat.reduceMul, Nat.reduceDiv] at hm ht ⊢ <;>
    omega

theorem untouched_only (L m t idx : Nat) (hL : ∃ s, s < 10 ∧ L = 2 ^ s) (hm : m < L)
    (h : Untouched L m t idx) (h1 : idx ≠ m + 2 * L * t) (h2 : idx ≠ m + 2 * L * t + L) :
    Untouched L m (t + 1) idx := by
  obtain ⟨s, hs, rfl⟩ := hL
  unfold Untouched at *
  interval_cases s <;> simp only [Nat.reducePow, Nat.reduceMul] at hm h h1 h2 ⊢ <;> omega

theorem untouched_done (L m idx : Nat) (hL : ∃ s, s < 10 ∧ L = 2 ^ s)
    (h : Untouched L m (NUM_SAMPLES / (2 * L)) idx) (hidx : idx < NUM_SAMPLES) :
    Untouched L (m + 1) 0 idx := by
  obtain ⟨s, hs, rfl⟩ := hL
  unfold Untouched at *
  simp only [NUM_SAMPLES] at *
  interval_cases s <;> simp only [Nat.reducePow, Nat.reduceMul, Nat.reduceDiv] at h ⊢ <;>
    omega

theorem untouched_none (L idx : Nat) (hL : 0 < L) : ¬ Untouched L L 0 idx := by
  unfold Untouched
  have := Nat.mod_lt idx hL
  omega

theorem untouched_all (L idx : Nat) : Untouched L 0 0 idx := by
  unfold Untouched
  by_cases h : 0 < idx % L
  · exact Or.inl h
  · exact Or.inr ⟨by omega, Nat.zero_le _⟩

theorem pair_first (L m t : Nat) (hL : ∃ s, s < 10 ∧ L = 2 ^ s) (hm : m < L) :
    (m + 2 * L * t) % (2 * L) < L ∧ (m + 2 * L * t) % L = m ∧
    pairStart L (m + 2 * L * t) = m + 2 * L * t := by
  obtain ⟨s, hs, rfl⟩ := hL
  unfold pairStart
  interval_cases s <;> simp only [Nat.reducePow, Nat.reduceMul] at hm ⊢ <;>
    (refine ⟨by omega, by omega, ?_⟩; rw [if_pos (by omega)])

theorem pair_second (L m t : Nat) (hL : ∃ s, s < 10 ∧ L = 2 ^ s) (hm : m < L) :
    ¬ (m + 2 * L * t + L) % (2 * L) < L ∧
    pairStart L (m + 2 * L * t + L) = m + 2 * L * t := by
  obtain ⟨s, hs, rfl⟩ := hL
  unfold pairStart
  interval_cases s <;> simp only [Nat.reducePow, Nat.reduceMul] at hm ⊢ <;>
    (refine ⟨by omega, ?_⟩; rw [if_neg (by omega)]; omega)



theorem butterfly_getD (wr wi : Int) (L i idx : Nat) (st : List Int × List Int) :
    (butterfly wr wi L st i).1.getD idx 0 =
      (if i = idx ∧ i < st.1.length then
        (butterflyValues wr wi (st.1.getD i 0, st.2.getD i 0)
          (st.1.getD (i + L) 0, st.2.getD (i + L) 0)).1.1
      else if i + L = idx ∧ i + L < st.1.length then
        (butterflyValues wr wi (st.1.getD i 0, st.2.getD i 0)
          (st.1.getD (i + L) 0, st.2.getD (i + L) 0)).2.1
      else st.1.getD idx 0) ∧
    (butterfly wr wi L st i).2.getD idx 0 =
      (if i = idx ∧ i < st.2.length then
        (butterflyValues wr wi (st.1.getD i 0, st.2.getD i 0)
          (st.1.getD (i + L) 0, st.2.getD (i + L) 0)).1.2
      else if i + L = idx ∧ i + L < st.2.length then
        (butterflyValues wr wi (st.1.getD i 0, st.2.getD i 0)
          (st.1.getD (i + L) 0, st.2.getD (i + L) 0)).2.2
      else st.2.getD idx 0) := by
  refine ⟨?_, ?_⟩ <;> simp only [butterfly, getD_set_int, List.length_set]

theorem butterfly_progress (Sinewave : List Int) (L : Nat) (k : Int)
    (st0 cur : List Int × List Int) (m t : Nat) (hL : ∃ s, s < 10 ∧ L = 2 ^ s) (hm : m < L)
    (ht : t < NUM_SAMPLES / (2 * L))
    (h : StageProgress Sinewave L k st0 (Untouched L m t) cur) :
    StageProgress Sinewave L k st0 (Untouched L m (t + 1))
      (butterfly (twiddle Sinewave k m).1 (twiddle Sinewave k m).2 L cur (m + 2 * L * t)) := by
  obtain ⟨⟨l1, l2⟩, hcur⟩ := h
  have hj := stage_pair_in_range L m t hL hm ht
  have hi : m + 2 * L * t < NUM_SAMPLES := by omega
  obtain ⟨n1, n2⟩ := butterfly_length (twiddle Sinewave k m).1 (twiddle Sinewave k m).2 L cur
    (m + 2 * L * t)
  have ei := (hcur (m + 2 * L * t)).1 (untouched_first L m t hm)
  have ej := (hcur (m + 2 * L * t + L)).1 (untouched_second L m t hm)
  obtain ⟨f1, f2, f3⟩ := pair_first L m t hL hm
  obtain ⟨s1, s2⟩ := pair_second L m t hL hm
  refine ⟨⟨n1.trans l1, n2.trans l2⟩, fun idx => ?_⟩
  obtain ⟨g1, g2⟩ := butterfly_getD (twiddle Sinewave k m).1 (twiddle Sinewave k m).2 L
    (m + 2 * L * t) idx cur
  rw [g1, g2, l1, l2, ei.1, ei.2, ej.1, ej.2]
  by_cases c1 : m + 2 * L * t = idx
  · subst c1
    rw [if_pos ⟨rfl, hi⟩, if_pos ⟨rfl, hi⟩]
    refine ⟨fun hu => ?_, fun _ _ => ?_⟩
    · exact absurd rfl (untouched_succ L m t _ hm hu).2.1
    · simp only [stageEntry, f3, f2, if_pos f1]
  · have e1 : ¬ (m + 2 * L * t = idx ∧ m + 2 * L * t < NUM_SAMPLES) := fun hh => c1 hh.1
    rw [if_neg e1, if_neg e1]
    by_cases c2 : m + 2 * L * t + L = idx
    · subst c2
      rw [if_pos ⟨rfl, hj⟩, if_pos ⟨rfl, hj⟩]
      refine ⟨fun hu => ?_, fun _ _ => ?_⟩
      · exact absurd rfl (untouched_succ L m t _ hm hu).2.2
      · simp only [stageEntry, s2, f2, if_neg s1]
    · have e2 : ¬ (m + 2 * L * t + L = idx ∧ m + 2 * L * t + L < NUM_SAMPLES) :=
        fun hh => c2 hh.1
      rw [if_neg e2, if_neg e2]
      refine ⟨fun hu => ?_, fun hu hlt => ?_⟩
      · exact (hcur idx).1 (untouched_succ L m t idx hm hu).1
      · apply (hcur idx).2 _ hlt
        intro hu'
        exact hu (untouched_only L m t idx hL hm hu' (fun hh => c1 hh.symm)
          (fun hh => c2 hh.symm))

theorem butterflies_progress (Sinewave : List Int) (L : Nat) (k : Int)
    (st0 cur : List Int × List Int) (m : Nat) (hL : ∃ s, s < 10 ∧ L = 2 ^ s) (hm : m < L)
    (h : StageProgress Sinewave L k st0 (Untouched L m 0) cur) (t : Nat)
    (ht : t ≤ NUM_SAMPLES / (2 * L)) :
    StageProgress Sinewave L k st0 (Untouched L m t)
      ((List.range' m t (2 * L)).foldl
        (butterfly (twiddle Sinewave k m).1 (twiddle Sinewave k m).2 L) cur) := by
  induction t with
  | zero => simpa using h
  | succ t ih =>
    rw [List.range'_concat, List.foldl_append, List.foldl_cons, List.foldl_nil]
    exact butterfly_progress Sinewave L k st0 _ m t hL hm (by omega) (ih (by omega))

theorem elementLoop_progress (Sinewave : List Int) (L : Nat) (k : Int)
    (st0 : List Int × List Int) (hL : ∃ s, s < 10 ∧ L = 2 ^ s)
    (h : StageProgress Sinewave L k st0 (Untouched L 0 0) st0) (n : Nat) (hn : n ≤ L) :
    StageProgress Sinewave L k st0 (Untouched L n 0)
      ((List.range n).foldl
        (fun st m =>
          butterflyLoop (twiddle Sinewave k m).1 (twiddle Sinewave k m).2 L (L <<< 1) m st)
        st0) := by
  induction n with
  | zero => simpa using h
  | succ n ih =>
    rw [List.range_succ, List.foldl_append, List.foldl_cons, List.foldl_nil]
    have ih := ih (by omega)
    unfold butterflyLoop
    rw [show L <<< 1 = 2 * L by rw [Nat.shiftLeft_eq]; ring, stage_count L n hL (by omega)]
    have hp := butterflies_progress Sinewave L k st0 _ n hL (by omega) ih
      (NUM_SAMPLES / (2 * L)) (le_refl _)
    refine ⟨hp.1, fun idx => ⟨fun hu => ?_, fun hu hlt => ?_⟩⟩
    · exact (hp.2 idx).1 (untouched_next L n _ idx hu)
    · apply (hp.2 idx).2 _ hlt
      intro hu'
      exact hu (untouched_done L n idx hL hu' hlt)

theorem stage_pointwise (Sinewave : List Int) (L : Nat) (k : Int)
    (st : List Int × List Int) (hL : ∃ s, s < 10 ∧ L = 2 ^ s)
    (h1 : st.1.length = NUM_SAMPLES) (h2 : st.2.length = NUM_SAMPLES) :
    ((elementLoop Sinewave L k st).1.length = NUM_SAMPLES ∧
      (elementLoop Sinewave L k st).2.length = NUM_SAMPLES) ∧
    ∀ idx, idx < NUM_SAMPLES →
      ((elementLoop Sinewave L k st).1.getD idx 0, (elementLoop Sinewave L k st).2.getD idx 0)
        = stageEntry Sinewave L k st idx := by
  have h0 : StageProgress Sinewave L k st (Untouched L 0 0) st :=
    ⟨⟨h1, h2⟩, fun idx => ⟨fun _ => ⟨rfl, rfl⟩, fun hu => absurd (untouched_all L idx) hu⟩⟩
  have h := elementLoop_progress Sinewave L k st hL h0 L (le_refl _)
  have hpos : 0 < L := by
    obtain ⟨s, -, rfl⟩ := hL
    exact Nat.two_pow_pos s
  exact ⟨h.1, fun idx hidx => (h.2 idx).2 (untouched_none L idx hpos) hidx⟩


/-! ### The butterflies of a stage -/

theorem foldl_flatMap_pairs {σ : Type} (F : σ → Nat × Nat → σ) (g : Nat → List Nat)
    (l : List Nat) (st : σ) :
    (l.flatMap (fun m => (g m).map (fun i => (m, i)))).foldl F st
      = l.foldl (fun st m => (g m).foldl (fun st i => F st (m, i)) st) st := by
  induction l generalizing st with
  | nil => rfl
  | cons m l ih =>
    rw [List.flatMap_cons, List.foldl_append, List.foldl_cons, ih, List.foldl_map]

theorem elementLoop_eq_foldl (Sinewave : List Int) (L : Nat) (k : Int)
    (st : List Int × List Int) :
    elementLoop Sinewave L k st
      = (butterflyIndexes L).foldl
          (fun st p => butterfly (twiddle Sinewave k p.1).1 (twiddle Sinewave k p.1).2 L st p.2)
          st := by
  unfold elementLoop butterflyIndexes butterflyLoop
  rw [foldl_flatMap_pairs]

theorem mem_butterflyIndexes (L : Nat) (hL : ∃ s, s < 10 ∧ L = 2 ^ s) (p : Nat × Nat) :
    p ∈ butterflyIndexes L ↔ p.1 < L ∧ p.2 < NUM_SAMPLES ∧ p.2 % (2 * L) = p.1 := by
  unfold butterflyIndexes
  rw [show L <<< 1 = 2 * L by rw [Nat.shiftLeft_eq]; ring]
  simp only [List.mem_flatMap, List.mem_range, List.mem_map, List.mem_range']
  constructor
  · rintro ⟨m, hm, i, ⟨t, ht, rfl⟩, rfl⟩
    rw [stage_count L m hL hm] at ht
    obtain ⟨s, hs, rfl⟩ := hL
    simp only [NUM_SAMPLES] at ht ⊢
    interval_cases s <;> simp only [Nat.reducePow, Nat.reduceMul, Nat.reduceDiv] at hm ht ⊢ <;>
      omega
  · rintro ⟨h1, h2, h3⟩
    refine ⟨p.1, h1, p.2, ⟨p.2 / (2 * L), ?_, ?_⟩, rfl⟩
    · rw [stage_count L p.1 hL h1]
      obtain ⟨s, hs, rfl⟩ := hL
      simp only [NUM_SAMPLES] at h2 ⊢
      interval_cases s <;> simp only [Nat.reducePow, Nat.reduceMul, Nat.reduceDiv] at h1 h2 h3 ⊢ <;>
        omega
    · rw [← h3]
      exact (Nat.mod_add_div _ _).symm

theorem length_flatMap_const {α β : Type} (f : α → List β) (q : Nat) (l : List α)
    (h : ∀ a ∈ l, (f a).length = q) : (l.flatMap f).length = l.length * q := by
  induction l with
  | nil => simp
  | cons a l ih =>
    rw [List.flatMap_cons, List.length_append, h a (List.mem_cons_self _ _),
      ih (fun b hb => h b (List.mem_cons_of_mem _ hb)), List.length_cons]
    ring

theorem length_butterflyIndexes (L : Nat) (hL : ∃ s, s < 10 ∧ L = 2 ^ s) :
    2 * (butterflyIndexes L).length = NUM_SAMPLES := by
  unfold butterflyIndexes
  rw [show L <<< 1 = 2 * L by rw [Nat.shiftLeft_eq]; ring]
  rw [length_flatMap_const _ (NUM_SAMPLES / (2 * L)), List.length_range]
  · obtain ⟨s, hs, rfl⟩ := hL
    simp only [NUM_SAMPLES]
    interval_cases s <;> rfl
  · intro m hm
    rw [List.length_map, List.length_range', stage_count L m hL (List.mem_range.mp hm)]

theorem butterfly_pairs_perm (L : Nat) (hL : ∃ s, s < 10 ∧ L = 2 ^ s) :
    List.Perm ((butterflyIndexes L).map Prod.snd ++
        (butterflyIndexes L).map (fun p => p.2 + L))
      (List.range NUM_SAMPLES) := by
  apply List.Perm.symm
  apply List.Subperm.perm_of_length_le
  · apply List.subperm_of_subset (List.nodup_range _)
    intro x hx
    have hx' : x < NUM_SAMPLES := List.mem_range.mp hx
    rw [List.mem_append, List.mem_map, List.mem_map]
    by_cases h : x % (2 * L) < L
    · left
      exact ⟨(x % (2 * L), x), (mem_butterflyIndexes L hL _).2 ⟨h, hx', rfl⟩, rfl⟩
    · right
      refine ⟨(x % (2 * L) - L, x - L), (mem_butterflyIndexes L hL _).2 ?_, ?_⟩
      · obtain ⟨s, hs, rfl⟩ := hL
        simp only [NUM_SAMPLES] at hx' ⊢
        interval_cases s <;> simp only [Nat.reducePow, Nat.reduceMul] at h ⊢ <;> omega
      · obtain ⟨s, hs, rfl⟩ := hL
        interval_cases s <;> simp only [Nat.reducePow, Nat.reduceMul] at h ⊢ <;> omega
  · rw [List.length_append, List.length_map, List.length_map, List.length_range]
    have := length_butterflyIndexes L hL
    omega

theorem danielsonLanczos_none (Sinewave : List Int) :
    ∀ (fuel n : Nat) (st : FFTState), fuel < n →
      (∀ s, s < n → ((danielsonLanczosStage Sinewave)^[s] st).L < NUM_SAMPLES) →
      danielsonLanczos Sinewave fuel st = none := by
  intro fuel
  induction fuel with
  | zero =>
    intro n st hn h
    have h0 : st.L < NUM_SAMPLES := h 0 hn
    rw [danielsonLanczos, if_pos h0]
  | succ fuel ih =>
    intro n st hn h
    have h0 : st.L < NUM_SAMPLES := h 0 (by omega)
    rw [danielsonLanczos, if_pos h0]
    apply ih (n - 1) _ (by omega)
    intro s hs
    have := h (s + 1) (by omega)
    rwa [Function.iterate_succ_apply] at this

theorem danielsonLanczos_short (Sinewave fr fi : List Int) (fuel : Nat) (hfuel : fuel < 10) :
    danielsonLanczos Sinewave fuel (fftStart fr fi) = none := by
  apply danielsonLanczos_none Sinewave fuel 10 _ hfuel
  intro s hs
  rw [(stage_iterate_control Sinewave (fftStart fr fi) s).1]
  simp only [fftStart, NUM_SAMPLES]
  interval_cases s <;> norm_num

/-- C31. The combination loop of `FFTfix` runs exactly `log2(N) = 10` stages: with fuel for
ten passes it returns the state after the tenth, with less it has not returned; the stage
number `s` has `L = 2 ^ s` (1, 2, 4, ..., 512), for which `L < N` holds, and after the tenth
`L = N = 1024` and the loop stops. The stage of length `L = 2 ^ s` is the fold of the
butterfly over the index pairs of `butterflyIndexes L`; for every one of them `i` and
`i + L` lie in `[0, N)`, and the list of all first and second indexes is a permutation of
`0, ..., N - 1`: every index belongs to exactly one pair, so each element is read and
rewritten once per stage. -/
theorem combination_loop_structure (Sinewave fr fi : List Int) (s : Nat)
    (hs : s < LOG2_NUM_SAMPLES) :
    ((∀ fuel, 10 ≤ fuel → danielsonLanczos Sinewave fuel (fftStart fr fi)
        = some ((danielsonLanczosStage Sinewave)^[10] (fftStart fr fi))) ∧
      (∀ fuel, fuel < 10 → danielsonLanczos Sinewave fuel (fftStart fr fi) = none)) ∧
    (((danielsonLanczosStage Sinewave)^[s] (fftStart fr fi)).L = 2 ^ s ∧
      ((danielsonLanczosStage Sinewave)^[s] (fftStart fr fi)).L < NUM_SAMPLES ∧
      ((danielsonLanczosStage Sinewave)^[10] (fftStart fr fi)).L = NUM_SAMPLES) ∧
    (∀ (k : Int) (st : List Int × List Int),
      elementLoop Sinewave (2 ^ s) k st
        = (butterflyIndexes (2 ^ s)).foldl
            (fun st p =>
              butterfly (twiddle Sinewave k p.1).1 (twiddle Sinewave k p.1).2 (2 ^ s) st p.2)
            st) ∧
    (∀ p, p ∈ butterflyIndexes (2 ^ s) → p.2 < NUM_SAMPLES ∧ p.2 + 2 ^ s < NUM_SAMPLES) ∧
    List.Perm ((butterflyIndexes (2 ^ s)).map Prod.snd ++
        (butterflyIndexes (2 ^ s)).map (fun p => p.2 + 2 ^ s))
      (List.range NUM_SAMPLES) := by
  have hs' : s < 10 := hs
  have hL : ∃ s', s' < 10 ∧ 2 ^ s = 2 ^ s' := ⟨s, hs', rfl⟩
  have hLs : ((danielsonLanczosStage Sinewave)^[s] (fftStart fr fi)).L = 2 ^ s := by
    rw [(stage_iterate_control Sinewave (fftStart fr fi) s).1]
    simp [fftStart]
  refine ⟨⟨fun fuel h => danielsonLanczos_ten Sinewave fr fi fuel h,
    fun fuel h => danielsonLanczos_short Sinewave fr fi fuel h⟩, ⟨hLs, ?_, ?_⟩,
    fun k st => elementLoop_eq_foldl Sinewave (2 ^ s) k st, ?_,
    butterfly_pairs_perm (2 ^ s) hL⟩
  · rw [hLs]
    simp only [NUM_SAMPLES]
    interval_cases s <;> norm_num
  · rw [(stage_iterate_control Sinewave (fftStart fr fi) 10).1]
    simp [fftStart, NUM_SAMPLES]
  · intro p hp
    obtain ⟨h1, h2, h3⟩ := (mem_butterflyIndexes (2 ^ s) hL p).1 hp
    refine ⟨h2, ?_⟩
    simp only [NUM_SAMPLES] at h2 ⊢
    interval_cases s <;> simp only [Nat.reducePow, Nat.reduceMul] at h1 h2 h3 ⊢ <;> omega

theorem combination_loop_structure_witness :
    3 < LOG2_NUM_SAMPLES ∧
    ((danielsonLanczosStage [])^[3] (fftStart [] [])).L = 2 ^ 3 ∧
    List.Perm ((butterflyIndexes (2 ^ 3)).map Prod.snd ++
        (butterflyIndexes (2 ^ 3)).map (fun p => p.2 + 2 ^ 3))
      (List.range NUM_SAMPLES) :=
  ⟨by decide, (combination_loop_structure [] [] [] 3 (by decide)).2.1.1,
    (combination_loop_structure [] [] [] 3 (by decide)).2.2.2.2⟩

/-! ### No overflow in the transform -/

theorem stepsSafe_append {σ α : Type} (P : σ → α → Prop) (f : σ → α → σ) (l1 l2 : List α)
    (s : σ) :
    StepsSafe P f s (l1 ++ l2) ↔ StepsSafe P f s l1 ∧ StepsSafe P f (l1.foldl f s) l2 := by
  induction l1 generalizing s with
  | nil => simp [StepsSafe]
  | cons a l ih =>
    rw [List.cons_append]
    simp only [StepsSafe, List.foldl_cons]
    rw [ih, and_assoc]

theorem halfprod_bound (w y B : Int) (hw1 : -16384 ≤ w) (hw2 : w ≤ 16384)
    (hy1 : -B ≤ y) (hy2 : y ≤ B) :
    -(B / 2 + 1) ≤ (w * y) >>> (15 : Nat) ∧ (w * y) >>> (15 : Nat) ≤ B / 2 := by
  have hp1 : -(16384 * B) ≤ w * y := by
    nlinarith [mul_nonneg (by linarith : (0:Int) ≤ 16384 - w) (by linarith : (0:Int) ≤ B + y),
      mul_nonneg (by linarith : (0:Int) ≤ w + 16384) (by linarith : (0:Int) ≤ B - y)]
  have hp2 : w * y ≤ 16384 * B := by
    nlinarith [mul_nonneg (by linarith : (0:Int) ≤ 16384 - w) (by linarith : (0:Int) ≤ B - y),
      mul_nonneg (by linarith : (0:Int) ≤ w + 16384) (by linarith : (0:Int) ≤ B + y)]
  generalize w * y = p at hp1 hp2
  rw [Int.shiftRight_eq_div_pow]
  norm_num
  omega

theorem butterfly_in_range (wr wi B : Int) (xi xj : Int × Int)
    (hwr : -16384 ≤ wr ∧ wr ≤ 16384) (hwi : -16384 ≤ wi ∧ wi ≤ 16384)
    (hB : B ≤ 1073741824)
    (hi1 : -B ≤ xi.1 ∧ xi.1 ≤ B) (hi2 : -B ≤ xi.2 ∧ xi.2 ≤ B)
    (hj1 : -B ≤ xj.1 ∧ xj.1 ≤ B) (hj2 : -B ≤ xj.2 ∧ xj.2 ≤ B) :
    ButterflyInRange wr wi xi xj := by
  have a1 := halfprod_bound wr xj.1 B hwr.1 hwr.2 hj1.1 hj1.2
  have a2 := halfprod_bound wi xj.2 B hwi.1 hwi.2 hj2.1 hj2.2
  have a3 := halfprod_bound wr xj.2 B hwr.1 hwr.2 hj2.1 hj2.2
  have a4 := halfprod_bound wi xj.1 B hwi.1 hwi.2 hj1.1 hj1.2
  have q1 := shiftRight_one_bound xi.1 B hi1.1 hi1.2
  have q2 := shiftRight_one_bound xi.2 B hi2.1 hi2.2
  refine ⟨by unfold IsInt32; omega, ?_⟩
  simp only [butterflyExact]
  generalize (wr * xj.1) >>> (15 : Nat) = m1 at a1 ⊢
  generalize (wi * xj.2) >>> (15 : Nat) = m2 at a2 ⊢
  generalize (wr * xj.2) >>> (15 : Nat) = m3 at a3 ⊢
  generalize (wi * xj.1) >>> (15 : Nat) = m4 at a4 ⊢
  generalize xi.1 >>> (1 : Nat) = qr at q1 ⊢
  generalize xi.2 >>> (1 : Nat) = qi at q2 ⊢
  intro v hv
  simp only [List.mem_cons, List.mem_singleton, List.not_mem_nil, or_false] at hv
  unfold IsInt32
  rcases hv with rfl | rfl | rfl | rfl | rfl | rfl | rfl | rfl | rfl | rfl | rfl | rfl <;> omega

theorem butterflyValues_exact (wr wi : Int) (xi xj : Int × Int)
    (h : ButterflyInRange wr wi xi xj) :
    butterflyValues wr wi xi xj =
      ((xi.1 >>> (1 : Nat) + ((wr * xj.1) >>> (15 : Nat) - (wi * xj.2) >>> (15 : Nat)),
        xi.2 >>> (1 : Nat) + ((wr * xj.2) >>> (15 : Nat) + (wi * xj.1) >>> (15 : Nat))),
       (xi.1 >>> (1 : Nat) - ((wr * xj.1) >>> (15 : Nat) - (wi * xj.2) >>> (15 : Nat)),
        xi.2 >>> (1 : Nat) - ((wr * xj.2) >>> (15 : Nat) + (wi * xj.1) >>> (15 : Nat)))) := by
  obtain ⟨⟨o1, o2, o3, o4, o5, o6⟩, hv⟩ := h
  simp only [butterflyExact, List.mem_cons, List.mem_singleton, List.not_mem_nil, or_false,
    forall_eq_or_imp, forall_eq] at hv
  obtain ⟨v1, v2, v3, v4, v5, v6, v7, v8, v9, v10, v11, v12⟩ := hv
  have e : ∀ a b, IsInt32 a → IsInt32 b → IsInt32 ((a * b) >>> (15 : Nat)) →
      multfix15 a b = (a * b) >>> (15 : Nat) := by
    intro a b ha hb hab
    rw [multfix15_eq a b ha hb, Int.shiftRight_eq_div_pow] at *
    exact toInt32_of_isInt32 _ hab
  simp only [butterflyValues]
  rw [e wr xj.1 o1 o5 v1, e wi xj.2 o2 o6 v2, e wr xj.2 o1 o6 v3, e wi xj.1 o2 o5 v4,
    toInt32_of_isInt32 _ v5, toInt32_of_isInt32 _ v6, toInt32_of_isInt32 _ v9,
    toInt32_of_isInt32 _ v10, toInt32_of_isInt32 _ v11, toInt32_of_isInt32 _ v12]

theorem butterflies_safe (wr wi B : Int) (L m : Nat) (hm : m < L)
    (hwr : -16384 ≤ wr ∧ wr ≤ 16384) (hwi : -16384 ≤ wi ∧ wi ≤ 16384)
    (hB : B ≤ 1073741824) (st : List Int × List Int)
    (hinv : StageInv B (Untouched L m 0) st) (t : Nat) :
    StepsSafe
      (fun st i => ButterflyInRange wr wi (st.1.getD i 0, st.2.getD i 0)
        (st.1.getD (i + L) 0, st.2.getD (i + L) 0))
      (butterfly wr wi L) st (List.range' m t (2 * L)) := by
  induction t with
  | zero => simp [StepsSafe]
  | succ t ih =>
    rw [List.range'_concat, stepsSafe_append]
    refine ⟨ih, ?_, trivial⟩
    have h := butterflies_inv wr wi B L m hm hwr hwi hB st hinv t
    have hi := h.2 _ (untouched_first L m t hm)
    have hj := h.2 _ (untouched_second L m t hm)
    exact butterfly_in_range wr wi B _ _ hwr hwi hB hi.1 hi.2 hj.1 hj.2

theorem elementLoop_safe (Sinewave : List Int) (B : Int) (L : Nat) (k : Int)
    (hS : WithinBound 32768 Sinewave) (hB : B ≤ 1073741824) (st : List Int × List Int)
    (hinv : StageInv B (Untouched L 0 0) st) (n : Nat) (hn : n ≤ L) :
    StepsSafe
      (fun st m => IsInt32 (-(Sinewave.getD (sineIndex k m) 0)) ∧
        butterflyLoopSafe (twiddle Sinewave k m).1 (twiddle Sinewave k m).2 L (L <<< 1) m st)
      (fun st m =>
        butterflyLoop (twiddle Sinewave k m).1 (twiddle Sinewave k m).2 L (L <<< 1) m st)
      st (List.range n) := by
  induction n with
  | zero => simp [StepsSafe]
  | succ n ih =>
    rw [List.range_succ, stepsSafe_append]
    refine ⟨ih (by omega), ⟨?_, ?_⟩, trivial⟩
    · have := hS (sineIndex k n)
      unfold IsInt32
      omega
    · have h := elementLoop_inv Sinewave B L k hS hB st hinv n (by omega)
      obtain ⟨hw1, hw2⟩ := twiddle_bound Sinewave k n hS
      unfold butterflyLoopSafe
      rw [show L <<< 1 = 2 * L by rw [Nat.shiftLeft_eq]; ring]
      exact butterflies_safe _ _ B L n (by omega) hw1 hw2 hB _ h _

theorem stage_safe (Sinewave : List Int) (B : Int) (s : FFTState)
    (hS : WithinBound 32768 Sinewave) (hB0 : 0 ≤ B) (hB : B ≤ 1073741824)
    (hr : WithinBound B s.fr) (hi : WithinBound B s.fi) : stageSafe Sinewave s := by
  have h0 : StageInv B (Untouched s.L 0 0) (s.fr, s.fi) := by
    refine ⟨⟨fun i => ?_, fun i => ?_⟩, fun idx _ => ⟨hr idx, hi idx⟩⟩
    · have := hr i
      show -stageBound B ≤ s.fr.getD i 0 ∧ s.fr.getD i 0 ≤ stageBound B
      unfold stageBound
      omega
    · have := hi i
      show -stageBound B ≤ s.fi.getD i 0 ∧ s.fi.getD i 0 ≤ stageBound B
      unfold stageBound
      omega
  exact elementLoop_safe Sinewave B s.L s.k hS hB (s.fr, s.fi) h0 s.L (le_refl _)

theorem stages_safe_start (Sinewave fr fi : List Int) (hS : WithinBound 32768 Sinewave)
    (hr : WithinBound 8355840 fr) (hi : WithinBound 8355840 fi) (s : Nat) (hs : s < 10) :
    stageSafe Sinewave ((danielsonLanczosStage Sinewave)^[s] (fftStart fr fi)) := by
  obtain ⟨h1, h2, -, -⟩ := stages_bound Sinewave (fftStart fr fi) hS hr hi s (by omega)
  obtain ⟨b1, b2⟩ := stageBound_iterate_range s (by omega)
  exact stage_safe Sinewave _ _ hS b1 (by omega) h1 h2


theorem getD_replicate_int (n i : Nat) (a : Int) :
    (List.replicate n a).getD i 0 = if i < n then a else 0 := by
  rw [List.getD_eq_getElem?_getD, List.getElem?_replicate]
  split <;> rfl


theorem windowSamples_getD (sample_array window : List Int)
    (hW : ∀ i, 0 ≤ window.getD i 0 ∧ window.getD i 0 ≤ 32768)
    (hA : ∀ i, 0 ≤ sample_array.getD i 0 ∧ sample_array.getD i 0 ≤ 255) (i : Nat)
    (hi : i < NUM_SAMPLES) :
    (windowSamples sample_array window).1.getD i 0
      = sample_array.getD i 0 * window.getD i 0 ∧
    (windowSamples sample_array window).2.getD i 0 = 0 := by
  simp only [windowSamples]
  rw [getD_map_range, getD_replicate_zero, if_pos hi]
  refine ⟨?_, rfl⟩
  have h1 := hW i
  have h2 := hA i
  generalize window.getD i 0 = w at h1
  generalize sample_array.getD i 0 = a at h2
  unfold int2fix15
  rw [toInt32_of_isInt32 _ (by unfold IsInt32; omega),
    multfix15_eq _ _ (by unfold IsInt32; omega) (by unfold IsInt32; omega)]
  have e : a * 32768 * w / 32768 = a * w := by
    rw [mul_assoc, mul_comm 32768 w, ← mul_assoc]
    exact Int.mul_ediv_cancel _ (by norm_num)
  rw [e]
  have p1 : 0 ≤ a * w := mul_nonneg h2.1 h1.1
  have p2 : a * w ≤ 255 * 32768 := mul_le_mul h2.2 h1.2 h1.1 (by norm_num)
  exact toInt32_of_isInt32 _ (by unfold IsInt32; omega)

theorem products_within_bound (fr : List Int)
    (hfr : ∀ i, ∃ a w, (0 ≤ a ∧ a ≤ 255) ∧ (0 ≤ w ∧ w ≤ 32768) ∧ fr.getD i 0 = a * w) :
    WithinBound 8355840 fr := by
  intro i
  obtain ⟨a, w, ha, hw, e⟩ := hfr i
  rw [e]
  have p1 : 0 ≤ a * w := mul_nonneg ha.1 hw.1
  have p2 : a * w ≤ 255 * 32768 := mul_le_mul ha.2 hw.2 hw.1 (by norm_num)
  omega

theorem zeros_within_bound (fi : List Int) (hfi : ∀ i, fi.getD i 0 = 0) :
    WithinBound 8355840 fi := by
  intro i
  rw [hfi i]
  omega

theorem FFTfix_output_int32 (Sinewave fr fi : List Int) (fuel : Nat) (hfuel : 10 ≤ fuel)
    (hS : WithinBound 32768 Sinewave)
    (hr : fr.length = NUM_SAMPLES) (hi : fi.length = NUM_SAMPLES)
    (br : WithinBound 8355840 fr) (bi : WithinBound 8355840 fi) :
    ∃ out, FFTfix Sinewave fr fi fuel = some out ∧
      ∀ i, IsInt32 (out.1.getD i 0) ∧ IsInt32 (out.2.getD i 0) := by
  obtain ⟨out, h, -, -, b1, b2⟩ := FFTfix_bound Sinewave fr fi fuel hfuel hS hr hi br bi
  refine ⟨out, h, fun i => ?_⟩
  have h1 := b1 i
  have h2 := b2 i
  unfold IsInt32
  omega

/-- C32. `FFTfix` does not overflow on the inputs the spectral task feeds it. When every
real input is the product of an 8-bit sample (0 to 255) and a window value in `[0, 2 ^ 15]`,
every imaginary input is 0 and every sine-table entry lies in `[-2 ^ 15, 2 ^ 15]`, then in
each of the ten stages every negation `-Sinewave[j]` and every butterfly is in range: its
operands, the four products narrowed by `multfix15`, `tr`, `ti`, `qr`, `qi` and the four
stored values are 32-bit values when computed in unbounded integers, so the butterfly of
the program computes exactly those; the transform returns and every final entry is a
32-bit value. The arrays that the windowing loop builds are such inputs. -/
theorem FFTfix_does_not_overflow (Sinewave fr fi : List Int) (fuel : Nat)
    (hfuel : LOG2_NUM_SAMPLES ≤ fuel)
    (hS : ∀ i, -32768 ≤ Sinewave.getD i 0 ∧ Sinewave.getD i 0 ≤ 32768)
    (hlen : fr.length = NUM_SAMPLES ∧ fi.length = NUM_SAMPLES)
    (hfr : ∀ i, ∃ a w, (0 ≤ a ∧ a ≤ 255) ∧ (0 ≤ w ∧ w ≤ 32768) ∧ fr.getD i 0 = a * w)
    (hfi : ∀ i, fi.getD i 0 = 0) :
    (∀ s, s < 10 →
      stageSafe Sinewave
        ((danielsonLanczosStage Sinewave)^[s]
          (fftStart (bitReversal fr fi).1 (bitReversal fr fi).2))) ∧
    (∃ out, FFTfix Sinewave fr fi fuel = some out ∧
      ∀ i, IsInt32 (out.1.getD i 0) ∧ IsInt32 (out.2.getD i 0)) ∧
    (∀ (wr wi : Int) (xi xj : Int × Int), ButterflyInRange wr wi xi xj →
      butterflyValues wr wi xi xj =
        ((xi.1 >>> (1 : Nat) + ((wr * xj.1) >>> (15 : Nat) - (wi * xj.2) >>> (15 : Nat)),
          xi.2 >>> (1 : Nat) + ((wr * xj.2) >>> (15 : Nat) + (wi * xj.1) >>> (15 : Nat))),
         (xi.1 >>> (1 : Nat) - ((wr * xj.1) >>> (15 : Nat) - (wi * xj.2) >>> (15 : Nat)),
          xi.2 >>> (1 : Nat) - ((wr * xj.2) >>> (15 : Nat) + (wi * xj.1) >>> (15 : Nat))))) ∧
    (∀ (sample_array window : List Int),
      (∀ i, 0 ≤ window.getD i 0 ∧ window.getD i 0 ≤ 32768) →
      (∀ i, 0 ≤ sample_array.getD i 0 ∧ sample_array.getD i 0 ≤ 255) →
      ∀ i, i < NUM_SAMPLES →
        (windowSamples sample_array window).1.getD i 0
          = sample_array.getD i 0 * window.getD i 0 ∧
        (windowSamples sample_array window).2.getD i 0 = 0) := by
  have br := products_within_bound fr hfr
  have bi := zeros_within_bound fi hfi
  have hb := bitReversal_bound 8355840 (by norm_num) fr fi hlen.1 hlen.2 br bi
  exact ⟨fun s hs => stages_safe_start Sinewave (bitReversal fr fi).1 (bitReversal fr fi).2
      hS hb.1 hb.2.1 s hs,
    FFTfix_output_int32 Sinewave fr fi fuel hfuel hS hlen.1 hlen.2 br bi,
    butterflyValues_exact,
    fun sample_array window hW hA i hi => windowSamples_getD sample_array window hW hA i hi⟩

theorem FFTfix_does_not_overflow_witness :
    (LOG2_NUM_SAMPLES ≤ 10 ∧
      (∀ i, -32768 ≤ (List.replicate 1024 (-32768 : Int)).getD i 0 ∧
        (List.replicate 1024 (-32768 : Int)).getD i 0 ≤ 32768) ∧
      ((List.replicate 1024 (8355840 : Int)).length = NUM_SAMPLES ∧
        (List.replicate 1024 (0 : Int)).length = NUM_SAMPLES) ∧
      (∀ i, ∃ a w, (0 ≤ a ∧ a ≤ 255) ∧ (0 ≤ w ∧ w ≤ 32768) ∧
        (List.replicate 1024 (8355840 : Int)).getD i 0 = a * w) ∧
      (∀ i, (List.replicate 1024 (0 : Int)).getD i 0 = 0)) ∧
    ∃ out, FFTfix (List.replicate 1024 (-32768)) (List.replicate 1024 8355840)
        (List.replicate 1024 0) 10 = some out ∧
      ∀ i, IsInt32 (out.1.getD i 0) ∧ IsInt32 (out.2.getD i 0) :=
  have h1 : ∀ i, -32768 ≤ (List.replicate 1024 (-32768 : Int)).getD i 0 ∧
      (List.replicate 1024 (-32768 : Int)).getD i 0 ≤ 32768 := fun i => by
    rw [getD_replicate_int]
    split <;> decide
  have h2 : (List.replicate 1024 (8355840 : Int)).length = NUM_SAMPLES ∧
      (List.replicate 1024 (0 : Int)).length = NUM_SAMPLES :=
    ⟨List.length_replicate _ _, List.length_replicate _ _⟩
  have h3 : ∀ i, ∃ a w, (0 ≤ a ∧ a ≤ 255) ∧ (0 ≤ w ∧ w ≤ 32768) ∧
      (List.replicate 1024 (8355840 : Int)).getD i 0 = a * w := fun i => by
    rw [getD_replicate_int]
    by_cases h : i < 1024
    · exact ⟨255, 32768, by decide, by decide, by rw [if_pos h]; rfl⟩
    · exact ⟨0, 0, by decide, by decide, by rw [if_neg h]; rfl⟩
  have h4 : ∀ i, (List.replicate 1024 (0 : Int)).getD i 0 = 0 := fun i =>
    getD_replicate_zero 1024 i
  ⟨⟨by decide, h1, h2, h3, h4⟩,
   (FFTfix_does_not_overflow (List.replicate 1024 (-32768)) (List.replicate 1024 8355840)
      (List.replicate 1024 0) 10 (by decide) h1 h2 h3 h4).2.1⟩

/-! ### Impulse response -/

theorem multfix15_zero_right (w : Int) : multfix15 w 0 = 0 := by
  simp [multfix15, toInt64, toInt32]

theorem butterflyValues_zero_partner (wr wi a : Int) (ha : IsInt32 a) :
    butterflyValues wr wi (a, 0) (0, 0) = ((a / 2, 0), (a / 2, 0)) := by
  have hq : IsInt32 (a / 2) := by
    unfold IsInt32 at *
    omega
  have z : toInt32 0 = 0 := by decide
  have zs : (0 : Int) >>> (1 : Nat) = 0 := by decide
  simp only [butterflyValues, multfix15_zero_right, sub_zero, add_zero, z, zs,
    Int.shiftRight_eq_div_pow, pow_one, Nat.cast_ofNat, toInt32_of_isInt32 _ hq]

theorem impulse_stage (Sinewave : List Int) (s : Nat) (hs : s < 10) (c : Int) (hc : IsInt32 c)
    (st : FFTState) (hL : st.L = 2 ^ s)
    (l1 : st.fr.length = NUM_SAMPLES) (l2 : st.fi.length = NUM_SAMPLES)
    (hfr : ∀ idx, idx < NUM_SAMPLES →
      st.fr.getD idx 0 = if idx < 2 ^ s then c / 2 ^ s else 0)
    (hfi : ∀ idx, idx < NUM_SAMPLES → st.fi.getD idx 0 = 0) :
    ((danielsonLanczosStage Sinewave st).fr.length = NUM_SAMPLES ∧
      (danielsonLanczosStage Sinewave st).fi.length = NUM_SAMPLES) ∧
    (∀ idx, idx < NUM_SAMPLES →
      (danielsonLanczosStage Sinewave st).fr.getD idx 0
        = if idx < 2 ^ (s + 1) then c / 2 ^ (s + 1) else 0) ∧
    (∀ idx, idx < NUM_SAMPLES → (danielsonLanczosStage Sinewave st).fi.getD idx 0 = 0) := by
  obtain ⟨hlen, hpt⟩ := stage_pointwise Sinewave st.L st.k (st.fr, st.fi) ⟨s, hs, hL⟩ l1 l2
  have hentry : ∀ idx, idx < NUM_SAMPLES →
      stageEntry Sinewave st.L st.k (st.fr, st.fi) idx
        = (if idx < 2 ^ (s + 1) then c / 2 ^ (s + 1) else 0, 0) := by
    intro idx hidx
    have hi : pairStart (2 ^ s) idx + 2 ^ s < NUM_SAMPLES ∧
        (pairStart (2 ^ s) idx < 2 ^ s ↔ idx < 2 ^ (s + 1)) := by
      unfold pairStart
      simp only [NUM_SAMPLES] at hidx ⊢
      interval_cases s <;> simp only [Nat.reducePow, Nat.reduceMul, Nat.reduceAdd] <;>
        split <;> omega
    have hdiv : c / 2 ^ s / 2 = c / 2 ^ (s + 1) := by
      interval_cases s <;> simp only [Int.reducePow, Nat.reduceAdd] <;> omega
    have hr : IsInt32 (if pairStart (2 ^ s) idx < 2 ^ s then c / 2 ^ s else 0) := by
      unfold IsInt32 at *
      split
      · interval_cases s <;> simp only [Int.reducePow] <;> omega
      · omega
    simp only [stageEntry, hL]
    rw [hfr _ (by omega), hfi _ (by omega), hfr _ hi.1, hfi _ hi.1,
      if_neg (by omega : ¬ pairStart (2 ^ s) idx + 2 ^ s < 2 ^ s),
      butterflyValues_zero_partner _ _ _ hr]
    by_cases hlt : idx < 2 ^ (s + 1)
    · rw [if_pos (hi.2.2 hlt), if_pos hlt, hdiv]
      split <;> rfl
    · rw [if_neg (fun h => hlt (hi.2.1 h)), if_neg hlt]
      split <;> rfl
  refine ⟨hlen, fun idx hidx => ?_, fun idx hidx => ?_⟩
  · have := hpt idx hidx
    rw [hentry idx hidx] at this
    exact (Prod.ext_iff.mp this).1
  · have := hpt idx hidx
    rw [hentry idx hidx] at this
    exact (Prod.ext_iff.mp this).2

theorem impulse_stages (Sinewave : List Int) (c : Int) (hc : IsInt32 c) (st : FFTState)
    (hL : st.L = 1)
    (l1 : st.fr.length = NUM_SAMPLES) (l2 : st.fi.length = NUM_SAMPLES)
    (hfr : ∀ idx, idx < NUM_SAMPLES → st.fr.getD idx 0 = if idx < 1 then c else 0)
    (hfi : ∀ idx, idx < NUM_SAMPLES → st.fi.getD idx 0 = 0) (s : Nat) (hs : s ≤ 10) :
    (((danielsonLanczosStage Sinewave)^[s] st).fr.length = NUM_SAMPLES ∧
      ((danielsonLanczosStage Sinewave)^[s] st).fi.length = NUM_SAMPLES) ∧
    (∀ idx, idx < NUM_SAMPLES →
      ((danielsonLanczosStage Sinewave)^[s] st).fr.getD idx 0
        = if idx < 2 ^ s then c / 2 ^ s else 0) ∧
    (∀ idx, idx < NUM_SAMPLES → ((danielsonLanczosStage Sinewave)^[s] st).fi.getD idx 0 = 0) := by
  induction s with
  | zero =>
    refine ⟨⟨l1, l2⟩, fun idx hidx => ?_, hfi⟩
    simp only [Function.iterate_zero, id_eq, pow_zero, Int.ediv_one]
    exact hfr idx hidx
  | succ s ih =>
    obtain ⟨⟨a1, a2⟩, a3, a4⟩ := ih (by omega)
    rw [Function.iterate_succ_apply']
    have hLs : ((danielsonLanczosStage Sinewave)^[s] st).L = 2 ^ s := by
      rw [(stage_iterate_control Sinewave st s).1, hL, one_mul]
    exact impulse_stage Sinewave s (by omega) c hc _ hLs a1 a2 a3 a4


theorem impulse_getD (c : Int) (j : Nat) : (impulse c).getD j 0 = if j = 0 then c else 0 := by
  unfold impulse
  cases j with
  | zero => rfl
  | succ j =>
    rw [List.getD_cons_succ, getD_replicate_zero, if_neg (by omega)]

theorem impulse_length (c : Int) : (impulse c).length = NUM_SAMPLES := by
  unfold impulse
  rw [List.length_cons, List.length_replicate]
  rfl

theorem reversedIndex_eq_zero (i : Nat) (hi : i < 1024) (h : reversedIndex 6 i = 0) : i = 0 := by
  have h1 := reversedIndex_involutive 10 i (by decide) hi
  have h2 : reversedIndex (16 - 10) (reversedIndex (16 - 10) i) = reversedIndex 6 0 := by
    show reversedIndex 6 (reversedIndex 6 i) = reversedIndex 6 0
    rw [h]
  rw [h1] at h2
  rw [h2]
  exact reversedIndex_zero _

theorem bitReversal_impulse (c : Int) :
    ((bitReversal (impulse c) (List.replicate NUM_SAMPLES 0)).1.length = NUM_SAMPLES ∧
      (bitReversal (impulse c) (List.replicate NUM_SAMPLES 0)).2.length = NUM_SAMPLES) ∧
    (∀ idx, idx < NUM_SAMPLES →
      (bitReversal (impulse c) (List.replicate NUM_SAMPLES 0)).1.getD idx 0
        = if idx < 1 then c else 0) ∧
    (∀ idx, idx < NUM_SAMPLES →
      (bitReversal (impulse c) (List.replicate NUM_SAMPLES 0)).2.getD idx 0 = 0) := by
  obtain ⟨l1, l2, g⟩ := bitReversalWith_spec 10 (by decide) (impulse c)
    (List.replicate NUM_SAMPLES 0) (impulse_length c) (List.length_replicate _ _)
  have l1' : (bitReversal (impulse c) (List.replicate NUM_SAMPLES 0)).1.length = 1024 := l1
  have l2' : (bitReversal (impulse c) (List.replicate NUM_SAMPLES 0)).2.length = 1024 := l2
  have g' : ∀ i, i < 1024 →
      (bitReversal (impulse c) (List.replicate NUM_SAMPLES 0)).1.getD i 0
        = (impulse c).getD (reversedIndex 6 i) 0 ∧
      (bitReversal (impulse c) (List.replicate NUM_SAMPLES 0)).2.getD i 0
        = (List.replicate NUM_SAMPLES (0 : Int)).getD (reversedIndex 6 i) 0 := g
  refine ⟨⟨l1', l2'⟩, fun idx hidx => ?_, fun idx hidx => ?_⟩
  · rw [(g' idx hidx).1, impulse_getD]
    by_cases h0 : idx = 0
    · subst h0
      rw [reversedIndex_zero, if_pos rfl, if_pos (by omega)]
    · rw [if_neg (fun h => h0 (reversedIndex_eq_zero idx hidx h)), if_neg (by omega)]
  · rw [(g' idx hidx).2, getD_replicate_zero]

theorem impulse_output (c : Int) (fin : FFTState)
    (h : (fin.fr.length = NUM_SAMPLES ∧ fin.fi.length = NUM_SAMPLES) ∧
      (∀ idx, idx < NUM_SAMPLES →
        fin.fr.getD idx 0 = if idx < 2 ^ 10 then c / 2 ^ 10 else 0) ∧
      (∀ idx, idx < NUM_SAMPLES → fin.fi.getD idx 0 = 0)) :
    (fin.fr, fin.fi)
      = (List.replicate NUM_SAMPLES (c >>> (10 : Nat)), List.replicate NUM_SAMPLES 0) := by
  obtain ⟨⟨l1, l2⟩, h1, h2⟩ := h
  have e1 : fin.fr = List.replicate NUM_SAMPLES (c >>> (10 : Nat)) := by
    apply list_eq_of_getD _ _ NUM_SAMPLES l1 (List.length_replicate _ _)
    intro i hi
    rw [h1 i hi, getD_replicate_int, if_pos hi, if_pos (by exact hi),
      Int.shiftRight_eq_div_pow]
    rfl
  have e2 : fin.fi = List.replicate NUM_SAMPLES 0 := by
    apply list_eq_of_getD _ _ NUM_SAMPLES l2 (List.length_replicate _ _)
    intro i hi
    rw [h2 i hi, getD_replicate_zero]
  rw [e1, e2]

theorem impulse_stages_start (Sinewave : List Int) (c : Int) (hc : IsInt32 c)
    (fr fi : List Int)
    (hl : fr.length = NUM_SAMPLES ∧ fi.length = NUM_SAMPLES)
    (hfr : ∀ idx, idx < NUM_SAMPLES → fr.getD idx 0 = if idx < 1 then c else 0)
    (hfi : ∀ idx, idx < NUM_SAMPLES → fi.getD idx 0 = 0) :
    (((danielsonLanczosStage Sinewave)^[10] (fftStart fr fi)).fr.length = NUM_SAMPLES ∧
      ((danielsonLanczosStage Sinewave)^[10] (fftStart fr fi)).fi.length = NUM_SAMPLES) ∧
    (∀ idx, idx < NUM_SAMPLES →
      ((danielsonLanczosStage Sinewave)^[10] (fftStart fr fi)).fr.getD idx 0
        = if idx < 2 ^ 10 then c / 2 ^ 10 else 0) ∧
    (∀ idx, idx < NUM_SAMPLES →
      ((danielsonLanczosStage Sinewave)^[10] (fftStart fr fi)).fi.getD idx 0 = 0) :=
  impulse_stages Sinewave c hc (fftStart fr fi) rfl hl.1 hl.2 hfr hfi 10 (le_refl _)

theorem FFTfix_impulse (Sinewave : List Int) (c : Int) (hc : IsInt32 c) (fuel : Nat)
    (hfuel : 10 ≤ fuel) :
    FFTfix Sinewave (impulse c) (List.replicate NUM_SAMPLES 0) fuel
      = some (List.replicate NUM_SAMPLES (c >>> (10 : Nat)), List.replicate NUM_SAMPLES 0) :=
  (FFTfix_eq Sinewave (impulse c) (List.replicate NUM_SAMPLES 0) fuel hfuel).trans
    (congrArg some (impulse_output c
      ((danielsonLanczosStage Sinewave)^[10]
        (fftStart (bitReversal (impulse c) (List.replicate NUM_SAMPLES 0)).1
          (bitReversal (impulse c) (List.replicate NUM_SAMPLES 0)).2))
      (impulse_stages_start Sinewave c hc
        (bitReversal (impulse c) (List.replicate NUM_SAMPLES 0)).1
        (bitReversal (impulse c) (List.replicate NUM_SAMPLES 0)).2
        (bitReversal_impulse c).1 (bitReversal_impulse c).2.1 (bitReversal_impulse c).2.2)))

/-- C33. Impulse response of `FFTfix`: for every sine table and every 32-bit value `c`,
when the real array is `c` at index 0 and 0 elsewhere and the imaginary array is all 0, the
transform returns, every one of the 1024 real entries is `c >> 10`, that is
`floor(c / 1024)`, and every imaginary entry is 0; the all-zero input gives the all-zero
output. -/
theorem impulse_response (Sinewave : List Int) (c : Int) (hc : IsInt32 c) (fuel : Nat)
    (hfuel : LOG2_NUM_SAMPLES ≤ fuel) :
    FFTfix Sinewave (impulse c) (List.replicate NUM_SAMPLES 0) fuel
      = some (List.replicate NUM_SAMPLES (c >>> (10 : Nat)), List.replicate NUM_SAMPLES 0) ∧
    c >>> (10 : Nat) = c / 1024 ∧
    ((c >>> (10 : Nat) : Int) : ℚ) = ⌊(c : ℚ) / 1024⌋ ∧
    ((impulse c).length = NUM_SAMPLES ∧
      ∀ j, (impulse c).getD j 0 = if j = 0 then c else 0) ∧
    FFTfix Sinewave (List.replicate NUM_SAMPLES 0) (List.replicate NUM_SAMPLES 0) fuel
      = some (List.replicate NUM_SAMPLES 0, List.replicate NUM_SAMPLES 0) := by
  have hs : c >>> (10 : Nat) = c / 1024 := by
    rw [Int.shiftRight_eq_div_pow]
    rfl
  refine ⟨FFTfix_impulse Sinewave c hc fuel hfuel, hs, ?_,
    ⟨impulse_length c, impulse_getD c⟩, FFTfix_impulse Sinewave 0 (by decide) fuel hfuel⟩
  rw [hs]
  have := floor_div_of_pos c 1024 (by norm_num)
  push_cast at this
  rw [this]

theorem impulse_response_witness :
    (IsInt32 (-5000) ∧ LOG2_NUM_SAMPLES ≤ 10) ∧
    FFTfix [] (impulse (-5000)) (List.replicate NUM_SAMPLES 0) 10
      = some (List.replicate NUM_SAMPLES ((-5000 : Int) >>> (10 : Nat)),
          List.replicate NUM_SAMPLES 0) ∧
    (-5000 : Int) >>> (10 : Nat) = -5 :=
  ⟨⟨by decide, by decide⟩, (impulse_response [] (-5000) (by decide) 10 (by decide)).1,
    by decide⟩

/-! ### The spectral task on a pure sine -/

theorem getN_eq (A i : Nat) : getN A i = A / 2 ^ (32 * i) % 4294967296 := rfl
theorem sxN_eq (a : Nat) : sxN a = a + a / 2147483648 * 140733193388032 := rfl
theorem mulN_eq (a b : Nat) : mulN a b = sxN a * sxN b % 140737488355328 / 32768 := rfl
theorem asrN_eq (a : Nat) : asrN a = a / 2 + a / 2147483648 * 2147483648 := rfl
theorem addN_eq (a b : Nat) : addN a b = (a + b) % 4294967296 := rfl
theorem subN_eq (a b : Nat) : subN a b = (a + 4294967296 - b) % 4294967296 := rfl
theorem negN_eq (a : Nat) : negN a = (4294967296 - a) % 4294967296 := rfl

theorem getN_lt (A i : Nat) : getN A i < 4294967296 := by
  rw [getN_eq]; omega

theorem addN_lt (a b : Nat) : addN a b < 4294967296 := by
  rw [addN_eq]; omega

theorem subN_lt (a b : Nat) : subN a b < 4294967296 := by
  rw [subN_eq]; omega

theorem negN_lt (a : Nat) : negN a < 4294967296 := by
  rw [negN_eq]; omega

theorem asrN_lt (a : Nat) (ha : a < 4294967296) : asrN a < 4294967296 := by
  rw [asrN_eq]; omega

theorem mulN_lt (a b : Nat) : mulN a b < 4294967296 := by
  rw [mulN_eq]; omega

theorem signedN_isInt32 (a : Nat) (ha : a < 4294967296) : IsInt32 (signedN a) := by
  unfold signedN IsInt32
  split_ifs <;> omega

theorem signedN_add (a b : Nat) :
    toInt32 (signedN a + signedN b) = signedN (addN a b) := by
  rw [addN_eq]
  unfold signedN toInt32
  split_ifs <;> omega

theorem signedN_sub (a b : Nat) (ha : a < 4294967296) (hb : b < 4294967296) :
    toInt32 (signedN a - signedN b) = signedN (subN a b) := by
  rw [subN_eq]
  unfold signedN toInt32
  split_ifs <;> omega

theorem signedN_neg (a : Nat) (ha : a < 4294967296) :
    toInt32 (-signedN a) = signedN (negN a) := by
  rw [negN_eq]
  unfold signedN toInt32
  split_ifs <;> omega

theorem signedN_asr (a : Nat) (ha : a < 4294967296) :
    signedN a >>> (1 : Nat) = signedN (asrN a) := by
  rw [asrN_eq, Int.shiftRight_eq_div_pow]
  unfold signedN
  norm_num
  split_ifs <;> omega

theorem signedN_shl15 (a : Nat) :
    int2fix15 (signedN a) = signedN (a * 32768 % 4294967296) := by
  unfold int2fix15 signedN toInt32
  split_ifs <;> omega

theorem sxN_cast (a : Nat) (ha : a < 4294967296) :
    ((sxN a : Nat) : Int) % 140737488355328 = signedN a % 140737488355328 := by
  rw [sxN_eq]
  unfold signedN
  split_ifs <;> omega

theorem signedN_mul (a b : Nat) (ha : a < 4294967296) (hb : b < 4294967296) :
    multfix15 (signedN a) (signedN b) = signedN (mulN a b) := by
  rw [multfix15_eq _ _ (signedN_isInt32 a ha) (signedN_isInt32 b hb), mulN_eq]
  have h1 := sxN_cast a ha
  have h2 := sxN_cast b hb
  have h3 : ((sxN a * sxN b % 140737488355328 : Nat) : Int)
      = (signedN a * signedN b) % 140737488355328 := by
    push_cast
    rw [Int.mul_emod, h1, h2, ← Int.mul_emod]
  generalize signedN a * signedN b = P at h3
  generalize sxN a * sxN b % 140737488355328 = Q at h3
  unfold signedN toInt32
  split_ifs <;> omega


theorem packN_succ (f : Nat → Nat) (n : Nat) :
    packN f (n + 1) = packN f n + f n * 4294967296 ^ n := by
  show packN f n + f n * 2 ^ (32 * n) = _
  rw [pow_mul]
  norm_num

theorem packN_lt (f : Nat → Nat) (n : Nat) (hf : ∀ i, i < n → f i < 4294967296) :
    packN f n < 4294967296 ^ n := by
  induction n with
  | zero => simp [packN]
  | succ n ih =>
    rw [packN_succ, pow_succ]
    have h1 := ih (fun i hi => hf i (by omega))
    have h2 := hf n (by omega)
    have h3 : f n * 4294967296 ^ n ≤ 4294967295 * 4294967296 ^ n :=
      Nat.mul_le_mul_right _ (by omega)
    have h4 : 4294967296 ^ n * 4294967296 = 4294967295 * 4294967296 ^ n + 4294967296 ^ n := by
      ring
    omega

theorem getN_packN (f : Nat → Nat) (n : Nat) (hf : ∀ i, i < n → f i < 4294967296)
    (i : Nat) (hi : i < n) : getN (packN f n) i = f i := by
  induction n with
  | zero => omega
  | succ n ih =>
    have hpos : 0 < 4294967296 ^ i := by positivity
    rw [getN_eq, packN_succ, pow_mul]
    norm_num
    by_cases h : i = n
    · subst h
      rw [Nat.add_mul_div_right _ _ hpos,
        Nat.div_eq_of_lt (packN_lt f i (fun j hj => hf j (by omega))), Nat.zero_add]
      exact Nat.mod_eq_of_lt (hf i (by omega))
    · have hlt : i < n := by omega
      have e : 4294967296 ^ n = 4294967296 ^ (n - i - 1) * 4294967296 * 4294967296 ^ i := by
        rw [← pow_succ, ← pow_add]
        congr 1
        omega
      rw [e, ← Nat.mul_assoc, ← Nat.mul_assoc, Nat.add_mul_div_right _ _ hpos,
        Nat.add_mul_mod_self_right]
      have := ih (fun j hj => hf j (by omega)) hlt
      rw [getN_eq, pow_mul] at this
      norm_num at this
      exact this

theorem twiddle_decode (S : List Int) (Sb : Nat) (hS : Decodes S Sb) (k : Int) (m : Nat)
    (hj : sineIndex k m + 256 < 1024) :
    twiddle S k m = (signedN (asrN (getN Sb (sineIndex k m + 256))),
      signedN (asrN (negN (getN Sb (sineIndex k m))))) := by
  have e : NUM_SAMPLES / 4 = 256 := by decide
  unfold twiddle
  simp only [e]
  rw [hS _ hj, hS _ (by omega), signedN_asr _ (getN_lt _ _), signedN_neg _ (getN_lt _ _),
    signedN_asr _ (negN_lt _)]

theorem butterflyValues_decode (wr wi a1 a2 b1 b2 : Nat)
    (hwr : wr < 4294967296) (hwi : wi < 4294967296) (ha1 : a1 < 4294967296)
    (ha2 : a2 < 4294967296) (hb1 : b1 < 4294967296) (hb2 : b2 < 4294967296) :
    butterflyValues (signedN wr) (signedN wi) (signedN a1, signedN a2)
        (signedN b1, signedN b2)
      = ((signedN (addN (asrN a1) (subN (mulN wr b1) (mulN wi b2))),
          signedN (addN (asrN a2) (addN (mulN wr b2) (mulN wi b1)))),
         (signedN (subN (asrN a1) (subN (mulN wr b1) (mulN wi b2))),
          signedN (subN (asrN a2) (addN (mulN wr b2) (mulN wi b1))))) := by
  unfold butterflyValues
  simp only
  rw [signedN_mul wr b1 hwr hb1, signedN_mul wi b2 hwi hb2, signedN_mul wr b2 hwr hb2,
    signedN_mul wi b1 hwi hb1, signedN_sub _ _ (mulN_lt _ _) (mulN_lt _ _), signedN_add,
    signedN_asr a1 ha1, signedN_asr a2 ha2, signedN_add, signedN_add,
    signedN_sub _ _ (asrN_lt _ ha1) (subN_lt _ _),
    signedN_sub _ _ (asrN_lt _ ha2) (addN_lt _ _)]

theorem entryN_eq (Sb L L2 sh Ar Ai idx : Nat) (im : Bool) :
    entryN Sb L L2 sh Ar Ai idx im =
      if idx % L2 < L then
        (if im then
          addN (asrN (getN Ai idx))
            (addN (mulN (asrN (getN Sb ((idx % L) <<< sh + 256))) (getN Ai (idx + L)))
              (mulN (asrN (negN (getN Sb ((idx % L) <<< sh)))) (getN Ar (idx + L))))
        else
          addN (asrN (getN Ar idx))
            (subN (mulN (asrN (getN Sb ((idx % L) <<< sh + 256))) (getN Ar (idx + L)))
              (mulN (asrN (negN (getN Sb ((idx % L) <<< sh)))) (getN Ai (idx + L)))))
      else
        (if im then
          subN (asrN (getN Ai (idx - L)))
            (addN (mulN (asrN (getN Sb ((idx % L) <<< sh + 256))) (getN Ai idx))
              (mulN (asrN (negN (getN Sb ((idx % L) <<< sh)))) (getN Ar idx)))
        else
          subN (asrN (getN Ar (idx - L)))
            (subN (mulN (asrN (getN Sb ((idx % L) <<< sh + 256))) (getN Ar idx))
              (mulN (asrN (negN (getN Sb ((idx % L) <<< sh)))) (getN Ai idx)))) := by
  unfold entryN
  have e : Nat.blt (Nat.mod idx L2) L = decide (idx % L2 < L) := by
    by_cases h : idx % L2 < L
    · rw [decide_eq_true h]
      exact Nat.blt_eq.mpr h
    · rw [decide_eq_false h]
      cases hb : Nat.blt (Nat.mod idx L2) L
      · rfl
      · exact absurd (Nat.blt_eq.mp hb) h
  rw [e]
  by_cases h : idx % L2 < L <;> cases im <;> simp only [h, decide_True, decide_False, cond_true,
    cond_false, if_true, if_false, Bool.false_eq_true] <;> rfl

theorem stageEntry_decode (S : List Int) (Sb : Nat) (hS : Decodes S Sb) (s : Nat)
    (hs : s < 10) (st : List Int × List Int) (Ar Ai : Nat) (hr : Decodes st.1 Ar)
    (hi : Decodes st.2 Ai) (idx : Nat) (hidx : idx < 1024) :
    stageEntry S (2 ^ s) ((9 : Int) - s) st idx
      = (signedN (entryN Sb (2 ^ s) (2 ^ (s + 1)) (9 - s) Ar Ai idx false),
         signedN (entryN Sb (2 ^ s) (2 ^ (s + 1)) (9 - s) Ar Ai idx true)) := by
  have hk : ((9 : Int) - s).toNat = 9 - s := by omega
  have e2 : 2 * 2 ^ s = 2 ^ (s + 1) := by rw [pow_succ]; ring
  have hm : ∀ i, i % 2 ^ s = idx % 2 ^ s →
      sineIndex ((9 : Int) - s) (i % 2 ^ s) = (idx % 2 ^ s) <<< (9 - s) := by
    intro i h
    unfold sineIndex
    rw [hk, h]
  have hj : (idx % 2 ^ s) <<< (9 - s) + 256 < 1024 := by
    rw [Nat.shiftLeft_eq]
    interval_cases s <;> simp only [Nat.reducePow, Nat.reduceSub] <;> omega
  have ht : ∀ i, i % 2 ^ s = idx % 2 ^ s →
      twiddle S ((9 : Int) - s) (i % 2 ^ s)
        = (signedN (asrN (getN Sb ((idx % 2 ^ s) <<< (9 - s) + 256))),
           signedN (asrN (negN (getN Sb ((idx % 2 ^ s) <<< (9 - s)))))) := by
    intro i h
    rw [twiddle_decode S Sb hS _ _ (by rw [hm i h]; exact hj), hm i h]
  rw [entryN_eq, entryN_eq]
  unfold stageEntry pairStart
  simp only [e2]
  by_cases h : idx % 2 ^ (s + 1) < 2 ^ s
  · have hjl : idx + 2 ^ s < 1024 := by
      revert h
      interval_cases s <;> simp only [Nat.reducePow, Nat.reduceAdd] <;> omega
    simp only [h, if_true, Bool.false_eq_true, if_false]
    rw [ht idx rfl,
      hr _ hidx, hi _ hidx, hr _ hjl, hi _ hjl,
      butterflyValues_decode _ _ _ _ _ _ (asrN_lt _ (getN_lt _ _))
        (asrN_lt _ (negN_lt _)) (getN_lt _ _) (getN_lt _ _) (getN_lt _ _) (getN_lt _ _)]
  · have hge : 2 ^ s ≤ idx := by
      revert h
      interval_cases s <;> simp only [Nat.reducePow, Nat.reduceAdd] <;> omega
    have hmod : (idx - 2 ^ s) % 2 ^ s = idx % 2 ^ s := by
      revert hge
      interval_cases s <;> simp only [Nat.reducePow] <;> omega
    have hsub : idx - 2 ^ s + 2 ^ s = idx := by omega
    simp only [h, if_true, Bool.false_eq_true, if_false]
    rw [ht _ hmod,
      hsub, hr _ hidx, hi _ hidx, hr (idx - 2 ^ s) (by omega), hi (idx - 2 ^ s) (by omega),
      butterflyValues_decode _ _ _ _ _ _ (asrN_lt _ (getN_lt _ _))
        (asrN_lt _ (negN_lt _)) (getN_lt _ _) (getN_lt _ _) (getN_lt _ _) (getN_lt _ _)]

theorem fastN_zero (Sb Wb : Nat) (smp : Nat → Nat) :
    fastN Sb Wb smp 0
      = (packN (fun i => mulN (smp (reversedIndex 6 i) * 32768 % 4294967296)
            (getN Wb (reversedIndex 6 i))) 1024,
         packN (fun _ => 0) 1024) := by
  rw [fastN]
  rfl

theorem fastN_succ (Sb Wb : Nat) (smp : Nat → Nat) (s : Nat) :
    fastN Sb Wb smp (s + 1)
      = (packN (fun idx => entryN Sb (2 ^ s) (2 ^ (s + 1)) (9 - s) (fastN Sb Wb smp s).1
            (fastN Sb Wb smp s).2 idx false) 1024,
         packN (fun idx => entryN Sb (2 ^ s) (2 ^ (s + 1)) (9 - s) (fastN Sb Wb smp s).1
            (fastN Sb Wb smp s).2 idx true) 1024) := by
  rw [fastN]

theorem window_decode (W X : List Int) (Wb : Nat) (smp : Nat → Nat) (hW : Decodes W Wb)
    (hX : ∀ n, n < 1024 → X.getD n 0 = signedN (smp n)) (n : Nat) (hn : n < 1024) :
    (windowSamples X W).1.getD n 0
        = signedN (mulN (smp n * 32768 % 4294967296) (getN Wb n)) ∧
    (windowSamples X W).2.getD n 0 = 0 := by
  have hN : n < NUM_SAMPLES := hn
  simp only [windowSamples]
  rw [getD_map_range, getD_replicate_zero, if_pos hN, hX n hn, hW n hn, signedN_shl15,
    signedN_mul _ _ (Nat.mod_lt _ (by decide)) (getN_lt _ _)]
  exact ⟨rfl, rfl⟩

theorem windowSamples_length (X W : List Int) :
    (windowSamples X W).1.length = NUM_SAMPLES ∧ (windowSamples X W).2.length = NUM_SAMPLES := by
  simp only [windowSamples]
  exact ⟨by rw [List.length_map, List.length_range], List.length_replicate _ _⟩

theorem start_decode (W X : List Int) (Wb : Nat) (smp : Nat → Nat) (hW : Decodes W Wb)
    (hX : ∀ n, n < 1024 → X.getD n 0 = signedN (smp n)) (Sb : Nat) :
    ((bitReversal (windowSamples X W).1 (windowSamples X W).2).1.length = NUM_SAMPLES ∧
      (bitReversal (windowSamples X W).1 (windowSamples X W).2).2.length = NUM_SAMPLES) ∧
    Decodes (bitReversal (windowSamples X W).1 (windowSamples X W).2).1
      (fastN Sb Wb smp 0).1 ∧
    Decodes (bitReversal (windowSamples X W).1 (windowSamples X W).2).2
      (fastN Sb Wb smp 0).2 := by
  obtain ⟨l1, l2⟩ := windowSamples_length X W
  obtain ⟨m1, m2, g⟩ := bitReversalWith_spec 10 (by decide) _ _ l1 l2
  have g2 : ∀ i, i < 1024 →
      (bitReversal (windowSamples X W).1 (windowSamples X W).2).1.getD i 0
        = (windowSamples X W).1.getD (reversedIndex 6 i) 0 ∧
      (bitReversal (windowSamples X W).1 (windowSamples X W).2).2.getD i 0
        = (windowSamples X W).2.getD (reversedIndex 6 i) 0 := g
  have hrev : ∀ i, reversedIndex 6 i < 1024 := fun i => reversedIndex_lt 10 i (by decide)
  refine ⟨⟨m1, m2⟩, ?_, ?_⟩
  · intro i hi
    rw [(g2 i hi).1, (window_decode W X Wb smp hW hX _ (hrev i)).1, fastN_zero,
      getN_packN _ _ (fun j _ => mulN_lt _ _) i hi]
  · intro i hi
    rw [(g2 i hi).2, (window_decode W X Wb smp hW hX _ (hrev i)).2, fastN_zero,
      getN_packN _ _ (fun j _ => by decide) i hi]
    rfl

theorem entryN_lt (Sb L L2 sh Ar Ai idx : Nat) (im : Bool) :
    entryN Sb L L2 sh Ar Ai idx im < 4294967296 := by
  rw [entryN_eq]
  split_ifs <;> first | exact addN_lt _ _ | exact subN_lt _ _

theorem stages_decode (S : List Int) (Sb : Nat) (hS : Decodes S Sb) (Wb : Nat)
    (smp : Nat → Nat) (fr fi : List Int) (h1 : fr.length = NUM_SAMPLES)
    (h2 : fi.length = NUM_SAMPLES) (d1 : Decodes fr (fastN Sb Wb smp 0).1)
    (d2 : Decodes fi (fastN Sb Wb smp 0).2) (s : Nat) (hs : s ≤ 10) :
    (((danielsonLanczosStage S)^[s] (fftStart fr fi)).fr.length = NUM_SAMPLES ∧
      ((danielsonLanczosStage S)^[s] (fftStart fr fi)).fi.length = NUM_SAMPLES) ∧
    Decodes ((danielsonLanczosStage S)^[s] (fftStart fr fi)).fr (fastN Sb Wb smp s).1 ∧
    Decodes ((danielsonLanczosStage S)^[s] (fftStart fr fi)).fi (fastN Sb Wb smp s).2 := by
  induction s with
  | zero => exact ⟨⟨h1, h2⟩, d1, d2⟩
  | succ s ih =>
    obtain ⟨⟨l1, l2⟩, e1, e2⟩ := ih (by omega)
    obtain ⟨c1, c2⟩ := stage_iterate_control S (fftStart fr fi) s
    have cL : ((danielsonLanczosStage S)^[s] (fftStart fr fi)).L = 2 ^ s := by
      rw [c1]
      simp [fftStart]
    have ck : ((danielsonLanczosStage S)^[s] (fftStart fr fi)).k = (9 : Int) - s := by
      rw [c2]
      simp [fftStart, LOG2_NUM_SAMPLES]
    rw [Function.iterate_succ_apply']
    generalize (danielsonLanczosStage S)^[s] (fftStart fr fi) = st at l1 l2 e1 e2 cL ck
    obtain ⟨⟨n1, n2⟩, g⟩ := stage_pointwise S st.L st.k (st.fr, st.fi)
      ⟨s, by omega, cL⟩ l1 l2
    refine ⟨⟨n1, n2⟩, ?_, ?_⟩
    · intro idx hidx
      have := congrArg Prod.fst (g idx hidx)
      simp only at this
      show (elementLoop S st.L st.k (st.fr, st.fi)).1.getD idx 0 = _
      rw [this, cL, ck, stageEntry_decode S Sb hS s (by omega) (st.fr, st.fi) _ _ e1 e2 idx hidx,
        fastN_succ, getN_packN _ _ (fun j _ => entryN_lt _ _ _ _ _ _ _ _) idx hidx]
    · intro idx hidx
      have := congrArg Prod.snd (g idx hidx)
      simp only at this
      show (elementLoop S st.L st.k (st.fr, st.fi)).2.getD idx 0 = _
      rw [this, cL, ck, stageEntry_decode S Sb hS s (by omega) (st.fr, st.fi) _ _ e1 e2 idx hidx,
        fastN_succ, getN_packN _ _ (fun j _ => entryN_lt _ _ _ _ _ _ _ _) idx hidx]

theorem allBelow_spec (P : Nat → Bool) (n : Nat) (h : allBelow P n = true) (j : Nat)
    (hj : j < n) : P j = true := by
  induction n with
  | zero => omega
  | succ n ih =>
    simp only [allBelow, Bool.and_eq_true] at h
    by_cases e : j = n
    · rw [e]; exact h.2
    · exact ih h.1 (by omega)

theorem magnitudeLoop_single_peak (fr fi : List Int) (hfr : fr.length = NUM_SAMPLES)
    (hfi : fi.length = NUM_SAMPLES) (k : Nat) (hk5 : 5 ≤ k) (hk : k < 512)
    (hpos : 0 < storedMagnitude (fr.getD k 0) (fi.getD k 0))
    (hmax : ∀ j, 5 ≤ j → j < 512 → j ≠ k →
      storedMagnitude (fr.getD j 0) (fi.getD j 0)
        < storedMagnitude (fr.getD k 0) (fi.getD k 0)) :
    (magnitudeLoop fr fi).max_fr_dex = k ∧
    (magnitudeLoop fr fi).max_fr = storedMagnitude (fr.getD k 0) (fi.getD k 0) := by
  have h512 : NUM_SAMPLES >>> 1 = 512 := by decide
  obtain ⟨-, -, -, -, h5⟩ := magnitudeLoop_inv fr fi 512
    (by rw [hfr]; decide) (by rw [hfi]; decide)
  unfold magnitudeLoop
  rw [h512]
  generalize (List.range 512).foldl magnitudeBody
        { fr := fr, fi := fi, max_fr := 0, max_fr_dex := 0 } = S at h5 ⊢
  rcases h5 with ⟨-, -, hall⟩ | ⟨hd5, hdn, -, d, hdd, hd, hall, -⟩
  · have := hall k hk5 hk
    omega
  · subst hdd
    have e : S.max_fr_dex = k := by
      by_contra hne
      have h1 := hmax S.max_fr_dex hd5 hdn hne
      have h2 := hall k hk5 hk
      omega
    refine ⟨e, ?_⟩
    rw [hd, e]

theorem peak_of_decoded (fr fi : List Int) (Sb Wb : Nat) (smp : Nat → Nat)
    (n1 : fr.length = NUM_SAMPLES) (n2 : fi.length = NUM_SAMPLES)
    (e1 : Decodes fr (fastN Sb Wb smp 10).1) (e2 : Decodes fi (fastN Sb Wb smp 10).2)
    (k : Nat) (hk5 : 5 ≤ k) (hk : k < 512) (hc : peakCheck Sb Wb smp k = true) :
    (magnitudeLoop fr fi).max_fr_dex = k ∧
    (magnitudeLoop fr fi).max_fr = magN Sb Wb smp k := by
  simp only [peakCheck, Bool.and_eq_true, decide_eq_true_eq] at hc
  obtain ⟨hpos, hall⟩ := hc
  have hm : ∀ j, j < 1024 →
      storedMagnitude (fr.getD j 0) (fi.getD j 0) = magN Sb Wb smp j := by
    intro j hj
    rw [e1 j hj, e2 j hj, magN]
  have hp := magnitudeLoop_single_peak fr fi n1 n2 k hk5 hk
    (by rw [hm k (by omega)]; exact hpos)
    (by
      intro j hj5 hj hne
      rw [hm j (by omega), hm k (by omega)]
      have := allBelow_spec _ 512 hall j hj
      simp only [Bool.or_eq_true, decide_eq_true_eq] at this
      omega)
  exact ⟨hp.1, by rw [hp.2, hm k (by omega)]⟩

theorem map_magnitudeLoop (a b : List Int) :
    (some (a, b)).map (fun out : List Int × List Int => magnitudeLoop out.1 out.2)
      = some (magnitudeLoop a b) := rfl

theorem spectralPeak_eq (S W X : List Int) :
    spectralPeak S W X 10
      = some (magnitudeLoop
          ((danielsonLanczosStage S)^[10]
            (fftStart (bitReversal (windowSamples X W).1 (windowSamples X W).2).1
              (bitReversal (windowSamples X W).1 (windowSamples X W).2).2)).fr
          ((danielsonLanczosStage S)^[10]
            (fftStart (bitReversal (windowSamples X W).1 (windowSamples X W).2).1
              (bitReversal (windowSamples X W).1 (windowSamples X W).2).2)).fi) := by
  unfold spectralPeak
  rw [FFTfix_eq S _ _ 10 (le_refl 10), map_magnitudeLoop]

theorem spectralPeak_of_check (S W X : List Int) (Sb Wb : Nat) (smp : Nat → Nat)
    (hS : Decodes S Sb) (hW : Decodes W Wb)
    (hX : ∀ n, n < 1024 → X.getD n 0 = signedN (smp n)) (k : Nat) (hk5 : 5 ≤ k)
    (hk : k < 512) (hc : peakCheck Sb Wb smp k = true) :
    ∃ p, spectralPeak S W X 10 = some p ∧ p.max_fr_dex = k ∧ p.max_fr = magN Sb Wb smp k :=
  ⟨_, spectralPeak_eq S W X,
    peak_of_decoded _ _ Sb Wb smp
      (stages_decode S Sb hS Wb smp _ _ (start_decode W X Wb smp hW hX Sb).1.1
        (start_decode W X Wb smp hW hX Sb).1.2 (start_decode W X Wb smp hW hX Sb).2.1
        (start_decode W X Wb smp hW hX Sb).2.2 10 (le_refl 10)).1.1
      (stages_decode S Sb hS Wb smp _ _ (start_decode W X Wb smp hW hX Sb).1.1
        (start_decode W X Wb smp hW hX Sb).1.2 (start_decode W X Wb smp hW hX Sb).2.1
        (start_decode W X Wb smp hW hX Sb).2.2 10 (le_refl 10)).1.2
      (stages_decode S Sb hS Wb smp _ _ (start_decode W X Wb smp hW hX Sb).1.1
        (start_decode W X Wb smp hW hX Sb).1.2 (start_decode W X Wb smp hW hX Sb).2.1
        (start_decode W X Wb smp hW hX Sb).2.2 10 (le_refl 10)).2.1
      (stages_decode S Sb hS Wb smp _ _ (start_decode W X Wb smp hW hX Sb).1.1
        (start_decode W X Wb smp hW hX Sb).1.2 (start_decode W X Wb smp hW hX Sb).2.1
        (start_decode W X Wb smp hW hX Sb).2.2 10 (le_refl 10)).2.2
      k hk5 hk hc⟩

theorem decodes_of_unpack (l : List Int) (A : Nat) (h : unpackN A 1024 = l) : Decodes l A := by
  intro i hi
  rw [← h]
  unfold unpackN
  rw [getD_map_range, if_pos hi]

theorem getD_of_all (l : List Int) (P : Int → Bool) (h : l.all P = true) (h0 : P 0 = true)
    (i : Nat) : P (l.getD i 0) = true := by
  rw [List.getD_eq_getElem?_getD]
  cases e : l[i]? with
  | none => exact h0
  | some v =>
    have hv : v ∈ l := List.getElem?_mem e
    exact List.all_eq_true.1 h v hv

theorem sampleN_decode (S : List Int) (Sb : Nat) (hS : Decodes S Sb)
    (hb : ∀ i, -32768 ≤ S.getD i 0 ∧ S.getD i 0 ≤ 32767) (k n : Nat) :
    128 + ((S.getD ((k * n) % NUM_SAMPLES) 0 * 100) >>> (15 : Nat))
      = signedN (sampleN Sb k n) := by
  have hi : (k * n) % NUM_SAMPLES < 1024 := Nat.mod_lt _ (by decide)
  have h1 := hS _ hi
  have h2 := hb ((k * n) % NUM_SAMPLES)
  have h3 := getN_lt Sb ((k * n) % NUM_SAMPLES)
  have e : sampleN Sb k n
      = (getN Sb ((k * n) % NUM_SAMPLES) + 32768) % 4294967296 * 100 / 32768 + 28 := rfl
  rw [e, Int.shiftRight_eq_div_pow]
  rw [h1] at h2 ⊢
  generalize getN Sb ((k * n) % NUM_SAMPLES) = g at h2 h3 ⊢
  unfold signedN at h2 ⊢
  norm_num
  split_ifs at h2 ⊢ <;> omega

theorem SinewaveTable_decodes : Decodes SinewaveTable (packList SinewaveTable) :=
  decodes_of_unpack _ _ (by decide!)

theorem windowTable_decodes : Decodes windowTable (packList windowTable) :=
  decodes_of_unpack _ _ (by decide!)

theorem SinewaveTable_range (i : Nat) :
    -32768 ≤ SinewaveTable.getD i 0 ∧ SinewaveTable.getD i 0 ≤ 32767 := by
  have h : SinewaveTable.all (fun v => decide (-32768 ≤ v ∧ v ≤ 32767)) = true := by decide!
  have := getD_of_all SinewaveTable _ h (by decide) i
  simpa using this

theorem sineSamples_getD (k n : Nat) (hn : n < 1024) :
    (sineSamples k).getD n 0
      = 128 + ((SinewaveTable.getD ((k * n) % NUM_SAMPLES) 0 * 100) >>> (15 : Nat)) := by
  have hN : n < NUM_SAMPLES := hn
  unfold sineSamples
  rw [getD_map_range, if_pos hN]

theorem sineSamples_decode (k : Nat) :
    ∀ n, n < 1024 → (sineSamples k).getD n 0 = signedN (sampleN (packList SinewaveTable) k n) := by
  intro n hn
  rw [sineSamples_getD k n hn]
  exact sampleN_decode SinewaveTable _ SinewaveTable_decodes SinewaveTable_range k n

theorem sineSamples_range (k i : Nat) :
    0 ≤ (sineSamples k).getD i 0 ∧ (sineSamples k).getD i 0 ≤ 255 := by
  by_cases hi : i < 1024
  · rw [sineSamples_getD k i hi, Int.shiftRight_eq_div_pow]
    have := SinewaveTable_range ((k * i) % NUM_SAMPLES)
    generalize SinewaveTable.getD ((k * i) % NUM_SAMPLES) 0 = v at this
    norm_num
    omega
  · have hN : ¬ i < NUM_SAMPLES := hi
    unfold sineSamples
    rw [getD_map_range, if_neg hN]
    decide

theorem peakCheck_5 :
    peakCheck (packList SinewaveTable) (packList windowTable) (sampleN (packList SinewaveTable) 5) 5
      = true := by decide!

theorem peakCheck_51 :
    peakCheck (packList SinewaveTable) (packList windowTable) (sampleN (packList SinewaveTable) 51) 51
      = true := by decide!

theorem peakCheck_256 :
    peakCheck (packList SinewaveTable) (packList windowTable) (sampleN (packList SinewaveTable) 256) 256
      = true := by decide!

theorem peakCheck_511 :
    peakCheck (packList SinewaveTable) (packList windowTable) (sampleN (packList SinewaveTable) 511) 511
      = true := by decide!

theorem sine_peak (k : Nat) (hk5 : 5 ≤ k) (hk : k < 512)
    (hc : peakCheck (packList SinewaveTable) (packList windowTable)
      (sampleN (packList SinewaveTable) k) k = true) :
    ∃ p, spectralPeak SinewaveTable windowTable (sineSamples k) 10 = some p ∧ p.max_fr_dex = k := by
  obtain ⟨p, h1, h2, -⟩ := spectralPeak_of_check SinewaveTable windowTable (sineSamples k) _ _ _
    SinewaveTable_decodes windowTable_decodes (sineSamples_decode k) k hk5 hk hc
  exact ⟨p, h1, h2⟩

/-- C23. With the sine table and the Hann window that `main` computes, and for the pure
sine at bin `k` as the content of `sample_array` (amplitude 100 around the mid-scale value
128, every sample an 8-bit value), the pass of the analysis task (windowing, `FFTfix`,
magnitudes, peak scan) returns and reports the peak bin `max_fr_dex = k` itself, for
`k = 5`, `k = 51`, `k = 256` and `k = 511`: the two ends of the usable range `5..N/2-1`,
its middle and one more bin. -/
theorem pure_sine_peak_bins :
    (∀ k i, 0 ≤ (sineSamples k).getD i 0 ∧ (sineSamples k).getD i 0 ≤ 255) ∧
    (∃ p, spectralPeak SinewaveTable windowTable (sineSamples 5) 10 = some p ∧ p.max_fr_dex = 5) ∧
    (∃ p, spectralPeak SinewaveTable windowTable (sineSamples 51) 10 = some p ∧
      p.max_fr_dex = 51) ∧
    (∃ p, spectralPeak SinewaveTable windowTable (sineSamples 256) 10 = some p ∧
      p.max_fr_dex = 256) ∧
    (∃ p, spectralPeak SinewaveTable windowTable (sineSamples 511) 10 = some p ∧
      p.max_fr_dex = 511) :=
  ⟨sineSamples_range,
   sine_peak 5 (by decide) (by decide) peakCheck_5,
   sine_peak 51 (by decide) (by decide) peakCheck_51,
   sine_peak 256 (by decide) (by decide) peakCheck_256,
   sine_peak 511 (by decide) (by decide) peakCheck_511⟩

end Trees
